import Mathlib

/-!
# RandLib: stable family, parameter validation and batch evaluation

A shallow embedding of parts of the RandLib sources.  A C++ double is a real number
(exact real arithmetic); where a function can also return one of the sentinels INFINITY or
NAN its result type is Value.  Instance fields become structure fields and a setter becomes
a function from the instance before the call to the instance after it.

Code that the sources call but do not contain (the base class LimitingDistribution, the
helpers of RandMath, the static samplers of other distributions, erfc, lgamma) is taken as
a parameter of the function that calls it.
-/

namespace RandLib

/-- A double returned by a moment or by one of the dispatching member functions: a real
number or one of the two sentinels the sources write as INFINITY and NAN. -/
inductive Value where
  | num (x : ℝ)
  | INFINITY
  | NAN

set_option genInjectivity false
set_option genSizeOfSpec false
set_option genSizeOf false

/-- The regime tag of StableRand.  The five named values are the case labels of the switch
statements; unexpected stands for any other content of the field (for instance before the
first assignment), which those switches send to their default branch. -/
inductive DISTRIBUTION_ID where
  | NORMAL
  | CAUCHY
  | LEVY
  | UNITY_EXPONENT
  | COMMON
  | unexpected
deriving DecidableEq, Repr

/-- Fields of the base class LimitingDistribution that StableRand.cpp reads.  The defaults
only serve to write concrete instances briefly. -/
structure LimitingDistribution where
  alpha : ℝ := 0
  alphaInv : ℝ := 0
  beta : ℝ := 0
  mu : ℝ := 0
  sigma : ℝ := 0
  logSigma : ℝ := 0
  B : ℝ := 0
  S : ℝ := 0
  zeta : ℝ := 0

/-- An instance of StableRand: the base-class fields and the coefficients cached by
StableRand::SetParameters and StableRand::SetScale. -/
structure StableRand extends LimitingDistribution where
  distributionId : DISTRIBUTION_ID := DISTRIBUTION_ID.unexpected
  alpha_alpham1 : ℝ := 0
  alpham1Inv : ℝ := 0
  pdfCoef : ℝ := 0
  pdfXLimit : ℝ := 0
  xi : ℝ := 0
  integrandCoef : ℝ := 0
  lgammaExponent : ℝ := 0
  pdfCoefLimit : ℝ := 0

/-- The constant M_PI of cmath. -/
noncomputable def M_PI : ℝ := Real.pi

/-- The constant M_E of cmath. -/
noncomputable def M_E : ℝ := Real.exp 1

/-- The constant M_1_PI of cmath, 1/pi. -/
noncomputable def M_1_PI : ℝ := 1 / Real.pi

/-- The constant M_PI_2 of cmath, pi/2. -/
noncomputable def M_PI_2 : ℝ := Real.pi / 2

/-- The constant M_2_PI of cmath, 2/pi. -/
noncomputable def M_2_PI : ℝ := 2 / Real.pi

/-- The constant M_SQRT2 of cmath. -/
noncomputable def M_SQRT2 : ℝ := Real.sqrt 2

/-- Modelled from the spec: the constant M_1_SQRTPI, declared in a header that is not among
the sources; 1/sqrt(pi), the factor for which the Gaussian scenario of the spec gives
density(0) = 1/(2 sqrt(pi)). -/
noncomputable def M_1_SQRTPI : ℝ := 1 / Real.sqrt Real.pi

/-- Modelled from the spec: the constant M_1_SQRT2PI, declared in a header that is not among
the sources; 1/sqrt(2 pi), as its name says. -/
noncomputable def M_1_SQRT2PI : ℝ := 1 / Real.sqrt (2 * Real.pi)

/-- The function std::lgamma: the logarithm of the absolute value of the gamma function. -/
noncomputable def lgamma (x : ℝ) : ℝ := Real.log |Real.Gamma x|

namespace StableRand

open DISTRIBUTION_ID

/-- StableRand::SetParameters (StableRand.cpp 26-58).  lgamma is std::lgamma, areClose is
RandMath::areClose with its default tolerance, baseSetParameters is
LimitingDistribution::SetParameters acting on the base-class fields; none of them is among
the sources. -/
noncomputable def SetParameters (lgamma : ℝ → ℝ) (areClose : ℝ → ℝ → Bool)
    (baseSetParameters : LimitingDistribution → ℝ → ℝ → LimitingDistribution)
    (s : StableRand) (exponent skewness : ℝ) : StableRand :=
  let s0 : StableRand :=
    { s with toLimitingDistribution := baseSetParameters s.toLimitingDistribution exponent skewness }
  let s1 : StableRand :=
    { s0 with distributionId :=
        if areClose s0.alpha 2.0 then NORMAL
        else if areClose s0.alpha 1.0 then (if s0.beta = 0.0 then CAUCHY else UNITY_EXPONENT)
        else if areClose s0.alpha 0.5 && areClose |s0.beta| 1.0 then LEVY
        else COMMON }
  let s2 : StableRand := { s1 with alpha_alpham1 := s1.alpha / (s1.alpha - 1.0) }
  let s3 : StableRand := { s2 with alpham1Inv := s2.alpha_alpham1 - 1.0 }
  if s3.distributionId = UNITY_EXPONENT then
    { s3 with
        pdfCoef := 0.5 / s3.beta
        pdfXLimit := Real.sqrt (2e4 / M_PI * M_E) }
  else if s3.distributionId = COMMON then
    let s4 : StableRand := { s3 with xi := s3.alphaInv * s3.B }
    let s5 : StableRand := { s4 with integrandCoef := s4.alpham1Inv * Real.log (Real.cos s4.B) }
    let s6 : StableRand := { s5 with pdfCoef := M_1_PI * s5.alpha / (|1 - s5.alpha| * s5.sigma) }
    let s7 : StableRand := { s6 with lgammaExponent := lgamma s6.alpha }
    let s8 : StableRand := { s7 with pdfCoefLimit := s7.alpha * Real.sin (M_PI_2 * s7.alpha) / M_PI }
    let s9 : StableRand := { s8 with pdfXLimit := 2e4 * s8.pdfCoefLimit * Real.exp s8.lgammaExponent }
    { s9 with pdfXLimit := s9.pdfXLimit ^ (1.0 / (s9.alpha + 1)) }
  else s3

/-- StableRand::SetScale (StableRand.cpp 60-69).  baseSetScale is
LimitingDistribution::SetScale, which is not among the sources. -/
noncomputable def SetScale (baseSetScale : LimitingDistribution → ℝ → LimitingDistribution)
    (s : StableRand) (scale : ℝ) : StableRand :=
  let s0 : StableRand := { s with toLimitingDistribution := baseSetScale s.toLimitingDistribution scale }
  if s0.distributionId = NORMAL then
    { s0 with pdfCoef := 0.5 / s0.sigma }
  else if s0.distributionId = LEVY then
    { s0 with pdfCoef := M_1_SQRT2PI * Real.sqrt s0.sigma }
  else if s0.distributionId = COMMON then
    { s0 with pdfCoef := M_1_PI * s0.alpha / (|1 - s0.alpha| * s0.sigma) }
  else s0

/-- StableRand::pdfNormal (StableRand.cpp 71-78). -/
noncomputable def pdfNormal (s : StableRand) (x : ℝ) : ℝ :=
  let y := x - s.mu
  let y := y * s.pdfCoef
  let y := y * y
  let y := Real.exp (-y)
  M_1_SQRTPI * s.pdfCoef * y

/-- StableRand::pdfCauchy (StableRand.cpp 80-87). -/
noncomputable def pdfCauchy (s : StableRand) (x : ℝ) : ℝ :=
  let y := x - s.mu
  let y := y * y
  let y := y / s.sigma
  let y := y + s.sigma
  M_1_PI / y

/-- StableRand::pdfLevy (StableRand.cpp 89-99). -/
noncomputable def pdfLevy (s : StableRand) (x : ℝ) : ℝ :=
  if x ≤ s.mu then 0
  else
    let xInv := 1.0 / (x - s.mu)
    let y := -0.5 * s.sigma * xInv
    let y := Real.exp y
    let y := y * xInv
    let y := y * Real.sqrt xInv
    s.pdfCoef * y

/-- StableRand::cdfCauchy (StableRand.cpp 302-315).  The test is written as in the source:
the comparison x0 < 1.0 yields a bool, std::fabs turns it into 1.0 or 0.0, and the
condition of the if holds when that number is not zero. -/
noncomputable def cdfCauchy (s : StableRand) (x : ℝ) : ℝ :=
  let x0 := x - s.mu
  let x0 := x0 / s.sigma
  if |(if x0 < 1.0 then (1 : ℝ) else 0)| ≠ 0 then
    let y := Real.arctan x0
    let y := y * M_1_PI
    y + 0.5
  else
    let y := -Real.arctan (1.0 / x0) * M_1_PI
    if x0 < 0 then y else 1.0 + y

/-- The variant of cdfCauchy that the spec calls the evidently intended one: the branch
test is fabs(x0) < 1.0, everything else is as in the source. -/
noncomputable def cdfCauchyIntended (s : StableRand) (x : ℝ) : ℝ :=
  let x0 := x - s.mu
  let x0 := x0 / s.sigma
  if |x0| < 1.0 then
    let y := Real.arctan x0
    let y := y * M_1_PI
    y + 0.5
  else
    let y := -Real.arctan (1.0 / x0) * M_1_PI
    if x0 < 0 then y else 1.0 + y

/-- StableRand::f (StableRand.cpp 277-293).  The bodies of the two branches that integrate
numerically are passed in. -/
noncomputable def f (pdfForUnityExponent pdfForCommonExponent : StableRand → ℝ → ℝ)
    (s : StableRand) (x : ℝ) : Value :=
  match s.distributionId with
  | NORMAL => Value.num (pdfNormal s x)
  | CAUCHY => Value.num (pdfCauchy s x)
  | LEVY => Value.num (if s.beta > 0 then pdfLevy s x else pdfLevy s (-x))
  | UNITY_EXPONENT => Value.num (pdfForUnityExponent s x)
  | COMMON => Value.num (pdfForCommonExponent s x)
  | unexpected => Value.NAN

/-- StableRand::cdfNormal (StableRand.cpp 295-300); erfc is std::erfc. -/
def cdfNormal (erfc : ℝ → ℝ) (s : StableRand) (x : ℝ) : ℝ :=
  let y := x - s.mu
  let y := y * s.pdfCoef
  0.5 * erfc (-y)

/-- StableRand::cdfLevy (StableRand.cpp 317-326); erfc is std::erfc. -/
noncomputable def cdfLevy (erfc : ℝ → ℝ) (s : StableRand) (x : ℝ) : ℝ :=
  if x ≤ s.mu then 0
  else
    let y := x - s.mu
    let y := y + y
    let y := s.sigma / y
    let y := Real.sqrt y
    erfc y

/-- StableRand::F (StableRand.cpp 397-413).  The bodies of the two branches that integrate
numerically are passed in. -/
noncomputable def F (erfc : ℝ → ℝ)
    (cdfForUnityExponent cdfForCommonExponent : StableRand → ℝ → ℝ)
    (s : StableRand) (x : ℝ) : Value :=
  match s.distributionId with
  | NORMAL => Value.num (cdfNormal erfc s x)
  | CAUCHY => Value.num (cdfCauchy s x)
  | LEVY => Value.num (if s.beta > 0 then cdfLevy erfc s x else 1.0 - cdfLevy erfc s (-x))
  | UNITY_EXPONENT => Value.num (cdfForUnityExponent s x)
  | COMMON => Value.num (cdfForCommonExponent s x)
  | unexpected => Value.NAN

/-- StableRand::Variance (StableRand.cpp 498-501). -/
noncomputable def Variance (s : StableRand) : Value :=
  if s.distributionId = NORMAL then Value.num (2 * s.sigma * s.sigma) else Value.INFINITY

/-- StableRand::Skewness (StableRand.cpp 518-521). -/
def Skewness (s : StableRand) : Value :=
  if s.distributionId = NORMAL then Value.num 0 else Value.NAN

/-- StableRand::ExcessKurtosis (StableRand.cpp 523-526). -/
def ExcessKurtosis (s : StableRand) : Value :=
  if s.distributionId = NORMAL then Value.num 0 else Value.NAN

end StableRand

/-- The static samplers of other classes that StableRand.cpp and CauchyRand.cpp call and the
sources do not contain.  The random generator is an explicit stream state of type Ω: a
sampler maps the state before the draw to the drawn number and the state after it. -/
structure Samplers (Ω : Type) where
  UniformRand_Variate : ℝ → ℝ → Ω → ℝ × Ω
  ExponentialRand_StandardVariate : Ω → ℝ × Ω
  NormalRand_Variate : ℝ → ℝ → Ω → ℝ × Ω
  LevyRand_Variate : ℝ → ℝ → Ω → ℝ × Ω

namespace CauchyRand

/-- CauchyRand::F (CauchyRand.cpp 19-22). -/
noncomputable def F (s : StableRand) (x : ℝ) : ℝ :=
  StableRand.cdfCauchy s x

/-- CauchyRand::quantileImpl (CauchyRand.cpp 50-53). -/
noncomputable def quantileImpl (s : StableRand) (p : ℝ) : ℝ :=
  s.mu - s.sigma / Real.tan (M_PI * p)

/-- CauchyRand::StandardVariate (CauchyRand.cpp 34-42).  The do-while loop runs at most
fuel times; none means that the fuel ran out before a pair was accepted. -/
noncomputable def StandardVariate {Ω : Type} (g : Samplers Ω) : Nat → Ω → Option (ℝ × Ω)
  | 0, _ => none
  | fuel + 1, w =>
    let x := g.UniformRand_Variate (-1) 1 w
    let y := g.UniformRand_Variate (-1) 1 x.2
    if y.1 = 0.0 ∨ x.1 * x.1 + y.1 * y.1 > 1.0 then StandardVariate g fuel y.2
    else some (x.1 / y.1, y.2)

/-- The static CauchyRand::Variate(location, scale) (CauchyRand.cpp 29-32). -/
noncomputable def Variate {Ω : Type} (g : Samplers Ω) (fuel : Nat) (location scale : ℝ) (w : Ω) :
    Option (ℝ × Ω) :=
  (StandardVariate g fuel w).map (fun r => (location + scale * r.1, r.2))

end CauchyRand

namespace StableRand

open DISTRIBUTION_ID

/-- StableRand::variateForCommonExponent (StableRand.cpp 415-426). -/
noncomputable def variateForCommonExponent {Ω : Type} (g : Samplers Ω) (s : StableRand) (w : Ω) :
    ℝ × Ω :=
  let U := g.UniformRand_Variate (-M_PI_2) M_PI_2 w
  let W := g.ExponentialRand_StandardVariate U.2
  let alphaUB := s.alpha * U.1 + s.B
  let X := Real.sin alphaUB
  let W_adj := W.1 / Real.cos (U.1 - alphaUB)
  let X := X * W_adj
  let R := s.S - s.alphaInv * Real.log (W_adj * Real.cos U.1)
  let X := X * Real.exp R
  (s.mu + s.sigma * X, W.2)

/-- StableRand::variateForUnityExponent (StableRand.cpp 428-439). -/
noncomputable def variateForUnityExponent {Ω : Type} (g : Samplers Ω) (s : StableRand) (w : Ω) :
    ℝ × Ω :=
  let U := g.UniformRand_Variate (-M_PI_2) M_PI_2 w
  let W := g.ExponentialRand_StandardVariate U.2
  let pi_2pBetaU := M_PI_2 + s.beta * U.1
  let X := s.logSigma
  let X := X - Real.log (M_PI_2 * W.1 * Real.cos U.1 / pi_2pBetaU)
  let X := X * s.beta
  let X := X + pi_2pBetaU * Real.tan U.1
  let X := X * M_2_PI
  (s.mu + s.sigma * X, W.2)

/-- StableRand::Variate (StableRand.cpp 441-457).  sign is RandMath::sign, which is not among
the sources; fuel bounds the rejection loop of the Cauchy sampler, and none means that it
ran out. -/
noncomputable def Variate {Ω : Type} (sign : ℝ → ℝ) (g : Samplers Ω) (fuel : Nat)
    (s : StableRand) (w : Ω) : Option (Value × Ω) :=
  match s.distributionId with
  | NORMAL =>
    let r := g.NormalRand_Variate s.mu (M_SQRT2 * s.sigma) w
    some (Value.num r.1, r.2)
  | CAUCHY =>
    (CauchyRand.Variate g fuel s.mu s.sigma w).map (fun r => (Value.num r.1, r.2))
  | LEVY =>
    let r := g.LevyRand_Variate s.mu s.sigma w
    some (Value.num (sign s.beta * r.1), r.2)
  | UNITY_EXPONENT =>
    let r := variateForUnityExponent g s w
    some (Value.num r.1, r.2)
  | COMMON =>
    let r := variateForCommonExponent g s w
    some (Value.num r.1, r.2)
  | unexpected => some (Value.NAN, w)

/-- The regime rule in the words of the spec: NORMAL if alpha is close to 2; otherwise, if
alpha is close to 1, CAUCHY when beta is zero and UNITY_EXPONENT when it is not; otherwise
LEVY if alpha is close to 0.5 and the absolute value of beta is close to 1; otherwise
COMMON. -/
noncomputable def regimeRule (areClose : ℝ → ℝ → Bool) (alpha beta : ℝ) : DISTRIBUTION_ID :=
  if areClose alpha 2 then NORMAL
  else if areClose alpha 1 then (if beta = 0 then CAUCHY else UNITY_EXPONENT)
  else if areClose alpha (1 / 2) ∧ areClose |beta| 1 then LEVY
  else COMMON

end StableRand

namespace StableRand

open DISTRIBUTION_ID

/-- Consistency of the cached pdfCoef in the words of the spec: it equals the value that the
density formula of the current regime uses for the current sigma.  The Cauchy density does
not read pdfCoef, so nothing is asked there. -/
def pdfCoefConsistent (s : StableRand) : Prop :=
  match s.distributionId with
  | NORMAL => s.pdfCoef = 0.5 / s.sigma
  | LEVY => s.pdfCoef = Real.sqrt s.sigma / Real.sqrt (2 * Real.pi)
  | COMMON => s.pdfCoef = s.alpha / (Real.pi * |1 - s.alpha| * s.sigma)
  | UNITY_EXPONENT => s.pdfCoef = 0.5 / s.beta
  | CAUCHY => True
  | unexpected => True

end StableRand

set_option genInjectivity true

/-- The result of calling a member function that may throw: it returned, or it raised an
exception with the given message; in both cases s is the instance after the call. -/
inductive Outcome (σ : Type) where
  | returned (s : σ)
  | raised (what : String) (s : σ)

set_option genInjectivity false

/-- Whether the call raised. -/
def Outcome.isRaised {σ : Type} : Outcome σ → Bool
  | Outcome.returned _ => false
  | Outcome.raised _ _ => true

/-- The instance after the call, whether it returned or raised. -/
def Outcome.state {σ : Type} : Outcome σ → σ
  | Outcome.returned s => s
  | Outcome.raised _ s => s

/-- The constant M_SQRT1_2 of cmath, 1/sqrt(2). -/
noncomputable def M_SQRT1_2 : ℝ := 1 / Real.sqrt 2

/-- An instance of ExponentiallyModifiedGaussianRand: the components X (a NormalRand) and
Y (an ExponentialRand), whose classes are not among the sources, and the cached
coefficients. -/
structure ExponentiallyModifiedGaussianRand (NX EY : Type) where
  X : NX
  Y : EY
  a : ℝ
  b : ℝ
  c : ℝ
  v : ℝ

/-- The member functions of NormalRand and ExponentialRand that
ExponentiallyModifiedGaussianRand::SetParameters calls; none is among the sources.  A
setter may itself raise. -/
structure EMGComponents (NX EY : Type) where
  X_SetLocation : NX → ℝ → Outcome NX
  X_SetVariance : NX → ℝ → Outcome NX
  Y_SetRate : EY → ℝ → Outcome EY
  X_GetLocation : NX → ℝ
  X_GetScale : NX → ℝ
  Y_GetRate : EY → ℝ

namespace ExponentiallyModifiedGaussianRand

/-- ExponentiallyModifiedGaussianRand::SetParameters
(ExponentiallyModifiedGaussianRand.cpp 15-35).  An exception raised by a component setter
propagates; the instance then holds what had been assigned up to that call. -/
noncomputable def SetParameters {NX EY : Type} (m : EMGComponents NX EY)
    (s : ExponentiallyModifiedGaussianRand NX EY) (location variance rate : ℝ) :
    Outcome (ExponentiallyModifiedGaussianRand NX EY) :=
  if variance ≤ 0 then
    Outcome.raised "Exponentially modified Gaussian distribution: variance should be positive" s
  else if rate ≤ 0 then
    Outcome.raised "Exponentially modified Gaussian distribution: rate should be positive" s
  else
    match m.X_SetLocation s.X location with
    | Outcome.raised what x1 => Outcome.raised what { s with X := x1 }
    | Outcome.returned x1 =>
      match m.X_SetVariance x1 variance with
      | Outcome.raised what x2 => Outcome.raised what { s with X := x2 }
      | Outcome.returned x2 =>
        match m.Y_SetRate s.Y rate with
        | Outcome.raised what y1 => Outcome.raised what { s with X := x2, Y := y1 }
        | Outcome.returned y1 =>
          let mu := m.X_GetLocation x2
          let sigma := m.X_GetScale x2
          let beta := m.Y_GetRate y1
          let var := sigma * sigma
          let a := 0.5 * beta * var
          let c := mu + a
          let a := a + c
          let b := M_SQRT1_2 / sigma
          let v := beta * sigma
          Outcome.returned { X := x2, Y := y1, a := a, b := b, c := c, v := v }

end ExponentiallyModifiedGaussianRand

/-- An instance of BetaBinomialRand: the number n (an int), the cached pmfCoef and the
component B (a BetaRand), whose class is not among the sources. -/
structure BetaBinomialRand (BR : Type) where
  n : Int
  pmfCoef : ℝ
  B : BR

/-- The functions that BetaBinomialRand.cpp calls and the sources do not contain: the
member functions of BetaRand, RandMath::lfact and std::lgammal.  The setter may itself
raise. -/
structure BetaBinomialComponents (BR : Type) where
  B_SetShapes : BR → ℝ → ℝ → Outcome BR
  B_GetAlpha : BR → ℝ
  B_GetBeta : BR → ℝ
  B_GetLogBetaFunction : BR → ℝ
  lfact : Int → ℝ
  lgammal : ℝ → ℝ

namespace BetaBinomialRand

/-- BetaBinomialRand::SetParameters (BetaBinomialRand.cpp 17-28). -/
noncomputable def SetParameters {BR : Type} (m : BetaBinomialComponents BR)
    (s : BetaBinomialRand BR) (number : Int) (shape1 shape2 : ℝ) :
    Outcome (BetaBinomialRand BR) :=
  if shape1 ≤ 0.0 ∨ shape2 ≤ 0.0 then
    Outcome.raised "Beta-Binomial distribution: shape parameters should be positive" s
  else if number ≤ 0 then
    Outcome.raised "Beta-Binomial distribution: number should be positive" s
  else
    let s1 : BetaBinomialRand BR := { s with n := number }
    match m.B_SetShapes s1.B shape1 shape2 with
    | Outcome.raised what b1 => Outcome.raised what { s1 with B := b1 }
    | Outcome.returned b1 =>
      let s2 : BetaBinomialRand BR := { s1 with B := b1 }
      let pmfCoef := m.lfact s2.n
      let pmfCoef := pmfCoef - m.lgammal (m.B_GetAlpha s2.B + m.B_GetBeta s2.B + s2.n)
      let pmfCoef := pmfCoef - m.B_GetLogBetaFunction s2.B
      Outcome.returned { s2 with pmfCoef := pmfCoef }

end BetaBinomialRand

/-- The enumeration GENERATOR_ID of NegativeBinomialRand. -/
inductive GENERATOR_ID where
  | TABLE
  | EXPONENTIAL
  | GAMMA_POISSON
deriving DecidableEq, Repr

/-- An instance of NegativeBinomialRand<T>: the parameters, the cached coefficients, the
component GammaRV (a GammaRand, whose class is not among the sources) and the lookup table,
an array read and written by index. -/
structure NegativeBinomialRand (T G : Type) where
  r : T
  p : ℝ
  q : ℝ
  logP : ℝ
  logQ : ℝ
  qDivP : ℝ
  pdfCoef : ℝ
  GammaRV : G
  table : Nat → ℝ

/-- What NegativeBinomialRand.cpp uses and the sources do not contain: the conversion of the
number type T to double, the member functions of GammaRand (the setter may itself raise)
and the constant tableSize; and the one member function that is specialised per T,
GetIdOfUsedGenerator, as a function of the fields r and p that it reads. -/
structure NegativeBinomialContext (T G : Type) where
  toDouble : T → ℝ
  GammaRV_SetParameters : G → ℝ → ℝ → Outcome G
  GammaRV_GetScale : G → ℝ
  GammaRV_GetLogGammaFunction : G → ℝ
  tableSize : Nat
  GetIdOfUsedGenerator : T → ℝ → GENERATOR_ID

namespace NegativeBinomialRand

open GENERATOR_ID

/-- NegativeBinomialRand<int>::GetIdOfUsedGenerator (NegativeBinomialRand.cpp 66-77). -/
noncomputable def GetIdOfUsedGenerator_int (r : Int) (p : ℝ) : GENERATOR_ID :=
  if r < 10 then (if p < 0.08 then EXPONENTIAL else TABLE)
  else GAMMA_POISSON

/-- NegativeBinomialRand<double>::GetIdOfUsedGenerator (NegativeBinomialRand.cpp 79-83). -/
def GetIdOfUsedGenerator_double (_r : ℝ) (_p : ℝ) : GENERATOR_ID :=
  GAMMA_POISSON

/-- NegativeBinomialRand<T>::SetValidParameters (NegativeBinomialRand.cpp 17-22). -/
noncomputable def SetValidParameters {T G : Type} [LinearOrderedRing T]
    (s : NegativeBinomialRand T G) (number : T) (probability : ℝ) : NegativeBinomialRand T G :=
  let s1 : NegativeBinomialRand T G := { s with r := if number > 0 then number else 1 }
  { s1 with p := if probability > 1.0 ∨ probability < 0.0 then 0.5 else probability }

/-- The loop that fills the table (NegativeBinomialRand.cpp 40-44): k iterations are left,
i is the loop index and prod the running product. -/
def tableLoop (q : ℝ) : Nat → Nat → ℝ → (Nat → ℝ) → (Nat → ℝ)
  | 0, _, _, table => table
  | k + 1, i, prod, table =>
    let prod := prod * q
    tableLoop q k (i + 1) prod (Function.update table i (table (i - 1) + prod))

/-- NegativeBinomialRand<T>::SetParameters (NegativeBinomialRand.cpp 24-46); std::log1p(x)
is log(1 + x). -/
noncomputable def SetParameters {T G : Type} [LinearOrderedRing T]
    (m : NegativeBinomialContext T G)
    (s : NegativeBinomialRand T G) (number : T) (probability : ℝ) :
    Outcome (NegativeBinomialRand T G) :=
  let s1 := SetValidParameters s number probability
  let s2 : NegativeBinomialRand T G := { s1 with q := 1.0 - s1.p }
  let s3 : NegativeBinomialRand T G := { s2 with logP := Real.log s2.p }
  let s4 : NegativeBinomialRand T G := { s3 with logQ := Real.log (1 + -s3.p) }
  match m.GammaRV_SetParameters s4.GammaRV (m.toDouble s4.r) (s4.p / s4.q) with
  | Outcome.raised what g1 => Outcome.raised what { s4 with GammaRV := g1 }
  | Outcome.returned g1 =>
    let s5 : NegativeBinomialRand T G := { s4 with GammaRV := g1 }
    let s6 : NegativeBinomialRand T G := { s5 with qDivP := m.GammaRV_GetScale s5.GammaRV }
    let s7 : NegativeBinomialRand T G := { s6 with pdfCoef := m.toDouble s6.r * s6.logP }
    let s8 : NegativeBinomialRand T G :=
      { s7 with pdfCoef := s7.pdfCoef - m.GammaRV_GetLogGammaFunction s7.GammaRV }
    if m.GetIdOfUsedGenerator s8.r s8.p = TABLE then
      let table0 := Function.update s8.table 0 s8.p
      Outcome.returned
        { s8 with table := tableLoop s8.q (m.tableSize - 1) 1 s8.p table0 }
    else Outcome.returned s8

end NegativeBinomialRand

namespace ProbabilityDistribution

/-- The loop of ProbabilityDistribution<T>::cdf (ProbabilityDistribution.cpp 31-32): the
first argument is the part of x from index i on, and y[i] = F(x[i]) is executed for each of
its elements in turn. -/
def cdfLoop {T K : Type} (F : T → K) : List T → Nat → List K → List K
  | [], _, y => y
  | xi :: rest, i, y => cdfLoop F rest (i + 1) (y.set i (F xi))

/-- ProbabilityDistribution<T>::cdf (ProbabilityDistribution.cpp 25-33): the vector y after
the call.  F is the virtual function F of the distribution. -/
def cdf {T K : Type} (F : T → K) (x : List T) (y : List K) : List K :=
  let size := x.length
  if size > y.length then y
  else cdfLoop F x 0 y

end ProbabilityDistribution

/-- An instance of UniformDiscreteRand: the int fields a, b, n and the double nInv.  The int
arithmetic is exact (no overflow is modelled). -/
structure UniformDiscreteRand (K : Type) where
  a : Int
  b : Int
  n : Int
  nInv : K

namespace UniformDiscreteRand

variable {K : Type} [LinearOrderedField K] [FloorRing K]

/-- UniformDiscreteRand::swapBoundaries (UniformDiscreteRand.cpp 21-27). -/
def swapBoundaries (s : UniformDiscreteRand K) : UniformDiscreteRand K :=
  let s1 := { s with a := s.a + s.b }
  let s2 := { s1 with b := s1.b - s1.a }
  let s3 := { s2 with a := s2.a + s2.b }
  { s3 with b := -s3.b }

/-- UniformDiscreteRand::setBoundaries (UniformDiscreteRand.cpp 9-19). -/
def setBoundaries (s : UniformDiscreteRand K) (minValue maxValue : Int) : UniformDiscreteRand K :=
  let s1 := { s with a := minValue }
  let s2 := { s1 with b := maxValue }
  let s3 := if s2.b < s2.a then swapBoundaries s2 else s2
  let s4 := { s3 with n := s3.b - s3.a + 1 }
  { s4 with nInv := 1 / (s4.n : K) }

/-- UniformDiscreteRand::P (UniformDiscreteRand.cpp 29-34). -/
def P (s : UniformDiscreteRand K) (k : Int) : K :=
  if k < s.a ∨ k > s.b then 0
  else s.nInv

/-- UniformDiscreteRand::F (UniformDiscreteRand.cpp 36-39). -/
def F (s : UniformDiscreteRand K) (x : K) : K :=
  s.nInv * ((⌊x⌋ : K) - (s.a : K) + 1)

end UniformDiscreteRand

/-! ## Stand-ins for concrete evaluation

The theorems below hold for every choice of the code that the sources do not contain.  To
evaluate a setter on concrete arguments some choice has to be made; the following ones keep
the parameters they are given and reject the non-positive ones. -/

/-- A stand-in for NormalRand and ExponentialRand: X is the pair (location, scale) and Y the
rate. -/
noncomputable def standInEMGComponents : EMGComponents (ℝ × ℝ) ℝ where
  X_SetLocation := fun x location => Outcome.returned (location, x.2)
  X_SetVariance := fun x variance =>
    if variance ≤ 0 then Outcome.raised "Normal distribution: variance should be positive" x
    else Outcome.returned (x.1, Real.sqrt variance)
  Y_SetRate := fun y rate =>
    if rate ≤ 0 then Outcome.raised "Exponential distribution: rate should be positive" y
    else Outcome.returned rate
  X_GetLocation := fun x => x.1
  X_GetScale := fun x => x.2
  Y_GetRate := fun y => y

/-- A stand-in for BetaRand and RandMath::lfact: B is the pair of shapes; std::lgammal is
lgamma. -/
noncomputable def standInBetaBinomialComponents : BetaBinomialComponents (ℝ × ℝ) where
  B_SetShapes := fun b shape1 shape2 =>
    if shape1 ≤ 0 ∨ shape2 ≤ 0 then
      Outcome.raised "Beta distribution: shapes should be positive" b
    else Outcome.returned (shape1, shape2)
  B_GetAlpha := fun b => b.1
  B_GetBeta := fun b => b.2
  B_GetLogBetaFunction := fun b => lgamma b.1 + lgamma b.2 - lgamma (b.1 + b.2)
  lfact := fun n => Real.log (n.toNat.factorial)
  lgammal := lgamma

/-- A stand-in for the context of NegativeBinomialRand<int>: GammaRV is the pair
(shape, scale), the table has 16 entries. -/
noncomputable def standInNegativeBinomialContext : NegativeBinomialContext Int (ℝ × ℝ) where
  toDouble := fun r => (r : ℝ)
  GammaRV_SetParameters := fun g shape rate =>
    if shape ≤ 0 ∨ rate ≤ 0 then
      Outcome.raised "Gamma distribution: parameters should be positive" g
    else Outcome.returned (shape, 1 / rate)
  GammaRV_GetScale := fun g => g.2
  GammaRV_GetLogGammaFunction := fun g => lgamma g.1
  tableSize := 16
  GetIdOfUsedGenerator := NegativeBinomialRand.GetIdOfUsedGenerator_int

/-! ## Further closed-form members, the chi-squared and Rademacher classes, the uniform
generator -/

namespace CauchyRand

/-- CauchyRand::f (CauchyRand.cpp 14-17). -/
noncomputable def f (s : StableRand) (x : ℝ) : ℝ :=
  StableRand.pdfCauchy s x

end CauchyRand

namespace StableRand

/-- StableRand::fastpdfExponentiation (StableRand.cpp 101-106). -/
noncomputable def fastpdfExponentiation (u : ℝ) : ℝ :=
  if u > 5 ∨ u < -100 then 0.0
  else if u < -50 then Real.exp u else Real.exp (u - Real.exp u)

/-- StableRand::fastcdfExponentiation (StableRand.cpp 328-336). -/
noncomputable def fastcdfExponentiation (u : ℝ) : ℝ :=
  if u > 5.0 then 0.0
  else if u < -150 then 1.0
  else
    let y := Real.exp u
    Real.exp (-y)

end StableRand

/-- An instance of ChiSquaredRand: the degree k (an int) and the cached pdfCoef. -/
structure ChiSquaredRand where
  k : Int
  pdfCoef : ℝ

namespace ChiSquaredRand

/-- ChiSquaredRand::pdf (ChiSquaredRand.cpp 26-33); std::pow is the real power. -/
noncomputable def pdf (s : ChiSquaredRand) (x : ℝ) : ℝ :=
  if x ≤ 0 then 0
  else
    let y := x ^ (0.5 * (s.k : ℝ) - 1)
    let y := y * Real.exp (-0.5 * x)
    s.pdfCoef * y

/-- ChiSquaredRand::cdf (ChiSquaredRand.cpp 35-38). -/
def cdf (_s : ChiSquaredRand) (x : ℝ) : ℝ :=
  x

end ChiSquaredRand

namespace RademacherRand

/-- RademacherRand::P (RademacherRand.cpp 13-16). -/
noncomputable def P (k : Int) : ℝ :=
  if |k| = 1 then 0.5 else 0.0

/-- RademacherRand::F (RademacherRand.cpp 18-23). -/
noncomputable def F (k : Int) : ℝ :=
  if k < -1 then 0
  else if k < 1 then 0.5 else 1.0

end RademacherRand

/-- The function std::round: the nearest integer, a half being rounded away from zero. -/
def stdRound {K : Type} [LinearOrderedField K] [FloorRing K] (x : K) : Int :=
  if 0 ≤ x then ⌊x + 1 / 2⌋ else ⌈x - 1 / 2⌉

namespace UniformDiscreteRand

variable {K : Type} [LinearOrderedField K] [FloorRing K]

/-- The last two statements of UniformDiscreteRand::variate (UniformDiscreteRand.cpp 45-46),
as a function of the intermediate rv of the line before. -/
def variateFromRv (s : UniformDiscreteRand K) (rv : K) : Int :=
  let rv := rv * ((s.n : K) - 1)
  stdRound (rv + (s.a : K))

/-- UniformDiscreteRand::variate (UniformDiscreteRand.cpp 41-47).  signedRand is the value
of (signed)BasicRandGenerator::getRand() and maxInv that of BasicRandGenerator::maxInv();
the generator is not among the sources. -/
def variate (s : UniformDiscreteRand K) (signedRand : Int) (maxInv : K) : Int :=
  let rv := 1 / 2 + (signedRand : K) * maxInv
  variateFromRv s rv

end UniformDiscreteRand

/-! ## Batch sampling -/

/-- The range-based for statement that the Sample functions use,
for (T &var : outputData) var = body(): every element of outputData in order is
overwritten by the value that body draws, and the stream state is passed on from one draw to
the next.  The body gives none when it does not return, and so does the loop then. -/
def rangeFor {T Ω : Type} (body : Ω → Option (T × Ω)) : List T → Ω → Option (List T × Ω)
  | [], w => some ([], w)
  | _ :: rest, w =>
    match body w with
    | none => none
    | some r =>
      match rangeFor body rest r.2 with
      | none => none
      | some rs => some (r.1 :: rs.1, rs.2)

/-- In the words of the spec: n successive calls of variate, the results in the order of the
calls, and the stream state after the last one. -/
def successiveVariates {T Ω : Type} (variate : Ω → Option (T × Ω)) :
    Nat → Ω → Option (List T × Ω)
  | 0, w => some ([], w)
  | n + 1, w =>
    match variate w with
    | none => none
    | some r =>
      match successiveVariates variate n r.2 with
      | none => none
      | some rs => some (r.1 :: rs.1, rs.2)

namespace ProbabilityDistribution

/-- ProbabilityDistribution<T>::sample (ProbabilityDistribution.cpp 18-23): outputData and
the stream after the call. -/
def sample {T Ω : Type} (variate : Ω → Option (T × Ω)) (outputData : List T) (w : Ω) :
    Option (List T × Ω) :=
  rangeFor variate outputData w

end ProbabilityDistribution

namespace StableRand

open DISTRIBUTION_ID

/-- StableRand::Sample (StableRand.cpp 459-496): outputData and the stream after the call;
fuel bounds the rejection loop of each Cauchy draw. -/
noncomputable def Sample {Ω : Type} (g : Samplers Ω) (fuel : Nat) (s : StableRand)
    (outputData : List Value) (w : Ω) : Option (List Value × Ω) :=
  match s.distributionId with
  | NORMAL =>
    rangeFor (fun w1 =>
      let r := g.NormalRand_Variate s.mu (M_SQRT2 * s.sigma) w1
      some (Value.num r.1, r.2)) outputData w
  | CAUCHY =>
    rangeFor (fun w1 =>
      (CauchyRand.Variate g fuel s.mu s.sigma w1).map (fun r => (Value.num r.1, r.2)))
      outputData w
  | LEVY =>
    if s.beta > 0 then
      rangeFor (fun w1 =>
        let r := g.LevyRand_Variate s.mu s.sigma w1
        some (Value.num r.1, r.2)) outputData w
    else
      rangeFor (fun w1 =>
        let r := g.LevyRand_Variate s.mu s.sigma w1
        some (Value.num (-r.1), r.2)) outputData w
  | UNITY_EXPONENT =>
    rangeFor (fun w1 =>
      let r := variateForUnityExponent g s w1
      some (Value.num r.1, r.2)) outputData w
  | COMMON =>
    rangeFor (fun w1 =>
      let r := variateForCommonExponent g s w1
      some (Value.num r.1, r.2)) outputData w
  | unexpected => some (outputData, w)

end StableRand

/-- The samplers that NegativeBinomialRand.cpp calls and the sources do not contain, on an
explicit stream state Ω; GammaRV_Variate is the member function Variate of the component
GammaRV. -/
structure NegativeBinomialSamplers (Ω G : Type) where
  UniformRand_StandardVariate : Ω → ℝ × Ω
  ExponentialRand_Variate : ℝ → Ω → ℝ × Ω
  PoissonRand_Variate : ℝ → Ω → Int × Ω
  GammaRV_Variate : G → Ω → ℝ × Ω

namespace NegativeBinomialRand

open GENERATOR_ID

/-- NegativeBinomialRand<T>::variateThroughGammaPoisson (NegativeBinomialRand.cpp 85-89). -/
def variateThroughGammaPoisson {T G Ω : Type} (g : NegativeBinomialSamplers Ω G)
    (s : NegativeBinomialRand T G) (w : Ω) : Int × Ω :=
  let rate := g.GammaRV_Variate s.GammaRV w
  g.PoissonRand_Variate rate.1 rate.2

/-- The loop while (U > table[x]) ++x of variateGeometricByTable
(NegativeBinomialRand.cpp 100-101), started at x and run for at most fuel tests; none means
that the fuel ran out. -/
noncomputable def tableSearch (table : Nat → ℝ) (U : ℝ) : Nat → Nat → Option Nat
  | 0, _ => none
  | fuel + 1, x => if U > table x then tableSearch table U fuel (x + 1) else some x

/-- NegativeBinomialRand<int>::variateGeometricByTable (NegativeBinomialRand.cpp 91-103).
The fuel bounds the depth of the recursion and the number of tests of the loop; none means
that it ran out. -/
noncomputable def variateGeometricByTable {G Ω : Type} (tableSize : Nat)
    (g : NegativeBinomialSamplers Ω G) (s : NegativeBinomialRand Int G) :
    Nat → Ω → Option (Int × Ω)
  | 0, _ => none
  | fuel + 1, w =>
    let U := g.UniformRand_StandardVariate w
    if U.1 > s.table (tableSize - 1) then
      (variateGeometricByTable tableSize g s fuel U.2).map
        (fun r => ((tableSize : Int) + r.1, r.2))
    else
      (tableSearch s.table U.1 (fuel + 1) 0).map (fun x => ((x : Int), U.2))

/-- NegativeBinomialRand<int>::variateGeometricThroughExponential
(NegativeBinomialRand.cpp 105-109). -/
noncomputable def variateGeometricThroughExponential {G Ω : Type}
    (g : NegativeBinomialSamplers Ω G) (s : NegativeBinomialRand Int G) (w : Ω) : Int × Ω :=
  let e := g.ExponentialRand_Variate (-s.logQ) w
  (⌊e.1⌋, e.2)

/-- The loop for (int i = 0; i < r; ++i) var += draw() of variateByTable and
variateThroughExponential: k iterations are left and var is the running sum. -/
def sumLoop {Ω : Type} (draw : Ω → Option (Int × Ω)) : Nat → Int → Ω → Option (Int × Ω)
  | 0, var, w => some (var, w)
  | k + 1, var, w =>
    match draw w with
    | none => none
    | some r => sumLoop draw k (var + r.1) r.2

/-- NegativeBinomialRand<int>::variateByTable (NegativeBinomialRand.cpp 111-119). -/
noncomputable def variateByTable {G Ω : Type} (tableSize : Nat)
    (g : NegativeBinomialSamplers Ω G) (fuel : Nat) (s : NegativeBinomialRand Int G) (w : Ω) :
    Option (Int × Ω) :=
  sumLoop (variateGeometricByTable tableSize g s fuel) s.r.toNat 0 w

/-- NegativeBinomialRand<int>::variateThroughExponential
(NegativeBinomialRand.cpp 121-129). -/
noncomputable def variateThroughExponential {G Ω : Type}
    (g : NegativeBinomialSamplers Ω G) (s : NegativeBinomialRand Int G) (w : Ω) :
    Option (Int × Ω) :=
  sumLoop (fun w1 => some (variateGeometricThroughExponential g s w1)) s.r.toNat 0 w

/-- NegativeBinomialRand<double>::Variate (NegativeBinomialRand.cpp 131-135). -/
def Variate_double {G Ω : Type} (g : NegativeBinomialSamplers Ω G)
    (s : NegativeBinomialRand ℝ G) (w : Ω) : Option (Int × Ω) :=
  some (variateThroughGammaPoisson g s w)

/-- NegativeBinomialRand<int>::Variate (NegativeBinomialRand.cpp 137-144). -/
noncomputable def Variate_int {G Ω : Type} (tableSize : Nat)
    (g : NegativeBinomialSamplers Ω G) (fuel : Nat) (s : NegativeBinomialRand Int G) (w : Ω) :
    Option (Int × Ω) :=
  let genId := GetIdOfUsedGenerator_int s.r s.p
  if genId = TABLE then variateByTable tableSize g fuel s w
  else if genId = EXPONENTIAL then variateThroughExponential g s w
  else some (variateThroughGammaPoisson g s w)

/-- NegativeBinomialRand<double>::Sample (NegativeBinomialRand.cpp 146-151). -/
def Sample_double {G Ω : Type} (g : NegativeBinomialSamplers Ω G)
    (s : NegativeBinomialRand ℝ G) (outputData : List Int) (w : Ω) : Option (List Int × Ω) :=
  rangeFor (fun w1 => some (variateThroughGammaPoisson g s w1)) outputData w

/-- NegativeBinomialRand<int>::Sample (NegativeBinomialRand.cpp 153-169). -/
noncomputable def Sample_int {G Ω : Type} (tableSize : Nat)
    (g : NegativeBinomialSamplers Ω G) (fuel : Nat) (s : NegativeBinomialRand Int G)
    (outputData : List Int) (w : Ω) : Option (List Int × Ω) :=
  let genId := GetIdOfUsedGenerator_int s.r s.p
  if genId = TABLE then
    rangeFor (fun w1 => variateByTable tableSize g fuel s w1) outputData w
  else if genId = EXPONENTIAL then
    rangeFor (fun w1 => variateThroughExponential g s w1) outputData w
  else
    rangeFor (fun w1 => some (variateThroughGammaPoisson g s w1)) outputData w

/-- The generator that belongs to an identifier, in the words of the spec: the table
method, the exponential method, or the composition through the gamma and Poisson
distributions. -/
noncomputable def generatorOf {G Ω : Type} (tableSize : Nat)
    (g : NegativeBinomialSamplers Ω G) (fuel : Nat) (s : NegativeBinomialRand Int G) :
    GENERATOR_ID → Ω → Option (Int × Ω)
  | TABLE => variateByTable tableSize g fuel s
  | EXPONENTIAL => variateThroughExponential g s
  | GAMMA_POISSON => fun w => some (variateThroughGammaPoisson g s w)

end NegativeBinomialRand

/-- A stand-in for the absent samplers on a stream whose state counts the draws: a draw
returns its location argument plus the count. -/
def standInSamplers : Samplers Nat where
  UniformRand_Variate := fun lo _ w => (lo + w, w + 1)
  ExponentialRand_StandardVariate := fun w => (1 + w, w + 1)
  NormalRand_Variate := fun mu _ w => (mu + w, w + 1)
  LevyRand_Variate := fun mu _ w => (mu + w, w + 1)

/-! ## The branches of the stable density and distribution function that integrate -/

/-- The helpers and constants of RandMath that StableRand.cpp uses and the sources do not
contain.  findRoot(f, a, b, root) is given the content of root before the call and returns
its content after it (the callers ignore the returned bool); integral is the call with a
tolerance and a recursion depth, integralDefault the call that leaves both to their
defaults. -/
structure RandMath where
  areClose : ℝ → ℝ → Bool
  findRoot : (ℝ → ℝ) → ℝ → ℝ → ℝ → ℝ
  integral : (ℝ → ℝ) → ℝ → ℝ → ℝ → Nat → ℝ
  integralDefault : (ℝ → ℝ) → ℝ → ℝ → ℝ
  linearInterpolation : ℝ → ℝ → ℝ → ℝ → ℝ → ℝ
  BIG_NUMBER : ℝ
  MIN_POSITIVE : ℝ

/-- The function std::log where its result is finite: the logarithm of zero is minus
infinity and that of a negative number is NaN, which none stands for. -/
noncomputable def finiteLog (x : ℝ) : Option ℝ :=
  if 0 < x then some (Real.log x) else none

/-- The division of doubles where its result is finite: a division by zero gives an infinity
or NaN, which none stands for. -/
noncomputable def finiteDiv (x y : ℝ) : Option ℝ :=
  if y = 0 then none else some (x / y)

namespace StableRand

/-- The value u of integrandAuxForUnityExponent before the test for infinity and NaN
(StableRand.cpp 116-119); none when it is not finite.  An infinity or NaN that arises in
one of the operations stays one in all later ones. -/
noncomputable def uForUnityExponent (s : StableRand) (theta : ℝ) : Option ℝ :=
  let cosTheta := Real.cos theta
  (finiteDiv (M_PI_2 + s.beta * theta) cosTheta).bind fun thetaAdj =>
  (finiteLog (M_2_PI * thetaAdj)).bind fun u =>
  (finiteDiv (thetaAdj * Real.sin theta) s.beta).bind fun t =>
  some (u + t)

/-- StableRand::integrandAuxForUnityExponent (StableRand.cpp 108-127). -/
noncomputable def integrandAuxForUnityExponent (rm : RandMath) (s : StableRand)
    (theta xAdj : ℝ) : ℝ :=
  if theta > M_PI_2 ∨ rm.areClose theta M_PI_2 then
    (if s.beta > 0 then rm.BIG_NUMBER else -rm.BIG_NUMBER)
  else if theta < -M_PI_2 ∨ rm.areClose theta (-M_PI_2) then
    (if s.beta > 0 then -rm.BIG_NUMBER else rm.BIG_NUMBER)
  else if theta = 0.0 then xAdj
  else
    match uForUnityExponent s theta with
    | none =>
      if theta < 0.0 then (if s.beta > 0 then -rm.BIG_NUMBER else rm.BIG_NUMBER)
      else (if s.beta > 0 then rm.BIG_NUMBER else -rm.BIG_NUMBER)
    | some u => u + xAdj

/-- StableRand::integrandForUnityExponent (StableRand.cpp 129-135). -/
noncomputable def integrandForUnityExponent (rm : RandMath) (s : StableRand)
    (theta xAdj : ℝ) : ℝ :=
  if |theta| ≥ M_PI_2 then 0.0
  else
    let u := integrandAuxForUnityExponent rm s theta xAdj
    fastpdfExponentiation u

/-- StableRand::pdfForUnityExponent (StableRand.cpp 137-172). -/
noncomputable def pdfForUnityExponent (rm : RandMath) (s : StableRand) (x : ℝ) : ℝ :=
  let xSt := (x - s.mu) / s.sigma - M_2_PI * s.beta * s.logSigma
  if |xSt| > s.pdfXLimit then
    let y := 1.0 / (M_PI * xSt * xSt)
    let y := y * (if xSt > 0 then 1 + s.beta else 1 - s.beta)
    y
  else
    let xAdj := -M_PI * xSt * s.pdfCoef
    let theta0 := 0
    let theta0 := rm.findRoot (fun theta => integrandAuxForUnityExponent rm s theta xAdj)
      (-M_PI_2) M_PI_2 theta0
    let theta0 := if |theta0| ≥ M_PI_2 then 0.0 else theta0
    let closeness := M_PI_2 - |theta0|
    let maxRecursionDepth : Nat :=
      if closeness < 0.1 then 20
      else if closeness < 0.2 then 15
      else 11
    let int1 := rm.integral (fun theta => integrandForUnityExponent rm s theta xAdj)
      (-M_PI_2) theta0 1e-11 maxRecursionDepth
    let int2 := rm.integral (fun theta => integrandForUnityExponent rm s theta xAdj)
      theta0 M_PI_2 1e-11 maxRecursionDepth
    |s.pdfCoef| * (int1 + int2) / s.sigma

/-- The value y of integrandAuxForCommonExponent before the test for infinity and NaN
(StableRand.cpp 180-186); none when it is not finite. -/
noncomputable def yForCommonExponent (s : StableRand) (theta xiAdj : ℝ) : Option ℝ :=
  let thetaAdj := s.alpha * (theta + xiAdj)
  let sinThetaAdj := Real.sin thetaAdj
  (finiteLog (Real.cos theta)).bind fun logCosTheta =>
  (finiteLog sinThetaAdj).bind fun logSin =>
  let y := logCosTheta
  let y := y - s.alpha * logSin
  let y := y * s.alpham1Inv
  (finiteLog (Real.cos (thetaAdj - theta))).bind fun logCos =>
  some (y + logCos)

/-- StableRand::integrandAuxForCommonExponent (StableRand.cpp 174-195). -/
noncomputable def integrandAuxForCommonExponent (rm : RandMath) (s : StableRand)
    (theta xAdj xiAdj : ℝ) : ℝ :=
  if theta > M_PI_2 ∨ rm.areClose theta M_PI_2 then
    (if s.alpha < 1 then rm.BIG_NUMBER else -rm.BIG_NUMBER)
  else if theta < -M_PI_2 ∨ rm.areClose theta (-M_PI_2) ∨ theta < -xiAdj
      ∨ rm.areClose theta (-xiAdj) then
    (if s.alpha < 1 then -rm.BIG_NUMBER else rm.BIG_NUMBER)
  else
    match yForCommonExponent s theta xiAdj with
    | none =>
      if theta < 0.5 * (M_PI_2 - xiAdj) then
        (if s.alpha < 1 then -rm.BIG_NUMBER else rm.BIG_NUMBER)
      else (if s.alpha < 1 then rm.BIG_NUMBER else -rm.BIG_NUMBER)
    | some y => s.integrandCoef + xAdj + y

/-- StableRand::integrandForCommonExponent (StableRand.cpp 197-205). -/
noncomputable def integrandForCommonExponent (rm : RandMath) (s : StableRand)
    (theta xAdj xiAdj : ℝ) : ℝ :=
  if |theta| ≥ M_PI_2 then 0.0
  else if theta ≤ -xiAdj then 0.0
  else
    let u := integrandAuxForCommonExponent rm s theta xAdj xiAdj
    fastpdfExponentiation u

/-- The value f(0) that pdfForCommonExponent computes for the interpolation
(StableRand.cpp 226-230); lgamma is std::lgamma and std::log1p(x) is log(1 + x). -/
noncomputable def pdfAtZeroForCommonExponent (lgamma : ℝ → ℝ) (s : StableRand) : ℝ :=
  let y0 := lgamma (1 + s.alphaInv)
  let y0 := y0 - 0.5 * s.alphaInv * Real.log (1 + s.zeta * s.zeta)
  let y0 := Real.exp y0
  let y0 := y0 * Real.cos s.xi
  y0 / (M_PI * s.sigma)

/-- The tail approximation of pdfForCommonExponent (StableRand.cpp 246-251). -/
noncomputable def pdfTailForCommonExponent (s : StableRand) (xSt logAbsX : ℝ) : ℝ :=
  let y := s.lgammaExponent
  let y := y - (s.alpha + 1) * logAbsX
  let y := Real.exp y
  let y := y * s.pdfCoefLimit
  let y := y * (if xSt > 0 then 1 + s.beta else 1 - s.beta)
  y

/-- The part of pdfForCommonExponent after the standardization and the two tests on the
side of the support (StableRand.cpp 223-274).  self is the function itself, for the
recursive call; theta0Init is the content of the local theta0, which is not initialised,
before findRoot is called. -/
noncomputable def pdfForCommonExponentRest (lgamma : ℝ → ℝ) (rm : RandMath) (theta0Init : ℝ)
    (self : ℝ → Option ℝ) (s : StableRand) (xSt absXSt xiAdj : ℝ) : Option ℝ :=
  if absXSt < 1e-4 then
    let y0 := pdfAtZeroForCommonExponent lgamma s
    if |xSt| < rm.MIN_POSITIVE then some y0
    else
      let b := if xSt > 0 then 1.1e-4 else -1.1e-4
      (self (s.mu + s.sigma * b)).map fun y1 => rm.linearInterpolation 0 b y0 y1 xSt
  else if -xiAdj ≥ M_PI_2 then some 0.0
  else
    let logAbsX := Real.log absXSt
    if absXSt > s.pdfXLimit then some (pdfTailForCommonExponent s xSt logAbsX)
    else
      let xAdj := s.alpha_alpham1 * logAbsX
      let theta0 := rm.findRoot
        (fun theta => integrandAuxForCommonExponent rm s theta xAdj xiAdj)
        (-xiAdj) M_PI_2 theta0Init
      let closeness := M_PI_2 - theta0
      let closeness := min closeness (theta0 + xiAdj)
      let maxRecursionDepth : Nat :=
        if closeness < 0.1 then 20
        else if closeness < 0.2 then 15
        else 11
      let int1 := rm.integral
        (fun theta => integrandForCommonExponent rm s theta xAdj xiAdj)
        (-xiAdj) theta0 1e-11 maxRecursionDepth
      let int2 := rm.integral
        (fun theta => integrandForCommonExponent rm s theta xAdj xiAdj)
        theta0 M_PI_2 1e-11 maxRecursionDepth
      some (s.pdfCoef * (int1 + int2) / absXSt)

/-- One activation of StableRand::pdfForCommonExponent (StableRand.cpp 207-275); self is
the function itself, for the recursive call. -/
noncomputable def pdfForCommonExponentStep (lgamma : ℝ → ℝ) (rm : RandMath) (theta0Init : ℝ)
    (self : ℝ → Option ℝ) (s : StableRand) (x : ℝ) : Option ℝ :=
  let xSt := (x - s.mu) / s.sigma
  if xSt > 0 then
    if s.alpha < 1 ∧ s.beta = -1 then some 0.0
    else pdfForCommonExponentRest lgamma rm theta0Init self s xSt xSt s.xi
  else
    if s.alpha < 1 ∧ s.beta = 1 then some 0.0
    else pdfForCommonExponentRest lgamma rm theta0Init self s xSt (-xSt) (-s.xi)

/-- StableRand::pdfForCommonExponent (StableRand.cpp 207-275) with the depth of its recursion
bounded by fuel; none means that the fuel ran out.  lgamma is std::lgamma. -/
noncomputable def pdfForCommonExponent (lgamma : ℝ → ℝ) (rm : RandMath) (theta0Init : ℝ) :
    Nat → StableRand → ℝ → Option ℝ
  | 0, _, _ => none
  | fuel + 1, s, x =>
    pdfForCommonExponentStep lgamma rm theta0Init (pdfForCommonExponent lgamma rm theta0Init fuel s) s x

/-- One activation of StableRand::cdfForCommonExponent (StableRand.cpp 338-381); self is
the function itself, for the recursive call. -/
noncomputable def cdfForCommonExponentStep (rm : RandMath) (self : ℝ → Option ℝ)
    (s : StableRand) (x : ℝ) : Option ℝ :=
  let x := (x - s.mu) / s.sigma
  if |x| < 1e-4 then
    let y0 := 0.5 - M_1_PI * s.xi
    if |x| < rm.MIN_POSITIVE then some y0
    else
      let b := if x > 0 then 1.1e-4 else -1.1e-4
      (self (s.mu + s.sigma * b)).map fun y1 => rm.linearInterpolation 0 b y0 y1 x
  else if x > 0 ∧ (s.alpha < 1 ∧ s.beta = -1) then some 1.0
  else if ¬ x > 0 ∧ (s.alpha < 1 ∧ s.beta = 1) then some 0.0
  else
    let xAdj := if x > 0 then s.alpha_alpham1 * Real.log x else s.alpha_alpham1 * Real.log (-x)
    let xiAdj := if x > 0 then s.xi else -s.xi
    let y := rm.integralDefault
      (fun theta =>
        let u := integrandAuxForCommonExponent rm s theta xAdj xiAdj
        fastcdfExponentiation u)
      (-xiAdj) M_PI_2
    let y := if s.alpha > 1 then 1.0 - y * M_1_PI else 0.5 + (y - xiAdj) * M_1_PI
    some (if x > 0 then y else 1 - y)

/-- StableRand::cdfForCommonExponent (StableRand.cpp 338-381) with the depth of its recursion
bounded by fuel; none means that the fuel ran out. -/
noncomputable def cdfForCommonExponent (rm : RandMath) : Nat → StableRand → ℝ → Option ℝ
  | 0, _, _ => none
  | fuel + 1, s, x => cdfForCommonExponentStep rm (cdfForCommonExponent rm fuel s) s x

/-- StableRand::cdfForUnityExponent (StableRand.cpp 383-395). -/
noncomputable def cdfForUnityExponent (rm : RandMath) (s : StableRand) (x : ℝ) : ℝ :=
  let x := (x - s.mu) / s.sigma - M_2_PI * s.beta * s.logSigma
  let xAdj := -M_PI * x * s.pdfCoef
  let y := rm.integralDefault
    (fun theta =>
      let u := integrandAuxForUnityExponent rm s theta xAdj
      fastcdfExponentiation u)
    (-M_PI_2) M_PI_2
  let y := y * M_1_PI
  if s.beta > 0 then y else 1 - y

end StableRand

/-- A stand-in for the absent helpers of RandMath: closeness is equality, findRoot leaves
root as it was, the integrals are 0, linearInterpolation is the line through (a, fa) and
(b, fb), and the constants are 1e9 and 1e-21. -/
noncomputable def standInRandMath : RandMath where
  areClose := fun a b => decide (a = b)
  findRoot := fun _ _ _ root => root
  integral := fun _ _ _ _ _ => 0
  integralDefault := fun _ _ _ => 0
  linearInterpolation := fun a b fa fb x => fa + (x - a) * (fb - fa) / (b - a)
  BIG_NUMBER := 1e9
  MIN_POSITIVE := 1e-21

/-! ## Mode of the stable family, mass of the beta-binomial distribution -/

namespace StableRand

open DISTRIBUTION_ID

/-- StableRand::Mode (StableRand.cpp 503-511).  baseMode is ContinuousDistribution::Mode,
which is not among the sources. -/
noncomputable def Mode (baseMode : StableRand → ℝ) (s : StableRand) : ℝ :=
  if s.beta = 0 then s.mu
  else if s.distributionId = LEVY then s.mu + s.beta * s.sigma / 3.0
  else baseMode s

end StableRand

namespace BetaBinomialRand

/-- BetaBinomialRand::logP (BetaBinomialRand.cpp 35-44). -/
noncomputable def logP {BR : Type} (m : BetaBinomialComponents BR) (s : BetaBinomialRand BR)
    (k : Int) : ℝ :=
  if k < 0 ∨ k > s.n then 0.0
  else
    let y := m.lgammal ((k : ℝ) + m.B_GetAlpha s.B)
    let y := y + m.lgammal (((s.n - k : Int) : ℝ) + m.B_GetBeta s.B)
    let y := y - m.lfact k
    let y := y - m.lfact (s.n - k)
    s.pmfCoef + y

/-- BetaBinomialRand::P (BetaBinomialRand.cpp 30-33). -/
noncomputable def P {BR : Type} (m : BetaBinomialComponents BR) (s : BetaBinomialRand BR)
    (k : Int) : ℝ :=
  if k < 0 ∨ k > s.n then 0.0 else Real.exp (logP m s k)

end BetaBinomialRand

namespace NegativeBinomialRand

/-- The geometric cumulative distribution in the words of the spec:
p (1 + q + ... + q^i). -/
noncomputable def geometricSum (p q : ℝ) (i : Nat) : ℝ :=
  p * ∑ l in Finset.range (i + 1), q ^ l

end NegativeBinomialRand

/-- A stand-in for the samplers of NegativeBinomialRand.cpp on the stream state Nat: every
uniform draw is 0.6 and advances the state by one. -/
noncomputable def standInNegativeBinomialSamplers : NegativeBinomialSamplers Nat (ℝ × ℝ) where
  UniformRand_StandardVariate := fun w => (0.6, w + 1)
  ExponentialRand_Variate := fun _ w => (0, w + 1)
  PoissonRand_Variate := fun _ w => (0, w + 1)
  GammaRV_Variate := fun _ w => (0, w + 1)

namespace StableRand

open DISTRIBUTION_ID

/-- The fields that the tail branch of pdfForCommonExponent reads, as the setters leave
them for StableRand(3/2, 0, scale, 0): SetParameters selects COMMON and caches pdfCoefLimit,
lgammaExponent and pdfXLimit from the exponent alone, and pdfCoef holds the factor
1 / scale. -/
noncomputable def commonInstance (scale : ℝ) : StableRand :=
  { alpha := 3 / 2, alphaInv := 2 / 3, beta := 0, mu := 0, sigma := scale,
    logSigma := Real.log scale,
    distributionId := COMMON,
    alpha_alpham1 := 3, alpham1Inv := 2,
    pdfCoef := M_1_PI * (3 / 2) / (|1 - 3 / 2| * scale),
    pdfCoefLimit := 3 / 2 * Real.sin (M_PI_2 * (3 / 2)) / M_PI,
    lgammaExponent := lgamma (3 / 2),
    pdfXLimit := (2e4 * (3 / 2 * Real.sin (M_PI_2 * (3 / 2)) / M_PI)
      * Real.exp (lgamma (3 / 2))) ^ (1.0 / ((3 / 2 : ℝ) + 1)) }

/-- The fields that pdfForUnityExponent reads, as the setters leave them for
StableRand(1, 1, scale, 0): SetParameters selects UNITY_EXPONENT and caches
pdfCoef = 0.5 / beta and pdfXLimit. -/
noncomputable def unityInstance (scale : ℝ) : StableRand :=
  { alpha := 1, alphaInv := 1, beta := 1, mu := 0, sigma := scale,
    logSigma := Real.log scale,
    distributionId := UNITY_EXPONENT,
    pdfCoef := 0.5 / 1,
    pdfXLimit := Real.sqrt (2e4 / M_PI * M_E) }

/-- The fields that Mode and pdfLevy read, as the setters leave them for
StableRand(0.5, -1, 1, 1): SetParameters selects LEVY and SetScale caches
pdfCoef = M_1_SQRT2PI * sqrt(sigma). -/
noncomputable def levyInstance : StableRand :=
  { alpha := 0.5, alphaInv := 2, beta := -1, mu := 1, sigma := 1, logSigma := 0,
    distributionId := LEVY,
    pdfCoef := M_1_SQRT2PI * Real.sqrt 1 }

/-- A stand-in for LimitingDistribution::SetParameters, which is not among the sources: it
stores the exponent, its inverse and the skewness, and B = atan(beta tan(pi alpha / 2)). -/
noncomputable def standInBaseSetParameters (l : LimitingDistribution)
    (exponent skewness : ℝ) : LimitingDistribution :=
  { l with
      alpha := exponent
      alphaInv := 1 / exponent
      beta := skewness
      B := Real.arctan (skewness * Real.tan (M_PI_2 * exponent)) }

/-- An instance with scale 1 and location 0 after SetParameters(3/10, beta), for a closeness
test of absolute tolerance 1e-6 and the skewness beta, a little below 1, for which
B = atan(beta tan(pi alpha / 2)) is (3/10)(pi/2 - 1e-7). -/
noncomputable def nearOneInstance : StableRand :=
  SetParameters lgamma (fun a b => decide (|a - b| < 1e-6)) standInBaseSetParameters
    { sigma := 1, mu := 0 } (3 / 10)
    (Real.tan (3 / 10 * (M_PI_2 - 1e-7)) / Real.tan (M_PI_2 * (3 / 10)))

end StableRand

/-! ## Theorems -/

namespace StableRand

open DISTRIBUTION_ID

theorem SetParameters_base (lgamma : ℝ → ℝ) (areClose : ℝ → ℝ → Bool)
    (baseSetParameters : LimitingDistribution → ℝ → ℝ → LimitingDistribution)
    (s : StableRand) (exponent skewness : ℝ) :
    (SetParameters lgamma areClose baseSetParameters s exponent skewness).toLimitingDistribution
      = baseSetParameters s.toLimitingDistribution exponent skewness := by
  unfold SetParameters
  simp only
  split_ifs <;> rfl

theorem SetParameters_tag (lgamma : ℝ → ℝ) (areClose : ℝ → ℝ → Bool)
    (baseSetParameters : LimitingDistribution → ℝ → ℝ → LimitingDistribution)
    (s : StableRand) (exponent skewness : ℝ) :
    (SetParameters lgamma areClose baseSetParameters s exponent skewness).distributionId
      = regimeRule areClose (baseSetParameters s.toLimitingDistribution exponent skewness).alpha
          (baseSetParameters s.toLimitingDistribution exponent skewness).beta := by
  unfold SetParameters regimeRule
  simp only
  norm_num
  split_ifs <;> simp_all

/-- C1: after StableRand::SetParameters the regime tag equals the rule of the spec applied
to the stored alpha and beta alone (so scale, location and the previous tag play no part), it
is one of the five named values, and f, F and Variate do not take their default branch,
the only place where they return NAN. -/
theorem C1_SetParameters_regime_tag {Ω : Type} (lgamma : ℝ → ℝ)
    (areClose : ℝ → ℝ → Bool)
    (baseSetParameters : LimitingDistribution → ℝ → ℝ → LimitingDistribution)
    (s : StableRand) (exponent skewness : ℝ)
    (pdfForUnityExponent pdfForCommonExponent cdfForUnityExponent cdfForCommonExponent :
      StableRand → ℝ → ℝ)
    (erfc sign : ℝ → ℝ) (g : Samplers Ω) (fuel : Nat) (w : Ω) (x : ℝ) :
    let t := SetParameters lgamma areClose baseSetParameters s exponent skewness
    t.distributionId = regimeRule areClose t.alpha t.beta
    ∧ t.distributionId ∈ [NORMAL, CAUCHY, LEVY, UNITY_EXPONENT, COMMON]
    ∧ f pdfForUnityExponent pdfForCommonExponent t x ≠ Value.NAN
    ∧ F erfc cdfForUnityExponent cdfForCommonExponent t x ≠ Value.NAN
    ∧ ∀ w2 : Ω, Variate sign g fuel t w ≠ some (Value.NAN, w2) := by
  have Variate_ne_NAN :
      ∀ (sign : ℝ → ℝ) (g : Samplers Ω) (fuel : Nat)
        (s : StableRand) (w w2 : Ω) (h : s.distributionId ≠ unexpected),
      Variate sign g fuel s w ≠ some (Value.NAN, w2) := by
    intro sign g fuel s w w2 h
    unfold Variate
    cases hid : s.distributionId <;> simp_all [CauchyRand.Variate]
  have F_ne_NAN :
      ∀ (erfc : ℝ → ℝ) (cdfForUnityExponent cdfForCommonExponent : StableRand → ℝ → ℝ)
        (s : StableRand) (x : ℝ) (h : s.distributionId ≠ unexpected),
      F erfc cdfForUnityExponent cdfForCommonExponent s x ≠ Value.NAN := by
    intro erfc cdfForUnityExponent cdfForCommonExponent s x h
    unfold F
    cases hid : s.distributionId <;> simp_all
  have f_ne_NAN :
      ∀ (pdfForUnityExponent pdfForCommonExponent : StableRand → ℝ → ℝ)
        (s : StableRand) (x : ℝ) (h : s.distributionId ≠ unexpected),
      f pdfForUnityExponent pdfForCommonExponent s x ≠ Value.NAN := by
    intro pdfForUnityExponent pdfForCommonExponent s x h
    unfold f
    cases hid : s.distributionId <;> simp_all
  intro t
  have htag : t.distributionId = regimeRule areClose t.alpha t.beta := by
    have h1 := SetParameters_tag lgamma areClose baseSetParameters s exponent skewness
    have h2 := SetParameters_base lgamma areClose baseSetParameters s exponent skewness
    show (SetParameters lgamma areClose baseSetParameters s exponent skewness).distributionId = _
    rw [h1]
    show _ = regimeRule areClose
      (SetParameters lgamma areClose baseSetParameters s exponent skewness).toLimitingDistribution.alpha
      (SetParameters lgamma areClose baseSetParameters s exponent skewness).toLimitingDistribution.beta
    rw [h2]
  have hmem : t.distributionId ∈ [NORMAL, CAUCHY, LEVY, UNITY_EXPONENT, COMMON] := by
    rw [htag]
    unfold regimeRule
    split_ifs <;> simp
  have hne : t.distributionId ≠ unexpected := by
    intro h
    rw [h] at hmem
    simp at hmem
  exact ⟨htag, hmem, f_ne_NAN _ _ t x hne, F_ne_NAN _ _ _ t x hne,
    fun w2 => Variate_ne_NAN sign g fuel t w w2 hne⟩

theorem cdfCauchy_eq (s : StableRand) (x : ℝ) :
    cdfCauchy s x = 1 / 2 + Real.arctan ((x - s.mu) / s.sigma) / Real.pi := by
  unfold cdfCauchy M_1_PI
  simp only
  generalize (x - s.mu) / s.sigma = x0
  have hpi : Real.pi ≠ 0 := Real.pi_ne_zero
  by_cases h : x0 < 1.0
  · simp only [h, if_true]
    norm_num
    ring
  · have h1 : (1 : ℝ) ≤ x0 := by
      have := not_lt.mp h
      norm_num at this
      exact this
    have hpos : 0 < x0 := lt_of_lt_of_le one_pos h1
    simp only [h, if_false]
    norm_num
    rw [if_neg (not_lt.mpr hpos.le), Real.arctan_inv_of_pos hpos]
    field_simp
    ring

/-- C3: for sigma > 0 the coded cdfCauchy, whose test takes the arctangent branch exactly when
x0 < 1, returns 1/2 + arctan((x - mu)/sigma)/pi for every x, the same value as the variant
with the intended test; CauchyRand::F is that function. -/
theorem C3_cdfCauchy_closed_form (s : StableRand) (x : ℝ) (hsigma : 0 < s.sigma) :
    (|(if (x - s.mu) / s.sigma < 1.0 then (1 : ℝ) else 0)| ≠ 0 ↔ (x - s.mu) / s.sigma < 1)
    ∧ cdfCauchy s x = 1 / 2 + Real.arctan ((x - s.mu) / s.sigma) / Real.pi
    ∧ cdfCauchyIntended s x = 1 / 2 + Real.arctan ((x - s.mu) / s.sigma) / Real.pi
    ∧ CauchyRand.F s x = cdfCauchyIntended s x := by
  have cdfCauchyIntended_eq :
      ∀ (s : StableRand) (x : ℝ),
      cdfCauchyIntended s x = 1 / 2 + Real.arctan ((x - s.mu) / s.sigma) / Real.pi := by
    intro s x
    unfold cdfCauchyIntended M_1_PI
    simp only
    generalize (x - s.mu) / s.sigma = x0
    have hpi : Real.pi ≠ 0 := Real.pi_ne_zero
    by_cases h : |x0| < 1.0
    · simp only [h, if_true]
      norm_num
      ring
    · have h1 : (1 : ℝ) ≤ |x0| := by
        have := not_lt.mp h
        norm_num at this
        exact this
      simp only [h, if_false]
      norm_num
      by_cases hneg : x0 < 0
      · rw [if_pos hneg, Real.arctan_inv_of_neg hneg]
        field_simp
        ring
      · have hpos : 0 < x0 := by
          rcases lt_or_eq_of_le (not_lt.mp hneg) with h0 | h0
          · exact h0
          · rw [← h0] at h1
            norm_num at h1
        rw [if_neg hneg, Real.arctan_inv_of_pos hpos]
        field_simp
        ring
  have _ := hsigma
  refine ⟨?_, cdfCauchy_eq s x, cdfCauchyIntended_eq s x, ?_⟩
  · by_cases h : (x - s.mu) / s.sigma < 1
    · have h2 : (x - s.mu) / s.sigma < 1.0 := by norm_num; exact h
      simp [h, h2]
    · have h2 : ¬ (x - s.mu) / s.sigma < 1.0 := by norm_num; exact not_lt.mp h
      simp [h, h2]
  · unfold CauchyRand.F
    rw [cdfCauchy_eq, cdfCauchyIntended_eq]

/-- Witness of C3 at Cauchy(0, 1): cumulative(0) = 0.5 and cumulative(1) = 0.75. -/
theorem C3_cdfCauchy_closed_form_witness :
    CauchyRand.F { mu := 0, sigma := 1, alpha := 1, distributionId := CAUCHY } 0 = 0.5
    ∧ CauchyRand.F { mu := 0, sigma := 1, alpha := 1, distributionId := CAUCHY } 1 = 0.75 := by
  have h0 := C3_cdfCauchy_closed_form
    { mu := 0, sigma := 1, alpha := 1, distributionId := CAUCHY } 0 (by norm_num)
  have h1 := C3_cdfCauchy_closed_form
    { mu := 0, sigma := 1, alpha := 1, distributionId := CAUCHY } 1 (by norm_num)
  have hpi : Real.pi ≠ 0 := Real.pi_ne_zero
  constructor
  · rw [h0.2.2.2, h0.2.2.1]
    norm_num
  · rw [h1.2.2.2, h1.2.2.1]
    norm_num [Real.arctan_one]
    field_simp
    ring

/-- C4: for sigma > 0 and p in the open interval (0, 1), CauchyRand::F applied to
CauchyRand::quantileImpl(p) = mu - sigma / tan(pi p) gives back p. -/
theorem C4_Cauchy_round_trip (s : StableRand) (p : ℝ) (hsigma : 0 < s.sigma)
    (hp0 : 0 < p) (hp1 : p < 1) :
    CauchyRand.quantileImpl s p = s.mu - s.sigma / Real.tan (Real.pi * p)
    ∧ CauchyRand.F s (CauchyRand.quantileImpl s p) = p := by
  have hpi : 0 < Real.pi := Real.pi_pos
  have hq : CauchyRand.quantileImpl s p = s.mu - s.sigma / Real.tan (Real.pi * p) := rfl
  refine ⟨hq, ?_⟩
  unfold CauchyRand.F
  rw [cdfCauchy_eq, hq]
  have hx0 : (s.mu - s.sigma / Real.tan (Real.pi * p) - s.mu) / s.sigma
      = Real.tan (Real.pi * p - Real.pi / 2) := by
    rw [Real.tan_eq_sin_div_cos, Real.tan_eq_sin_div_cos, Real.sin_sub_pi_div_two,
      Real.cos_sub_pi_div_two]
    have hs : s.sigma ≠ 0 := hsigma.ne.symm
    by_cases hc : Real.cos (Real.pi * p) = 0
    · simp [hc]
    · have hsin : Real.sin (Real.pi * p) ≠ 0 := by
        apply ne_of_gt
        apply Real.sin_pos_of_pos_of_lt_pi
        · positivity
        · nlinarith
      field_simp
      ring
  rw [hx0, Real.arctan_tan]
  · field_simp
    ring
  · nlinarith
  · nlinarith

/-- Witness of C4 at Cauchy(0, 1) and p = 0.5: cumulative(quantile(0.5)) = 0.5. -/
theorem C4_Cauchy_round_trip_witness :
    CauchyRand.F { mu := 0, sigma := 1, alpha := 1, distributionId := CAUCHY }
      (CauchyRand.quantileImpl { mu := 0, sigma := 1, alpha := 1, distributionId := CAUCHY } 0.5)
      = 0.5 :=
  (C4_Cauchy_round_trip { mu := 0, sigma := 1, alpha := 1, distributionId := CAUCHY } 0.5
    (by norm_num) (by norm_num) (by norm_num)).2

theorem SetScale_pdfCoef_NORMAL (baseSetScale : LimitingDistribution → ℝ → LimitingDistribution)
    (s : StableRand) (scale : ℝ) (hN : s.distributionId = NORMAL) :
    (SetScale baseSetScale s scale).distributionId = NORMAL
    ∧ (SetScale baseSetScale s scale).sigma = (baseSetScale s.toLimitingDistribution scale).sigma
    ∧ (SetScale baseSetScale s scale).pdfCoef = 0.5 / (SetScale baseSetScale s scale).sigma := by
  unfold SetScale
  simp [hN]

/-- C5: in the NORMAL regime with pdfCoef = 0.5/sigma, which is what SetScale stores there,
and sigma > 0, Variance() is 2 sigma^2 and pdfNormal(x) is
exp(-(x - mu)^2 / (4 sigma^2)) / (2 sigma sqrt(pi)) for every x. -/
theorem C5_normal_regime_normalization (s : StableRand) (hN : s.distributionId = NORMAL)
    (hcoef : s.pdfCoef = 0.5 / s.sigma) (hsigma : 0 < s.sigma) :
    Variance s = Value.num (2 * s.sigma ^ 2)
    ∧ (∀ x : ℝ, pdfNormal s x
        = Real.exp (-(x - s.mu) ^ 2 / (4 * s.sigma ^ 2)) / (2 * s.sigma * Real.sqrt Real.pi))
    ∧ (∀ (baseSetScale : LimitingDistribution → ℝ → LimitingDistribution) (scale : ℝ),
        (SetScale baseSetScale s scale).pdfCoef = 0.5 / (SetScale baseSetScale s scale).sigma) := by
  refine ⟨?_, ?_, fun b sc => (SetScale_pdfCoef_NORMAL b s sc hN).2.2⟩
  · unfold Variance
    rw [if_pos hN]
    congr 1
    ring
  · intro x
    unfold pdfNormal M_1_SQRTPI
    simp only [hcoef]
    have hs : s.sigma ≠ 0 := hsigma.ne.symm
    have hpi : Real.sqrt Real.pi ≠ 0 := (Real.sqrt_pos.mpr Real.pi_pos).ne.symm
    have he : -((x - s.mu) * (0.5 / s.sigma) * ((x - s.mu) * (0.5 / s.sigma)))
        = -(x - s.mu) ^ 2 / (4 * s.sigma ^ 2) := by
      field_simp
      ring
    rw [he]
    field_simp
    ring

/-- Witness of C5 at Stable(alpha = 2, beta = 0, sigma = 1, mu = 0): density(0) is
1/(2 sqrt(pi)) and variance() is 2. -/
theorem C5_normal_regime_normalization_witness :
    Variance { alpha := 2, beta := 0, sigma := 1, mu := 0, distributionId := NORMAL, pdfCoef := 0.5 }
      = Value.num 2
    ∧ pdfNormal
        { alpha := 2, beta := 0, sigma := 1, mu := 0, distributionId := NORMAL, pdfCoef := 0.5 } 0
      = 1 / (2 * Real.sqrt Real.pi) := by
  have h := C5_normal_regime_normalization
    { alpha := 2, beta := 0, sigma := 1, mu := 0, distributionId := NORMAL, pdfCoef := 0.5 }
    rfl (by norm_num) (by norm_num)
  constructor
  · rw [h.1]
    norm_num
  · rw [h.2.1]
    norm_num

/-- Counterexample to C6: on a Cauchy instance Variance() returns INFINITY, which is not the
not-a-number sentinel. -/
theorem C6_Variance_not_NAN :
    Variance { alpha := 1, beta := 0, sigma := 1, mu := 0, distributionId := CAUCHY }
      = Value.INFINITY
    ∧ Variance { alpha := 1, beta := 0, sigma := 1, mu := 0, distributionId := CAUCHY }
      ≠ Value.NAN := by
  constructor <;> simp [Variance]

/-- C6 as amended: outside the NORMAL regime Variance() returns INFINITY, and Skewness() and
ExcessKurtosis() return NAN; none of the three returns a number, so none returns 0. -/
theorem C6_non_Gaussian_moments (s : StableRand) (h : s.distributionId ≠ NORMAL) :
    Variance s = Value.INFINITY ∧ Skewness s = Value.NAN ∧ ExcessKurtosis s = Value.NAN
    ∧ (∀ r : ℝ, Variance s ≠ Value.num r ∧ Skewness s ≠ Value.num r
        ∧ ExcessKurtosis s ≠ Value.num r) := by
  unfold Variance Skewness ExcessKurtosis
  simp [h]

/-- Witness of the amended C6 on a Levy instance. -/
theorem C6_non_Gaussian_moments_witness :
    Variance { alpha := 0.5, beta := 1, sigma := 1, mu := 0, distributionId := LEVY }
      = Value.INFINITY
    ∧ Skewness { alpha := 0.5, beta := 1, sigma := 1, mu := 0, distributionId := LEVY }
      = Value.NAN
    ∧ ExcessKurtosis { alpha := 0.5, beta := 1, sigma := 1, mu := 0, distributionId := LEVY }
      = Value.NAN :=
  let h := C6_non_Gaussian_moments
    { alpha := 0.5, beta := 1, sigma := 1, mu := 0, distributionId := LEVY } (by decide)
  ⟨h.1, h.2.1, h.2.2.1⟩

theorem SetParameters_to_NORMAL (lgamma : ℝ → ℝ) (areClose : ℝ → ℝ → Bool)
    (baseSetParameters : LimitingDistribution → ℝ → ℝ → LimitingDistribution)
    (s : StableRand) (exponent skewness : ℝ)
    (h : areClose (baseSetParameters s.toLimitingDistribution exponent skewness).alpha 2 = true) :
    (SetParameters lgamma areClose baseSetParameters s exponent skewness).distributionId = NORMAL
    ∧ (SetParameters lgamma areClose baseSetParameters s exponent skewness).sigma
        = (baseSetParameters s.toLimitingDistribution exponent skewness).sigma
    ∧ (SetParameters lgamma areClose baseSetParameters s exponent skewness).pdfCoef = s.pdfCoef := by
  have SetParameters_pdfCoef_unchanged :
      ∀ (lgamma : ℝ → ℝ) (areClose : ℝ → ℝ → Bool)
        (baseSetParameters : LimitingDistribution → ℝ → ℝ → LimitingDistribution)
        (s : StableRand) (exponent skewness : ℝ)
        (h : (SetParameters lgamma areClose baseSetParameters s exponent skewness).distributionId = NORMAL
        ∨ (SetParameters lgamma areClose baseSetParameters s exponent skewness).distributionId = LEVY),
      (SetParameters lgamma areClose baseSetParameters s exponent skewness).pdfCoef = s.pdfCoef := by
    intro lgamma areClose baseSetParameters s exponent skewness h
    revert h
    unfold SetParameters
    simp only
    split_ifs <;> simp_all
  have htag : (SetParameters lgamma areClose baseSetParameters s exponent skewness).distributionId
      = NORMAL := by
    rw [SetParameters_tag]
    unfold regimeRule
    rw [if_pos h]
  refine ⟨htag, ?_, SetParameters_pdfCoef_unchanged _ _ _ _ _ _ (Or.inl htag)⟩
  show (SetParameters lgamma areClose baseSetParameters s exponent
    skewness).toLimitingDistribution.sigma = _
  rw [SetParameters_base]

theorem SetScale_pdfCoefConsistent (baseSetScale : LimitingDistribution → ℝ → LimitingDistribution)
    (s : StableRand) (scale : ℝ)
    (h : s.distributionId = NORMAL ∨ s.distributionId = LEVY ∨ s.distributionId = COMMON) :
    pdfCoefConsistent (SetScale baseSetScale s scale) := by
  have SetScale_fields :
      ∀ (baseSetScale : LimitingDistribution → ℝ → LimitingDistribution)
        (s : StableRand) (scale : ℝ),
      (SetScale baseSetScale s scale).distributionId = s.distributionId
      ∧ (SetScale baseSetScale s scale).toLimitingDistribution
      = baseSetScale s.toLimitingDistribution scale
      ∧ (s.distributionId = NORMAL →
      (SetScale baseSetScale s scale).pdfCoef
      = 0.5 / (baseSetScale s.toLimitingDistribution scale).sigma)
      ∧ (s.distributionId = LEVY →
      (SetScale baseSetScale s scale).pdfCoef
      = M_1_SQRT2PI * Real.sqrt (baseSetScale s.toLimitingDistribution scale).sigma)
      ∧ (s.distributionId = COMMON →
      (SetScale baseSetScale s scale).pdfCoef
      = M_1_PI * (baseSetScale s.toLimitingDistribution scale).alpha
      / (|1 - (baseSetScale s.toLimitingDistribution scale).alpha|
      * (baseSetScale s.toLimitingDistribution scale).sigma))
      ∧ (s.distributionId = UNITY_EXPONENT ∨ s.distributionId = CAUCHY →
      (SetScale baseSetScale s scale).pdfCoef = s.pdfCoef) := by
    intro baseSetScale s scale
    unfold SetScale
    simp only
    split_ifs with h1 h2 h3
    · simp [h1]
    · simp [h2]
    · simp [h3]
    · refine ⟨rfl, rfl, fun h => absurd h h1, fun h => absurd h h2, fun h => absurd h h3,
        fun _ => rfl⟩
  obtain ⟨htag, hbase, hN, hL, hC, _⟩ := SetScale_fields baseSetScale s scale
  have hsig : (SetScale baseSetScale s scale).sigma
      = (baseSetScale s.toLimitingDistribution scale).sigma := by
    show (SetScale baseSetScale s scale).toLimitingDistribution.sigma = _
    rw [hbase]
  have halpha : (SetScale baseSetScale s scale).alpha
      = (baseSetScale s.toLimitingDistribution scale).alpha := by
    show (SetScale baseSetScale s scale).toLimitingDistribution.alpha = _
    rw [hbase]
  unfold pdfCoefConsistent
  rcases h with h | h | h
  · rw [htag, h]
    simp only
    rw [hN h, hsig]
  · rw [htag, h]
    simp only
    rw [hL h, hsig]
    unfold M_1_SQRT2PI
    ring
  · rw [htag, h]
    simp only
    rw [hC h, hsig, halpha]
    unfold M_1_PI
    ring

theorem SetParameters_pdfCoef_recomputed (lgamma : ℝ → ℝ) (areClose : ℝ → ℝ → Bool)
    (baseSetParameters : LimitingDistribution → ℝ → ℝ → LimitingDistribution)
    (s : StableRand) (exponent skewness : ℝ) :
    ((SetParameters lgamma areClose baseSetParameters s exponent skewness).distributionId
        = UNITY_EXPONENT →
      (SetParameters lgamma areClose baseSetParameters s exponent skewness).pdfCoef
        = 0.5 / (SetParameters lgamma areClose baseSetParameters s exponent skewness).beta)
    ∧ ((SetParameters lgamma areClose baseSetParameters s exponent skewness).distributionId = COMMON →
      (SetParameters lgamma areClose baseSetParameters s exponent skewness).pdfCoef
        = M_1_PI * (SetParameters lgamma areClose baseSetParameters s exponent skewness).alpha
          / (|1 - (SetParameters lgamma areClose baseSetParameters s exponent skewness).alpha|
              * (SetParameters lgamma areClose baseSetParameters s exponent skewness).sigma)) := by
  unfold SetParameters
  simp only
  split_ifs <;> simp_all

/-- C2, evaluation at the failing input: on the instance Stable(1.5, 0, 1, 0), in the COMMON
regime with a consistent pdfCoef, the call SetParameters(2, 0) switches to NORMAL and leaves
pdfCoef at the COMMON value 3/pi, which is not 0.5/sigma.  The base setter used here stores
exponent and skewness, and the closeness test is equality. -/
theorem C2_SetParameters_leaves_pdfCoef_stale :
    pdfCoefConsistent
      { alpha := 1.5, beta := 0, sigma := 1, mu := 0, distributionId := COMMON,
        pdfCoef := M_1_PI * 1.5 / (|1 - 1.5| * 1) }
    ∧ (SetParameters lgamma (fun a b => decide (a = b)) (fun l e k => { l with alpha := e, beta := k })
        { alpha := 1.5, beta := 0, sigma := 1, mu := 0, distributionId := COMMON,
          pdfCoef := M_1_PI * 1.5 / (|1 - 1.5| * 1) } 2 0).distributionId = NORMAL
    ∧ (SetParameters lgamma (fun a b => decide (a = b)) (fun l e k => { l with alpha := e, beta := k })
        { alpha := 1.5, beta := 0, sigma := 1, mu := 0, distributionId := COMMON,
          pdfCoef := M_1_PI * 1.5 / (|1 - 1.5| * 1) } 2 0).sigma = 1
    ∧ (SetParameters lgamma (fun a b => decide (a = b)) (fun l e k => { l with alpha := e, beta := k })
        { alpha := 1.5, beta := 0, sigma := 1, mu := 0, distributionId := COMMON,
          pdfCoef := M_1_PI * 1.5 / (|1 - 1.5| * 1) } 2 0).pdfCoef = 3 / Real.pi
    ∧ ¬ pdfCoefConsistent
        (SetParameters lgamma (fun a b => decide (a = b)) (fun l e k => { l with alpha := e, beta := k })
          { alpha := 1.5, beta := 0, sigma := 1, mu := 0, distributionId := COMMON,
            pdfCoef := M_1_PI * 1.5 / (|1 - 1.5| * 1) } 2 0) := by
  have hpi : Real.pi ≠ 0 := Real.pi_ne_zero
  have habs : |(1 : ℝ) - 1.5| = 0.5 := by
    rw [abs_of_neg (by norm_num)]
    norm_num
  have hval : M_1_PI * 1.5 / (|(1 : ℝ) - 1.5| * 1) = 3 / Real.pi := by
    rw [habs]
    unfold M_1_PI
    field_simp
    ring
  have h3 : (3 : ℝ) / Real.pi ≠ 0.5 / 1 := by
    have := Real.pi_lt_four
    intro h
    field_simp at h
    linarith
  obtain ⟨h1, h2, h4⟩ := SetParameters_to_NORMAL lgamma (fun a b => decide (a = b))
    (fun l e k => { l with alpha := e, beta := k })
    { alpha := 1.5, beta := 0, sigma := 1, mu := 0, distributionId := COMMON,
      pdfCoef := M_1_PI * 1.5 / (|1 - 1.5| * 1) } 2 0 (by simp)
  refine ⟨?_, h1, h2, h4.trans hval, ?_⟩
  · unfold pdfCoefConsistent
    simp only [hval]
    have : |(1 : ℝ) - 1.5| = 1 / 2 := by rw [habs]; norm_num
    rw [this]
    field_simp
    ring
  · unfold pdfCoefConsistent
    rw [h1]
    simp only
    rw [h4, h2, hval]
    exact h3

end StableRand

namespace ProbabilityDistribution

theorem cdfLoop_length {T K : Type} (F : T → K) (x : List T) (i : Nat) (y : List K) :
    (cdfLoop F x i y).length = y.length := by
  induction x generalizing i y with
  | nil => rfl
  | cons xi rest ih =>
    show (cdfLoop F rest (i + 1) (y.set i (F xi))).length = y.length
    rw [ih, List.length_set]

theorem cdfLoop_getElem?_lt {T K : Type} (F : T → K) (x : List T) (i : Nat) (y : List K)
    (j : Nat) (h : j < i) : (cdfLoop F x i y)[j]? = y[j]? := by
  induction x generalizing i y with
  | nil => rfl
  | cons xi rest ih =>
    show (cdfLoop F rest (i + 1) (y.set i (F xi)))[j]? = y[j]?
    rw [ih (i + 1) _ (Nat.lt_succ_of_lt h), List.getElem?_set_ne (Nat.ne_of_gt h)]

theorem cdfLoop_getElem?_ge {T K : Type} (F : T → K) (x : List T) (i : Nat) (y : List K)
    (j : Nat) (h : i + x.length ≤ j) : (cdfLoop F x i y)[j]? = y[j]? := by
  induction x generalizing i y with
  | nil => rfl
  | cons xi rest ih =>
    have hlen : (xi :: rest).length = rest.length + 1 := rfl
    show (cdfLoop F rest (i + 1) (y.set i (F xi)))[j]? = y[j]?
    rw [ih (i + 1) _ (by omega), List.getElem?_set_ne (by omega)]

theorem cdfLoop_getElem?_mid {T K : Type} (F : T → K) (x : List T) (i : Nat) (y : List K)
    (k : Nat) (hk : k < x.length) (hy : i + x.length ≤ y.length) :
    (cdfLoop F x i y)[i + k]? = (x[k]?).map F := by
  induction x generalizing i y k with
  | nil => simp at hk
  | cons xi rest ih =>
    have hlen : (xi :: rest).length = rest.length + 1 := rfl
    show (cdfLoop F rest (i + 1) (y.set i (F xi)))[i + k]? = _
    cases k with
    | zero =>
      have h0 : i + 0 = i := rfl
      rw [h0, cdfLoop_getElem?_lt F rest (i + 1) _ i (Nat.lt_succ_self i),
        List.getElem?_set_self (by omega)]
      simp
    | succ k =>
      have h1 : i + (k + 1) = (i + 1) + k := by omega
      rw [h1, ih (i + 1) (y.set i (F xi)) k (by omega) (by rw [List.length_set]; omega)]
      simp

/-- C9: the postcondition of ProbabilityDistribution<T>::cdf(x, y).  If x is longer than y the
call leaves y as it was; otherwise the length of y is unchanged, y[i] = F(x[i]) for every
i below the length of x, and every later entry of y keeps its value. -/
theorem C9_cdf_postcondition {T K : Type} (F : T → K) (x : List T) (y : List K) :
    (x.length > y.length → cdf F x y = y)
    ∧ (x.length ≤ y.length →
        (cdf F x y).length = y.length
        ∧ (∀ i : Nat, i < x.length → (cdf F x y)[i]? = (x[i]?).map F)
        ∧ (∀ i : Nat, x.length ≤ i → (cdf F x y)[i]? = y[i]?)) := by
  constructor
  · intro h
    unfold cdf
    simp only [if_pos h]
  · intro h
    have hc : cdf F x y = cdfLoop F x 0 y := by
      unfold cdf
      simp only [if_neg (Nat.not_lt.mpr h)]
    rw [hc]
    refine ⟨cdfLoop_length F x 0 y, ?_, ?_⟩
    · intro i hi
      have := cdfLoop_getElem?_mid F x 0 y i hi (by omega)
      rwa [Nat.zero_add] at this
    · intro i hi
      exact cdfLoop_getElem?_ge F x 0 y i (by omega)

/-- Witness of C9: with F(t) = 10 t, x of length 2 and y of length 3 the first two entries of
y are overwritten in order and the third is kept; with y of length 1 nothing is written. -/
theorem C9_cdf_postcondition_witness :
    cdf (fun t : Int => 10 * t) [1, 2] [7, 8, 9] = [10, 20, 9]
    ∧ cdf (fun t : Int => 10 * t) [1, 2] [7] = [7] := by
  have h := C9_cdf_postcondition (fun t : Int => 10 * t) [1, 2] [7]
  exact ⟨by decide, h.1 (by decide)⟩

end ProbabilityDistribution

namespace UniformDiscreteRand

theorem F_setBoundaries {K : Type} [LinearOrderedField K] [FloorRing K]
    (s : UniformDiscreteRand K) (a b : Int) (hab : a ≤ b) (x : K) :
    F (setBoundaries s a b) x = ((⌊x⌋ : K) - (a : K) + 1) / ((b : K) - (a : K) + 1)
    ∧ (F (setBoundaries s a b) x < 0 ↔ x < (a : K) - 1)
    ∧ (1 < F (setBoundaries s a b) x ↔ (b : K) + 1 ≤ x) := by
  have hn : (0 : K) < (b : K) - (a : K) + 1 := by
    have : (a : K) ≤ (b : K) := by exact_mod_cast hab
    linarith
  have hF : F (setBoundaries s a b) x = ((⌊x⌋ : K) - (a : K) + 1) / ((b : K) - (a : K) + 1) := by
    unfold F setBoundaries
    simp only [if_neg (not_lt.mpr hab)]
    push_cast
    field_simp
  refine ⟨hF, ?_, ?_⟩
  · rw [hF, div_neg_iff]
    constructor
    · rintro (⟨_, h⟩ | ⟨h, _⟩)
      · exact absurd hn (not_lt.mpr h.le)
      · have h1 : ⌊x⌋ < a - 1 := by
          have : ((⌊x⌋ : Int) : K) < ((a - 1 : Int) : K) := by push_cast; linarith
          exact_mod_cast this
        have := Int.floor_lt.mp h1
        push_cast at this
        exact this
    · intro h
      right
      refine ⟨?_, hn⟩
      have h1 : ⌊x⌋ < a - 1 := Int.floor_lt.mpr (by push_cast; exact h)
      have : ((⌊x⌋ : Int) : K) < ((a - 1 : Int) : K) := by exact_mod_cast h1
      push_cast at this
      linarith
  · rw [hF, lt_div_iff₀ hn]
    constructor
    · intro h
      have h1 : b + 1 ≤ ⌊x⌋ := by
        have : ((b : Int) : K) < ((⌊x⌋ : Int) : K) := by linarith
        have h2 : b < ⌊x⌋ := by exact_mod_cast this
        omega
      have := Int.le_floor.mp h1
      push_cast at this
      exact this
    · intro h
      have h1 : b + 1 ≤ ⌊x⌋ := Int.le_floor.mpr (by push_cast; exact h)
      have : ((b + 1 : Int) : K) ≤ ((⌊x⌋ : Int) : K) := by exact_mod_cast h1
      push_cast at this
      linarith

/-- C10, evaluation at the failing input: for the boundaries a = 0 and b = 1 the coded F gives
F(-5) = -2, below 0 although -5 < a, and F(3) = 2, above 1 although 3 >= b; next to the
support it does give F(-1/2) = 0 and F(1) = 1. -/
theorem C10_F_outside_unit_interval :
    (setBoundaries (⟨0, 0, 0, 0⟩ : UniformDiscreteRand ℚ) 0 1).a = 0
    ∧ (setBoundaries (⟨0, 0, 0, 0⟩ : UniformDiscreteRand ℚ) 0 1).b = 1
    ∧ F (setBoundaries (⟨0, 0, 0, 0⟩ : UniformDiscreteRand ℚ) 0 1) (-5) = -2
    ∧ F (setBoundaries (⟨0, 0, 0, 0⟩ : UniformDiscreteRand ℚ) 0 1) 3 = 2
    ∧ F (setBoundaries (⟨0, 0, 0, 0⟩ : UniformDiscreteRand ℚ) 0 1) (-1 / 2) = 0
    ∧ F (setBoundaries (⟨0, 0, 0, 0⟩ : UniformDiscreteRand ℚ) 0 1) 1 = 1 := by
  refine ⟨rfl, rfl, ?_, ?_, ?_, ?_⟩ <;> norm_num [F, setBoundaries]

end UniformDiscreteRand

theorem Outcome.eq_returned_of_isRaised_false {σ : Type} {o : Outcome σ}
    (h : o.isRaised = false) : ∃ s, o = Outcome.returned s := by
  cases o with
  | returned s => exact ⟨s, rfl⟩
  | raised what s => simp [Outcome.isRaised] at h

/-- C7: provided the component setters accept what the checks let through,
ExponentiallyModifiedGaussianRand::SetParameters raises exactly when variance <= 0 or
rate <= 0, BetaBinomialRand::SetParameters raises exactly when shape1 <= 0 or shape2 <= 0 or
number <= 0, and whenever either raises the instance is what it was before the call. -/
theorem C7_validation_raise_iff_atomic {NX EY BR : Type}
    (me : EMGComponents NX EY) (mb : BetaBinomialComponents BR)
    (hLocation : ∀ x l, (me.X_SetLocation x l).isRaised = false)
    (hVariance : ∀ x v, 0 < v → (me.X_SetVariance x v).isRaised = false)
    (hRate : ∀ y r, 0 < r → (me.Y_SetRate y r).isRaised = false)
    (hShapes : ∀ b s1 s2, 0 < s1 → 0 < s2 → (mb.B_SetShapes b s1 s2).isRaised = false)
    (e : ExponentiallyModifiedGaussianRand NX EY) (location variance rate : ℝ)
    (bb : BetaBinomialRand BR) (number : Int) (shape1 shape2 : ℝ) :
    ((ExponentiallyModifiedGaussianRand.SetParameters me e location variance rate).isRaised = true
        ↔ variance ≤ 0 ∨ rate ≤ 0)
    ∧ ((ExponentiallyModifiedGaussianRand.SetParameters me e location variance rate).isRaised = true
        → (ExponentiallyModifiedGaussianRand.SetParameters me e location variance rate).state = e)
    ∧ ((BetaBinomialRand.SetParameters mb bb number shape1 shape2).isRaised = true
        ↔ shape1 ≤ 0 ∨ shape2 ≤ 0 ∨ number ≤ 0)
    ∧ ((BetaBinomialRand.SetParameters mb bb number shape1 shape2).isRaised = true
        → (BetaBinomialRand.SetParameters mb bb number shape1 shape2).state = bb) := by
  have hE : ¬ (variance ≤ 0 ∨ rate ≤ 0) →
      (ExponentiallyModifiedGaussianRand.SetParameters me e location variance rate).isRaised
        = false := by
    intro h
    push_neg at h
    unfold ExponentiallyModifiedGaussianRand.SetParameters
    rw [if_neg (not_le.mpr h.1), if_neg (not_le.mpr h.2)]
    obtain ⟨x1, hx1⟩ := Outcome.eq_returned_of_isRaised_false (hLocation e.X location)
    obtain ⟨x2, hx2⟩ := Outcome.eq_returned_of_isRaised_false (hVariance x1 variance h.1)
    obtain ⟨y1, hy1⟩ := Outcome.eq_returned_of_isRaised_false (hRate e.Y rate h.2)
    simp only [hx1, hx2, hy1, Outcome.isRaised]
  have hB : ¬ (shape1 ≤ 0 ∨ shape2 ≤ 0 ∨ number ≤ 0) →
      (BetaBinomialRand.SetParameters mb bb number shape1 shape2).isRaised = false := by
    intro h
    push_neg at h
    unfold BetaBinomialRand.SetParameters
    have hs : ¬ (shape1 ≤ 0.0 ∨ shape2 ≤ 0.0) := by
      norm_num
      exact ⟨h.1, h.2.1⟩
    rw [if_neg hs, if_neg (not_le.mpr h.2.2)]
    simp only
    obtain ⟨b1, hb1⟩ := Outcome.eq_returned_of_isRaised_false
      (hShapes bb.B shape1 shape2 h.1 h.2.1)
    simp only [hb1, Outcome.isRaised]
  have hE2 : (variance ≤ 0 ∨ rate ≤ 0) →
      (ExponentiallyModifiedGaussianRand.SetParameters me e location variance rate).isRaised = true
      ∧ (ExponentiallyModifiedGaussianRand.SetParameters me e location variance rate).state
        = e := by
    intro h
    unfold ExponentiallyModifiedGaussianRand.SetParameters
    by_cases hv : variance ≤ 0
    · rw [if_pos hv]
      exact ⟨rfl, rfl⟩
    · rw [if_neg hv, if_pos (h.resolve_left hv)]
      exact ⟨rfl, rfl⟩
  have hB2 : (shape1 ≤ 0 ∨ shape2 ≤ 0 ∨ number ≤ 0) →
      (BetaBinomialRand.SetParameters mb bb number shape1 shape2).isRaised = true
      ∧ (BetaBinomialRand.SetParameters mb bb number shape1 shape2).state = bb := by
    intro h
    unfold BetaBinomialRand.SetParameters
    by_cases hs : shape1 ≤ 0.0 ∨ shape2 ≤ 0.0
    · rw [if_pos hs]
      exact ⟨rfl, rfl⟩
    · have hn : number ≤ 0 := by
        norm_num at hs
        rcases h with h | h | h
        · linarith [hs.1]
        · linarith [hs.2]
        · exact h
      rw [if_neg hs, if_pos hn]
      exact ⟨rfl, rfl⟩
  refine ⟨⟨?_, fun h => (hE2 h).1⟩, ?_, ⟨?_, fun h => (hB2 h).1⟩, ?_⟩
  · intro h
    by_contra hc
    rw [hE hc] at h
    exact Bool.false_ne_true h
  · intro h
    by_cases hc : variance ≤ 0 ∨ rate ≤ 0
    · exact (hE2 hc).2
    · rw [hE hc] at h
      exact absurd h Bool.false_ne_true
  · intro h
    by_contra hc
    rw [hB hc] at h
    exact Bool.false_ne_true h
  · intro h
    by_cases hc : shape1 ≤ 0 ∨ shape2 ≤ 0 ∨ number ≤ 0
    · exact (hB2 hc).2
    · rw [hB hc] at h
      exact absurd h Bool.false_ne_true

/-- Witness of C7 with the stand-in components: a variance of -1 and a number of 0 make the
two setters raise and leave the instances as they were. -/
theorem C7_validation_raise_iff_atomic_witness :
    (ExponentiallyModifiedGaussianRand.SetParameters standInEMGComponents
        ⟨(0, 1), 1, 0, 0, 0, 0⟩ 0 (-1) 1).isRaised = true
    ∧ (ExponentiallyModifiedGaussianRand.SetParameters standInEMGComponents
        ⟨(0, 1), 1, 0, 0, 0, 0⟩ 0 (-1) 1).state = ⟨(0, 1), 1, 0, 0, 0, 0⟩
    ∧ (BetaBinomialRand.SetParameters standInBetaBinomialComponents
        ⟨1, 0, (1, 1)⟩ 0 1 1).isRaised = true
    ∧ (BetaBinomialRand.SetParameters standInBetaBinomialComponents
        ⟨1, 0, (1, 1)⟩ 0 1 1).state = ⟨1, 0, (1, 1)⟩ := by
  have h := C7_validation_raise_iff_atomic standInEMGComponents standInBetaBinomialComponents
    (fun _ _ => rfl)
    (fun x v hv => by
      unfold standInEMGComponents
      simp [not_le.mpr hv, Outcome.isRaised])
    (fun y r hr => by
      unfold standInEMGComponents
      simp [not_le.mpr hr, Outcome.isRaised])
    (fun b s1 s2 h1 h2 => by
      unfold standInBetaBinomialComponents
      simp [not_le.mpr h1, not_le.mpr h2, Outcome.isRaised])
    ⟨(0, 1), 1, 0, 0, 0, 0⟩ 0 (-1) 1 ⟨1, 0, (1, 1)⟩ 0 1 1
  have hE := h.1.mpr (Or.inl (by norm_num))
  have hB := h.2.2.1.mpr (Or.inr (Or.inr (le_refl 0)))
  exact ⟨hE, h.2.1 hE, hB, h.2.2.2 hB⟩

namespace NegativeBinomialRand

theorem SetParameters_fields {T G : Type} [LinearOrderedRing T]
    (m : NegativeBinomialContext T G)
    (s : NegativeBinomialRand T G) (number : T) (probability : ℝ) :
    (SetParameters m s number probability).state.r = (SetValidParameters s number probability).r
    ∧ (SetParameters m s number probability).state.p
        = (SetValidParameters s number probability).p
    ∧ (SetParameters m s number probability).state.q
        = 1 - (SetValidParameters s number probability).p
    ∧ (SetParameters m s number probability).state.logP
        = Real.log (SetValidParameters s number probability).p
    ∧ (SetParameters m s number probability).state.logQ
        = Real.log (1 - (SetValidParameters s number probability).p) := by
  unfold SetParameters
  simp only
  split
  · norm_num [Outcome.state, sub_eq_add_neg]
  · split_ifs <;> norm_num [Outcome.state, sub_eq_add_neg]

/-- Counterexample to C8: with the stand-in context, SetParameters(3, 1.5) and
SetParameters(0, 0.25) on an instance of NegativeBinomialRand<int> return without raising;
the first stores p = 0.5 and the second r = 1. -/
theorem C8_invalid_input_not_rejected :
    (SetParameters standInNegativeBinomialContext
        ⟨0, 0, 0, 0, 0, 0, 0, (0, 0), fun _ => 0⟩ 3 1.5).isRaised = false
    ∧ (SetParameters standInNegativeBinomialContext
        ⟨0, 0, 0, 0, 0, 0, 0, (0, 0), fun _ => 0⟩ 3 1.5).state.p = 0.5
    ∧ (SetParameters standInNegativeBinomialContext
        ⟨0, 0, 0, 0, 0, 0, 0, (0, 0), fun _ => 0⟩ 0 0.25).isRaised = false
    ∧ (SetParameters standInNegativeBinomialContext
        ⟨0, 0, 0, 0, 0, 0, 0, (0, 0), fun _ => 0⟩ 0 0.25).state.r = 1 := by
  refine ⟨?_, ?_, ?_, ?_⟩
  · unfold SetParameters SetValidParameters standInNegativeBinomialContext
    norm_num [Outcome.isRaised]
    split_ifs <;> rfl
  · rw [(SetParameters_fields _ _ _ _).2.1]
    unfold SetValidParameters
    norm_num
  · unfold SetParameters SetValidParameters standInNegativeBinomialContext
    norm_num [Outcome.isRaised]
    split_ifs <;> rfl
  · rw [(SetParameters_fields _ _ _ _).1]
    unfold SetValidParameters
    norm_num

/-- C8 as amended: SetParameters has no rejection of its own; SetValidParameters replaces
a non-positive number by 1 and a probability outside [0, 1] by 0.5, and the call then does
exactly what it does for the substituted arguments, so r, p, q, logP and logQ hold the
substituted values, which satisfy r > 0 and 0 <= p <= 1, whether or not the call raises.  It
raises exactly when the setter of GammaRV raises for the shape r and the rate p / q of the
substituted values.  Hence, if that setter accepts every positive shape and rate and r
converts to a positive double, the call does not raise for a probability outside [0, 1], nor
for a probability strictly between 0 and 1, whatever the number. -/
theorem C8_invalid_input_substituted {T G : Type} [LinearOrderedRing T]
    (m : NegativeBinomialContext T G)
    (s : NegativeBinomialRand T G) (number : T) (probability : ℝ) :
    SetParameters m s number probability
      = SetParameters m s (if number > 0 then number else 1)
          (if probability > 1 ∨ probability < 0 then 0.5 else probability)
    ∧ (SetParameters m s number probability).state.r = (if number > 0 then number else 1)
    ∧ (SetParameters m s number probability).state.p
        = (if probability > 1 ∨ probability < 0 then 0.5 else probability)
    ∧ (SetParameters m s number probability).state.q
        = 1 - (if probability > 1 ∨ probability < 0 then 0.5 else probability)
    ∧ (SetParameters m s number probability).state.logP
        = Real.log (if probability > 1 ∨ probability < 0 then 0.5 else probability)
    ∧ (SetParameters m s number probability).state.logQ
        = Real.log (1 - (if probability > 1 ∨ probability < 0 then 0.5 else probability))
    ∧ 0 < (SetParameters m s number probability).state.r
    ∧ 0 ≤ (SetParameters m s number probability).state.p
    ∧ (SetParameters m s number probability).state.p ≤ 1
    ∧ ((SetParameters m s number probability).isRaised
        = (m.GammaRV_SetParameters s.GammaRV
            (m.toDouble (if number > 0 then number else 1))
            ((if probability > 1 ∨ probability < 0 then 0.5 else probability)
              / (1 - (if probability > 1 ∨ probability < 0 then 0.5 else probability)))).isRaised)
    ∧ ((∀ g shape rate, 0 < shape → 0 < rate →
          (m.GammaRV_SetParameters g shape rate).isRaised = false) →
        0 < m.toDouble (if number > 0 then number else 1) →
        probability > 1 ∨ probability < 0 ∨ (0 < probability ∧ probability < 1) →
        (SetParameters m s number probability).isRaised = false)
    := by
  have SetValidParameters_idem :
      ∀ (s : NegativeBinomialRand T G) (number : T) (probability : ℝ),
      SetValidParameters s (if number > 0 then number else 1)
      (if probability > 1.0 ∨ probability < 0.0 then 0.5 else probability)
      = SetValidParameters s number probability := by
    intro s number probability
    unfold SetValidParameters
    have hr : (if (if number > 0 then number else 1) > 0 then (if number > 0 then number else 1)
        else 1) = (if number > 0 then number else 1) := by
      by_cases h : number > 0
      · simp [h]
      · simp [h]
    have hp : (if (if probability > 1.0 ∨ probability < 0.0 then (0.5 : ℝ) else probability) > 1.0
          ∨ (if probability > 1.0 ∨ probability < 0.0 then (0.5 : ℝ) else probability) < 0.0
        then (0.5 : ℝ) else (if probability > 1.0 ∨ probability < 0.0 then 0.5 else probability))
        = (if probability > 1.0 ∨ probability < 0.0 then 0.5 else probability) := by
      by_cases h : probability > 1.0 ∨ probability < 0.0
      · simp only [if_pos h]
        norm_num
      · simp only [if_neg h]
    simp only [hr, hp]
  have hidem := SetValidParameters_idem s number probability
  have h10 : ((1.0 : ℝ) = 1) ∧ ((0.0 : ℝ) = 0) := by norm_num
  rw [h10.1, h10.2] at hidem
  obtain ⟨hr, hp, hq, hlp, hlq⟩ := SetParameters_fields m s number probability
  have hvr : (SetValidParameters s number probability).r = (if number > 0 then number else 1) :=
    rfl
  have hvp : (SetValidParameters s number probability).p
      = (if probability > 1 ∨ probability < 0 then 0.5 else probability) := by
    unfold SetValidParameters
    simp only [h10.1, h10.2]
  rw [hvr] at hr
  rw [hvp] at hp hq hlp hlq
  have hraise : (SetParameters m s number probability).isRaised
      = (m.GammaRV_SetParameters s.GammaRV
          (m.toDouble (if number > 0 then number else 1))
          ((if probability > 1 ∨ probability < 0 then 0.5 else probability)
            / (1 - (if probability > 1 ∨ probability < 0 then 0.5 else probability)))).isRaised := by
    unfold SetParameters
    simp only
    have hg : (SetValidParameters s number probability).GammaRV = s.GammaRV := rfl
    rw [hvr, hvp, hg, h10.1, sub_eq_add_neg]
    split
    · rename_i heq
      simp only [heq, Outcome.isRaised]
    · rename_i heq
      simp only [heq]
      split_ifs <;> rfl
  refine ⟨?_, hr, hp, hq, hlp, hlq, ?_, ?_, ?_, hraise, ?_⟩
  · unfold SetParameters
    rw [hidem]
  · rw [hr]
    split_ifs with h
    · exact h
    · exact one_pos
  · rw [hp]
    split_ifs with h
    · norm_num
    · push_neg at h
      exact h.2
  · rw [hp]
    split_ifs with h
    · norm_num
    · push_neg at h
      exact h.1
  · intro hGamma hshape hprob
    rw [hraise]
    apply hGamma _ _ _ hshape
    rcases hprob with h | h | h
    · rw [if_pos (Or.inl h)]
      norm_num
    · rw [if_pos (Or.inr h)]
      norm_num
    · rw [if_neg (by push_neg; exact ⟨h.2.le, h.1.le⟩)]
      exact div_pos h.1 (by linarith [h.2])

end NegativeBinomialRand

namespace StableRand

open DISTRIBUTION_ID

/-- C12: for sigma > 0, pdfCauchy(x) is sigma / (pi (sigma^2 + (x - mu)^2)) for every x; the
denominator is not zero, the value is positive, and CauchyRand::f is that function. -/
theorem C12_pdfCauchy_closed_form (s : StableRand) (x : ℝ) (hsigma : 0 < s.sigma) :
    pdfCauchy s x = s.sigma / (Real.pi * (s.sigma ^ 2 + (x - s.mu) ^ 2))
    ∧ CauchyRand.f s x = s.sigma / (Real.pi * (s.sigma ^ 2 + (x - s.mu) ^ 2))
    ∧ Real.pi * (s.sigma ^ 2 + (x - s.mu) ^ 2) ≠ 0
    ∧ (x - s.mu) * (x - s.mu) / s.sigma + s.sigma ≠ 0
    ∧ 0 < pdfCauchy s x := by
  have hpi : 0 < Real.pi := Real.pi_pos
  have hsq : 0 < s.sigma ^ 2 + (x - s.mu) ^ 2 := by positivity
  have hden : 0 < (x - s.mu) * (x - s.mu) / s.sigma + s.sigma :=
    add_pos_of_nonneg_of_pos (div_nonneg (mul_self_nonneg _) hsigma.le) hsigma
  have hs : s.sigma ≠ 0 := hsigma.ne.symm
  have hform : pdfCauchy s x = s.sigma / (Real.pi * (s.sigma ^ 2 + (x - s.mu) ^ 2)) := by
    unfold pdfCauchy M_1_PI
    simp only
    have e : (x - s.mu) * (x - s.mu) / s.sigma + s.sigma
        = (s.sigma ^ 2 + (x - s.mu) ^ 2) / s.sigma := by
      field_simp
      ring
    rw [e]
    have h2 : s.sigma ^ 2 + (x - s.mu) ^ 2 ≠ 0 := hsq.ne.symm
    field_simp
  refine ⟨hform, hform, (mul_pos hpi hsq).ne.symm, hden.ne.symm, ?_⟩
  rw [hform]
  positivity

/-- Witness of C12 at Cauchy(0, 1): density(0) = 1/pi. -/
theorem C12_pdfCauchy_closed_form_witness :
    CauchyRand.f { mu := 0, sigma := 1, alpha := 1, distributionId := CAUCHY } 0 = 1 / Real.pi := by
  have h := C12_pdfCauchy_closed_form
    { mu := 0, sigma := 1, alpha := 1, distributionId := CAUCHY } 0 (by norm_num)
  rw [h.2.1]
  norm_num

/-- C16: fastpdfExponentiation(u) is 0 when u > 5 or u < -100, exp(u) when -100 <= u < -50,
exp(u - exp(u)) when -50 <= u <= 5, and always lies between 0 and 1/e. -/
theorem C16_fastpdfExponentiation_guards (u : ℝ) :
    (u > 5 ∨ u < -100 → fastpdfExponentiation u = 0)
    ∧ (-100 ≤ u ∧ u < -50 → fastpdfExponentiation u = Real.exp u)
    ∧ (-50 ≤ u ∧ u ≤ 5 → fastpdfExponentiation u = Real.exp (u - Real.exp u))
    ∧ 0 ≤ fastpdfExponentiation u
    ∧ fastpdfExponentiation u ≤ 1 / Real.exp 1 := by
  have fastpdfExponentiation_bounds :
      ∀ (u : ℝ),
      0 ≤ fastpdfExponentiation u ∧ fastpdfExponentiation u ≤ Real.exp (-1) := by
    intro u
    unfold fastpdfExponentiation
    split_ifs with h1 h2
    · exact ⟨by norm_num, by norm_num [(Real.exp_pos (-1)).le]⟩
    · exact ⟨(Real.exp_pos u).le, Real.exp_le_exp.mpr (by linarith)⟩
    · refine ⟨(Real.exp_pos _).le, Real.exp_le_exp.mpr ?_⟩
      have := Real.add_one_le_exp u
      linarith
  refine ⟨?_, ?_, ?_, (fastpdfExponentiation_bounds u).1, ?_⟩
  · intro h
    unfold fastpdfExponentiation
    rw [if_pos h]
    norm_num
  · rintro ⟨h1, h2⟩
    unfold fastpdfExponentiation
    rw [if_neg (by push_neg; exact ⟨by linarith, h1⟩), if_pos h2]
  · rintro ⟨h1, h2⟩
    unfold fastpdfExponentiation
    rw [if_neg (by push_neg; exact ⟨h2, by linarith⟩), if_neg (not_lt.mpr h1)]
  · have := (fastpdfExponentiation_bounds u).2
    rwa [Real.exp_neg, ← one_div] at this

/-- Witness of C16: the three branches at u = 6, u = -60 and u = 0, where the bound 1/e is
attained. -/
theorem C16_fastpdfExponentiation_guards_witness :
    fastpdfExponentiation 6 = 0
    ∧ fastpdfExponentiation (-60) = Real.exp (-60)
    ∧ fastpdfExponentiation 0 = 1 / Real.exp 1 := by
  refine ⟨(C16_fastpdfExponentiation_guards 6).1 (Or.inl (by norm_num)),
    (C16_fastpdfExponentiation_guards (-60)).2.1 ⟨by norm_num, by norm_num⟩, ?_⟩
  rw [(C16_fastpdfExponentiation_guards 0).2.2.1 ⟨by norm_num, by norm_num⟩]
  rw [Real.exp_zero, zero_sub, Real.exp_neg, one_div]

end StableRand

namespace ChiSquaredRand

/-- C15, evaluation at the failing input: on the chi-squared distribution with 2 degrees of
freedom cdf(2) is 2, above 1, and cdf(-1) is -1, not 0, although pdf(-1) is 0; cdf returns
its argument. -/
theorem C15_cdf_returns_argument :
    cdf ⟨2, 1 / 2⟩ 2 = 2
    ∧ ¬ cdf ⟨2, 1 / 2⟩ 2 ≤ 1
    ∧ cdf ⟨2, 1 / 2⟩ (-1) = -1
    ∧ cdf ⟨2, 1 / 2⟩ (-1) ≠ 0
    ∧ pdf ⟨2, 1 / 2⟩ (-1) = 0 := by
  refine ⟨rfl, ?_, rfl, ?_, ?_⟩
  · unfold cdf
    norm_num
  · unfold cdf
    norm_num
  · unfold pdf
    norm_num

end ChiSquaredRand

namespace RademacherRand

theorem P_eq_indicators (j : Int) :
    P j = (if j = -1 then (1 / 2 : ℝ) else 0) + (if j = 1 then (1 / 2 : ℝ) else 0) := by
  unfold P
  by_cases h1 : j = 1
  · subst h1
    norm_num
  · by_cases h2 : j = -1
    · subst h2
      norm_num
    · have h3 : ¬ |j| = 1 := by
        intro h
        rcases abs_eq (by norm_num : (0 : Int) ≤ 1) |>.mp h with h | h
        · exact h1 h
        · exact h2 h
      rw [if_neg h3, if_neg h2, if_neg h1]
      norm_num

theorem sum_P_Icc (m k : Int) :
    ∑ j in Finset.Icc m k, P j
      = (if m ≤ -1 ∧ -1 ≤ k then (1 / 2 : ℝ) else 0) + (if m ≤ 1 ∧ 1 ≤ k then (1 / 2 : ℝ) else 0) := by
  simp only [P_eq_indicators, Finset.sum_add_distrib, Finset.sum_ite_eq', Finset.mem_Icc]

/-- Counterexample to C14: F(-1) is 0.5 although no integer below -1 carries mass, and F(1)
is 1 although the integers below 1 carry mass 0.5 in all, so F(k) is not the sum of P(j)
over j < k. -/
theorem C14_F_not_strict :
    F (-1) = 0.5
    ∧ ∑ j in Finset.Ico (-10 : Int) (-1), P j = 0
    ∧ F 1 = 1
    ∧ ∑ j in Finset.Ico (-10 : Int) 1, P j = 0.5 := by
  have e1 : Finset.Ico (-10 : Int) (-1) = Finset.Icc (-10) (-2) := by
    ext j
    simp only [Finset.mem_Ico, Finset.mem_Icc]
    omega
  have e2 : Finset.Ico (-10 : Int) 1 = Finset.Icc (-10) 0 := by
    ext j
    simp only [Finset.mem_Ico, Finset.mem_Icc]
    omega
  refine ⟨?_, ?_, ?_, ?_⟩
  · norm_num [F]
  · rw [e1, sum_P_Icc]
    norm_num
  · norm_num [F]
  · rw [e2, sum_P_Icc]
    norm_num

/-- C14 as amended: RademacherRand::F(k) is the inclusive cumulative sum, the sum of P(j)
over all integers j up to and including k; no integer below -1 carries mass, so the sum may
start at any m <= -1. -/
theorem C14_F_inclusive_sum (m k : Int) (hm : m ≤ -1) :
    F k = ∑ j in Finset.Icc m k, P j
    ∧ (∀ j : Int, j < -1 → P j = 0) := by
  constructor
  · rw [sum_P_Icc]
    unfold F
    by_cases h1 : k < -1
    · have a1 : ¬ (m ≤ -1 ∧ -1 ≤ k) := by omega
      have a2 : ¬ (m ≤ 1 ∧ 1 ≤ k) := by omega
      simp [h1, a1, a2]
    · by_cases h2 : k < 1
      · have a1 : m ≤ -1 ∧ -1 ≤ k := by omega
        have a2 : ¬ (m ≤ 1 ∧ 1 ≤ k) := by omega
        rw [if_neg h1, if_pos h2, if_pos a1, if_neg a2]
        norm_num
      · have a1 : m ≤ -1 ∧ -1 ≤ k := by omega
        have a2 : m ≤ 1 ∧ 1 ≤ k := by omega
        rw [if_neg h1, if_neg h2, if_pos a1, if_pos a2]
        norm_num
  · intro j hj
    rw [P_eq_indicators, if_neg (by omega), if_neg (by omega)]
    norm_num

/-- Witness of the amended C14 at k = 0 with the sum started at m = -3: F(0) is the sum of
P(j) over j from -3 to 0, and it is 0.5. -/
theorem C14_F_inclusive_sum_witness :
    F 0 = ∑ j in Finset.Icc (-3 : Int) 0, P j
    ∧ F 0 = 0.5 := by
  refine ⟨(C14_F_inclusive_sum (-3) 0 (by norm_num)).1, ?_⟩
  unfold F
  norm_num

end RademacherRand

namespace UniformDiscreteRand

/-- C20, evaluation at the failing input: for the boundaries a = 0 and b = 2 (n = 3) the
values of rv in [0, 1] that variate maps to 1 are exactly those of [1/4, 3/4), a set of
length 1/2, while P(1) is 1/3; the values 0 and 2 are returned on [0, 1/4) and on [3/4, 1],
of length 1/4 each. -/
theorem C20_variate_not_uniform :
    {rv : ℝ | 0 ≤ rv ∧ rv ≤ 1 ∧ variateFromRv (⟨0, 2, 3, 1 / 3⟩ : UniformDiscreteRand ℝ) rv = 1}
      = Set.Ico (1 / 4) (3 / 4)
    ∧ MeasureTheory.volume
        {rv : ℝ | 0 ≤ rv ∧ rv ≤ 1
          ∧ variateFromRv (⟨0, 2, 3, 1 / 3⟩ : UniformDiscreteRand ℝ) rv = 1}
      = ENNReal.ofReal (1 / 2)
    ∧ P (⟨0, 2, 3, 1 / 3⟩ : UniformDiscreteRand ℝ) 1 = 1 / 3
    ∧ setBoundaries (⟨0, 0, 0, 0⟩ : UniformDiscreteRand ℝ) 0 2 = ⟨0, 2, 3, 1 / 3⟩
    ∧ variateFromRv (⟨0, 2, 3, 1 / 3⟩ : UniformDiscreteRand ℚ) (1 / 4) = 1
    ∧ variateFromRv (⟨0, 2, 3, 1 / 3⟩ : UniformDiscreteRand ℚ) (1 / 5) = 0
    ∧ variateFromRv (⟨0, 2, 3, 1 / 3⟩ : UniformDiscreteRand ℚ) (7 / 10) = 1
    ∧ variateFromRv (⟨0, 2, 3, 1 / 3⟩ : UniformDiscreteRand ℚ) (3 / 4) = 2 := by
  have stdRound_eq_one_iff :
      ∀ (y : ℝ) (hy : 0 ≤ y),
      stdRound y = 1 ↔ 1 / 2 ≤ y ∧ y < 3 / 2 := by
    intro y hy
    unfold stdRound
    rw [if_pos hy, Int.floor_eq_iff]
    push_cast
    constructor
    · rintro ⟨h1, h2⟩
      constructor <;> linarith
    · rintro ⟨h1, h2⟩
      constructor <;> linarith
  have hset : {rv : ℝ | 0 ≤ rv ∧ rv ≤ 1
        ∧ variateFromRv (⟨0, 2, 3, 1 / 3⟩ : UniformDiscreteRand ℝ) rv = 1}
      = Set.Ico (1 / 4) (3 / 4) := by
    ext rv
    simp only [Set.mem_setOf_eq, Set.mem_Ico]
    constructor
    · rintro ⟨h0, h1, h⟩
      unfold variateFromRv at h
      simp only at h
      have := (stdRound_eq_one_iff _ (by push_cast; linarith)).mp h
      push_cast at this
      constructor <;> linarith [this.1, this.2]
    · rintro ⟨h1, h2⟩
      refine ⟨by linarith, by linarith, ?_⟩
      unfold variateFromRv
      simp only
      apply (stdRound_eq_one_iff _ (by push_cast; linarith)).mpr
      push_cast
      constructor <;> linarith
  refine ⟨hset, ?_, ?_, ?_, ?_, ?_, ?_, ?_⟩
  · rw [hset, Real.volume_Ico]
    norm_num
  · norm_num [P]
  · norm_num [setBoundaries]
  · norm_num [variateFromRv, stdRound]
  · norm_num [variateFromRv, stdRound]
  · norm_num [variateFromRv, stdRound]
  · norm_num [variateFromRv, stdRound]

end UniformDiscreteRand

theorem rangeFor_eq_successiveVariates {T Ω : Type} (body : Ω → Option (T × Ω))
    (outputData : List T) (w : Ω) :
    rangeFor body outputData w = successiveVariates body outputData.length w := by
  induction outputData generalizing w with
  | nil => rfl
  | cons x rest ih =>
    show (match body w with
      | none => none
      | some r =>
        match rangeFor body rest r.2 with
        | none => none
        | some rs => some (r.1 :: rs.1, rs.2)) = successiveVariates body (rest.length + 1) w
    unfold successiveVariates
    cases body w with
    | none => rfl
    | some r => simp only [ih]

theorem successiveVariates_length {T Ω : Type} (variate : Ω → Option (T × Ω)) (n : Nat) (w : Ω)
    (out : List T) (w2 : Ω) (h : successiveVariates variate n w = some (out, w2)) :
    out.length = n := by
  induction n generalizing w out w2 with
  | zero =>
    simp only [successiveVariates, Option.some.injEq, Prod.mk.injEq] at h
    rw [← h.1]
    rfl
  | succ n ih =>
    unfold successiveVariates at h
    cases hv : variate w with
    | none => simp [hv] at h
    | some r =>
      simp only [hv] at h
      cases hs : successiveVariates variate n r.2 with
      | none => simp [hs] at h
      | some rs =>
        simp only [hs, Option.some.injEq, Prod.mk.injEq] at h
        rw [← h.1, List.length_cons, ih r.2 rs.1 rs.2 hs]

theorem successiveVariates_isSome {T Ω : Type} (variate : Ω → Option (T × Ω))
    (hv : ∀ w, (variate w).isSome = true) (n : Nat) (w : Ω) :
    (successiveVariates variate n w).isSome = true := by
  induction n generalizing w with
  | zero => rfl
  | succ n ih =>
    unfold successiveVariates
    have h1 := hv w
    cases hb : variate w with
    | none => simp [hb] at h1
    | some r =>
      have h2 := ih r.2
      cases hs : successiveVariates variate n r.2 with
      | none => simp [hs] at h2
      | some rs => simp only [hs, Option.isSome]

namespace StableRand

open DISTRIBUTION_ID

/-- C11: in each of the five regimes, with sign(x) = 1 for x > 0 and -1 for x < 0 and beta
not zero in the LEVY regime, StableRand::Sample on a buffer of length n gives the buffer and
the stream that n successive calls of StableRand::Variate give, the buffer keeps its length,
and in the LEVY regime the value written per slot equals sign(beta) times the Levy draw.
Outside the CAUCHY regime, whose draws loop until a pair is accepted, the call returns. -/
theorem C11_Sample_refines_Variate {Ω : Type} (sign : ℝ → ℝ) (g : Samplers Ω) (fuel : Nat)
    (s : StableRand) (outputData : List Value) (w : Ω)
    (hpos : ∀ x : ℝ, 0 < x → sign x = 1) (hneg : ∀ x : ℝ, x < 0 → sign x = -1)
    (hid : s.distributionId ≠ unexpected)
    (hbeta : s.distributionId = LEVY → s.beta ≠ 0) :
    Sample g fuel s outputData w
      = successiveVariates (Variate sign g fuel s) outputData.length w
    ∧ Sample g fuel s outputData w
      = ProbabilityDistribution.sample (Variate sign g fuel s) outputData w
    ∧ (∀ out w2, Sample g fuel s outputData w = some (out, w2) → out.length = outputData.length)
    ∧ (s.distributionId = LEVY → ∀ l : ℝ, (if s.beta > 0 then l else -l) = sign s.beta * l)
    ∧ (s.distributionId ≠ CAUCHY → (Sample g fuel s outputData w).isSome = true) := by
  have hlevy : s.distributionId = LEVY →
      ∀ l : ℝ, (if s.beta > 0 then l else -l) = sign s.beta * l := by
    intro hL l
    by_cases hb : s.beta > 0
    · rw [if_pos hb, hpos _ hb, one_mul]
    · have hb2 : s.beta < 0 := lt_of_le_of_ne (not_lt.mp hb) (hbeta hL)
      rw [if_neg hb, hneg _ hb2, neg_one_mul]
  have hbody : Sample g fuel s outputData w
      = rangeFor (Variate sign g fuel s) outputData w := by
    unfold Sample
    cases hd : s.distributionId with
    | NORMAL =>
      simp only
      congr 1
      funext w1
      unfold Variate
      simp [hd]
    | CAUCHY =>
      simp only
      congr 1
      funext w1
      unfold Variate
      simp [hd]
    | LEVY =>
      simp only
      by_cases hb : s.beta > 0
      · rw [if_pos hb]
        congr 1
        funext w1
        unfold Variate
        simp [hd, hpos _ hb]
      · have hb2 : s.beta < 0 := lt_of_le_of_ne (not_lt.mp hb) (hbeta hd)
        rw [if_neg hb]
        congr 1
        funext w1
        unfold Variate
        simp [hd, hneg _ hb2]
    | UNITY_EXPONENT =>
      simp only
      congr 1
      funext w1
      unfold Variate
      simp [hd]
    | COMMON =>
      simp only
      congr 1
      funext w1
      unfold Variate
      simp [hd]
    | unexpected => exact absurd hd hid
  have hsucc : Sample g fuel s outputData w
      = successiveVariates (Variate sign g fuel s) outputData.length w := by
    rw [hbody, rangeFor_eq_successiveVariates]
  refine ⟨hsucc, hbody, ?_, hlevy, ?_⟩
  · intro out w2 h
    rw [hsucc] at h
    exact successiveVariates_length _ _ _ _ _ h
  · intro hc
    rw [hsucc]
    apply successiveVariates_isSome
    intro w1
    unfold Variate
    cases hd : s.distributionId with
    | CAUCHY => exact absurd hd hc
    | NORMAL => rfl
    | LEVY => rfl
    | UNITY_EXPONENT => rfl
    | COMMON => rfl
    | unexpected => rfl

end StableRand

namespace StableRand

open DISTRIBUTION_ID

/-- Witness of C11 on a Levy instance with beta = -1 and the stand-in samplers: a buffer of
two slots receives what two successive calls of Variate return. -/
theorem C11_Sample_refines_Variate_witness :
    Sample standInSamplers 0 { alpha := 0.5, beta := -1, sigma := 1, distributionId := LEVY }
        [Value.num 0, Value.num 0] 0
      = successiveVariates
          (Variate (fun x => if 0 < x then 1 else if x < 0 then -1 else 0) standInSamplers 0
            { alpha := 0.5, beta := -1, sigma := 1, distributionId := LEVY }) 2 0 :=
  (C11_Sample_refines_Variate (fun x => if 0 < x then 1 else if x < 0 then -1 else 0)
    standInSamplers 0 { alpha := 0.5, beta := -1, sigma := 1, distributionId := LEVY }
    [Value.num 0, Value.num 0] 0
    (fun x hx => by simp [hx])
    (fun x hx => by simp [hx, not_lt.mpr hx.le])
    (by decide) (fun _ => by norm_num)).1

end StableRand

namespace NegativeBinomialRand

open GENERATOR_ID

/-- C13: the generator identifier is a function of r and p alone.  For
NegativeBinomialRand<int> it is TABLE exactly when r < 10 and p >= 0.08, EXPONENTIAL exactly
when r < 10 and p < 0.08, and GAMMA_POISSON exactly when r >= 10; for
NegativeBinomialRand<double> it is always GAMMA_POISSON.  Variate() draws with the generator
of that identifier and Sample() fills every slot with the same generator. -/
theorem C13_generator_selection {G Ω : Type} (tableSize : Nat)
    (g : NegativeBinomialSamplers Ω G) (fuel : Nat)
    (s : NegativeBinomialRand Int G) (sd : NegativeBinomialRand ℝ G)
    (outputData : List Int) (w : Ω) (r : Int) (p rd pd : ℝ) :
    (GetIdOfUsedGenerator_int r p = TABLE ↔ r < 10 ∧ p ≥ 0.08)
    ∧ (GetIdOfUsedGenerator_int r p = EXPONENTIAL ↔ r < 10 ∧ p < 0.08)
    ∧ (GetIdOfUsedGenerator_int r p = GAMMA_POISSON ↔ r ≥ 10)
    ∧ GetIdOfUsedGenerator_double rd pd = GAMMA_POISSON
    ∧ Variate_int tableSize g fuel s w
        = generatorOf tableSize g fuel s (GetIdOfUsedGenerator_int s.r s.p) w
    ∧ Sample_int tableSize g fuel s outputData w
        = rangeFor (generatorOf tableSize g fuel s (GetIdOfUsedGenerator_int s.r s.p))
            outputData w
    ∧ Sample_int tableSize g fuel s outputData w
        = rangeFor (Variate_int tableSize g fuel s) outputData w
    ∧ Sample_double g sd outputData w = rangeFor (Variate_double g sd) outputData w := by
  have hV : ∀ w1, Variate_int tableSize g fuel s w1
      = generatorOf tableSize g fuel s (GetIdOfUsedGenerator_int s.r s.p) w1 := by
    intro w1
    unfold Variate_int
    simp only
    cases hg : GetIdOfUsedGenerator_int s.r s.p <;> (unfold generatorOf; simp)
  have hS : Sample_int tableSize g fuel s outputData w
      = rangeFor (generatorOf tableSize g fuel s (GetIdOfUsedGenerator_int s.r s.p))
          outputData w := by
    unfold Sample_int
    simp only
    cases hg : GetIdOfUsedGenerator_int s.r s.p <;> (unfold generatorOf; simp)
  refine ⟨?_, ?_, ?_, rfl, hV w, hS, ?_, rfl⟩
  · unfold GetIdOfUsedGenerator_int
    by_cases h1 : r < 10
    · by_cases h2 : p < 0.08
      · simp [h1, h2]
      · simp [h1, h2, not_lt.mp h2]
    · simp [h1]
  · unfold GetIdOfUsedGenerator_int
    by_cases h1 : r < 10
    · by_cases h2 : p < 0.08
      · simp [h1, h2]
      · simp [h1, h2]
    · simp [h1]
  · unfold GetIdOfUsedGenerator_int
    by_cases h1 : r < 10
    · by_cases h2 : p < 0.08
      · simp [h1, h2]
      · simp [h1, h2]
    · simp [h1, not_lt.mp h1]
  · rw [hS]
    congr 1
    funext w1
    exact (hV w1).symm

end NegativeBinomialRand

namespace StableRand

open DISTRIBUTION_ID

theorem SetParameters_limits (lgamma : ℝ → ℝ) (areClose : ℝ → ℝ → Bool)
    (baseSetParameters : LimitingDistribution → ℝ → ℝ → LimitingDistribution)
    (s : StableRand) (exponent skewness : ℝ) :
    ((SetParameters lgamma areClose baseSetParameters s exponent skewness).distributionId
        = UNITY_EXPONENT →
      (SetParameters lgamma areClose baseSetParameters s exponent skewness).pdfXLimit
        = Real.sqrt (2e4 / M_PI * M_E))
    ∧ ((SetParameters lgamma areClose baseSetParameters s exponent skewness).distributionId = COMMON →
      (SetParameters lgamma areClose baseSetParameters s exponent skewness).pdfCoefLimit
          = (SetParameters lgamma areClose baseSetParameters s exponent skewness).alpha
            * Real.sin (M_PI_2 * (SetParameters lgamma areClose baseSetParameters s exponent skewness).alpha)
            / M_PI
      ∧ (SetParameters lgamma areClose baseSetParameters s exponent skewness).lgammaExponent
          = lgamma (SetParameters lgamma areClose baseSetParameters s exponent skewness).alpha
      ∧ (SetParameters lgamma areClose baseSetParameters s exponent skewness).pdfXLimit
          = (2e4 * (SetParameters lgamma areClose baseSetParameters s exponent skewness).pdfCoefLimit
              * Real.exp (SetParameters lgamma areClose baseSetParameters s exponent skewness).lgammaExponent)
            ^ (1.0 / ((SetParameters lgamma areClose baseSetParameters s exponent skewness).alpha + 1)))
    := by
  unfold SetParameters
  simp only
  split_ifs <;> simp_all

theorem pdfForCommonExponent_tail (lgamma : ℝ → ℝ) (rm : RandMath) (theta0Init : ℝ) (fuel : Nat)
    (s : StableRand) (x : ℝ)
    (hguard1 : ¬ ((x - s.mu) / s.sigma > 0 ∧ s.alpha < 1 ∧ s.beta = -1))
    (hguard2 : ¬ (¬ (x - s.mu) / s.sigma > 0 ∧ s.alpha < 1 ∧ s.beta = 1))
    (hfar : (1e-4 : ℝ) ≤ |(x - s.mu) / s.sigma|)
    (hxi : -(if (x - s.mu) / s.sigma > 0 then s.xi else -s.xi) < M_PI_2)
    (h : |(x - s.mu) / s.sigma| > s.pdfXLimit) :
    pdfForCommonExponent lgamma rm theta0Init (fuel + 1) s x
      = some (pdfTailForCommonExponent s ((x - s.mu) / s.sigma)
          (Real.log |(x - s.mu) / s.sigma|)) := by
  show pdfForCommonExponentStep lgamma rm theta0Init
    (pdfForCommonExponent lgamma rm theta0Init fuel s) s x = _
  unfold pdfForCommonExponentStep
  simp only
  by_cases hpos : (x - s.mu) / s.sigma > 0
  · have habs : |(x - s.mu) / s.sigma| = (x - s.mu) / s.sigma := abs_of_pos hpos
    rw [habs] at hfar h ⊢
    rw [if_pos hpos] at hxi ⊢
    rw [if_neg (fun hc => hguard1 ⟨hpos, hc⟩)]
    unfold pdfForCommonExponentRest
    simp only
    rw [if_neg (not_lt.mpr hfar), if_neg (not_le.mpr hxi), if_pos h]
  · have hle : (x - s.mu) / s.sigma ≤ 0 := not_lt.mp hpos
    have habs : |(x - s.mu) / s.sigma| = -((x - s.mu) / s.sigma) := abs_of_nonpos hle
    rw [habs] at hfar h ⊢
    rw [if_neg hpos] at hxi ⊢
    rw [if_neg (fun hc => hguard2 ⟨hpos, hc⟩)]
    unfold pdfForCommonExponentRest
    simp only
    rw [if_neg (not_lt.mpr hfar), if_neg (not_le.mpr hxi), if_pos h]

/-- C17: beyond pdfXLimit the value returned is below 1e-4.  In the UNITY_EXPONENT regime
(instance su, pdfXLimit = sqrt(2e4 e / pi), beta in [-1, 1]) pdfForUnityExponent returns
(1 + beta)/(pi xSt^2) for xSt > 0 and (1 - beta)/(pi xSt^2) for xSt < 0 when |xSt| exceeds
pdfXLimit, a value in [0, 1e-4).  In the COMMON regime (instance sc, alpha in (0, 2),
pdfXLimit = (2e4 pdfCoefLimit Gamma(alpha))^(1/(alpha + 1))) the value of the tail branch is
pdfCoefLimit Gamma(alpha) (1 +- beta) / |xSt|^(alpha + 1), again in [0, 1e-4), and
pdfForCommonExponent returns it when the point passes the tests that come before that
branch. -/
theorem C17_tail_value_below_bound (rm : RandMath) (theta0Init : ℝ) (fuel : Nat)
    (su sc : StableRand) (x : ℝ)
    (hub1 : -1 ≤ su.beta) (hub2 : su.beta ≤ 1)
    (hulim : su.pdfXLimit = Real.sqrt (2e4 / M_PI * M_E))
    (hu : |(x - su.mu) / su.sigma - M_2_PI * su.beta * su.logSigma| > su.pdfXLimit)
    (ha0 : 0 < sc.alpha) (ha2 : sc.alpha < 2) (hcb1 : -1 ≤ sc.beta) (hcb2 : sc.beta ≤ 1)
    (hcoef : sc.pdfCoefLimit = sc.alpha * Real.sin (M_PI_2 * sc.alpha) / M_PI)
    (hlg : sc.lgammaExponent = lgamma sc.alpha)
    (hclim : sc.pdfXLimit
      = (2e4 * sc.pdfCoefLimit * Real.exp sc.lgammaExponent) ^ (1.0 / (sc.alpha + 1)))
    (hc : |(x - sc.mu) / sc.sigma| > sc.pdfXLimit) :
    pdfForUnityExponent rm su x
        = (if (x - su.mu) / su.sigma - M_2_PI * su.beta * su.logSigma > 0 then 1 + su.beta
            else 1 - su.beta)
          / (Real.pi * ((x - su.mu) / su.sigma - M_2_PI * su.beta * su.logSigma) ^ 2)
    ∧ 0 ≤ pdfForUnityExponent rm su x
    ∧ pdfForUnityExponent rm su x < 1e-4
    ∧ pdfTailForCommonExponent sc ((x - sc.mu) / sc.sigma) (Real.log |(x - sc.mu) / sc.sigma|)
        = sc.pdfCoefLimit * Real.Gamma sc.alpha
          * (if (x - sc.mu) / sc.sigma > 0 then 1 + sc.beta else 1 - sc.beta)
          / |(x - sc.mu) / sc.sigma| ^ (sc.alpha + 1)
    ∧ 0 ≤ pdfTailForCommonExponent sc ((x - sc.mu) / sc.sigma)
        (Real.log |(x - sc.mu) / sc.sigma|)
    ∧ pdfTailForCommonExponent sc ((x - sc.mu) / sc.sigma)
        (Real.log |(x - sc.mu) / sc.sigma|) < 1e-4
    ∧ (¬ ((x - sc.mu) / sc.sigma > 0 ∧ sc.alpha < 1 ∧ sc.beta = -1) →
        ¬ (¬ (x - sc.mu) / sc.sigma > 0 ∧ sc.alpha < 1 ∧ sc.beta = 1) →
        (1e-4 : ℝ) ≤ |(x - sc.mu) / sc.sigma| →
        -(if (x - sc.mu) / sc.sigma > 0 then sc.xi else -sc.xi) < M_PI_2 →
        pdfForCommonExponent lgamma rm theta0Init (fuel + 1) sc x
          = some (pdfTailForCommonExponent sc ((x - sc.mu) / sc.sigma)
              (Real.log |(x - sc.mu) / sc.sigma|))) := by
  have common_tail_bound :
      ∀ (s : StableRand) (xSt : ℝ)
        (ha0 : 0 < s.alpha) (ha2 : s.alpha < 2) (hb1 : -1 ≤ s.beta) (hb2 : s.beta ≤ 1)
        (hcoef : s.pdfCoefLimit = s.alpha * Real.sin (M_PI_2 * s.alpha) / M_PI)
        (hlg : s.lgammaExponent = lgamma s.alpha)
        (hlim : s.pdfXLimit
        = (2e4 * s.pdfCoefLimit * Real.exp s.lgammaExponent) ^ (1.0 / (s.alpha + 1)))
        (h : |xSt| > s.pdfXLimit),
      pdfTailForCommonExponent s xSt (Real.log |xSt|)
      = s.pdfCoefLimit * Real.Gamma s.alpha * (if xSt > 0 then 1 + s.beta else 1 - s.beta)
      / |xSt| ^ (s.alpha + 1)
      ∧ 0 ≤ pdfTailForCommonExponent s xSt (Real.log |xSt|)
      ∧ pdfTailForCommonExponent s xSt (Real.log |xSt|) < 1e-4 := by
    intro s xSt ha0 ha2 hb1 hb2 hcoef hlg hlim h
    have hpi : 0 < Real.pi := Real.pi_pos
    have hG : 0 < Real.Gamma s.alpha := Real.Gamma_pos_of_pos ha0
    have hexp : Real.exp s.lgammaExponent = Real.Gamma s.alpha := by
      rw [hlg]
      unfold lgamma
      rw [abs_of_pos hG, Real.exp_log hG]
    have hsin : 0 < Real.sin (M_PI_2 * s.alpha) := by
      apply Real.sin_pos_of_pos_of_lt_pi
      · unfold M_PI_2
        positivity
      · unfold M_PI_2
        nlinarith
    have hcl : 0 < s.pdfCoefLimit := by
      rw [hcoef]
      unfold M_PI
      positivity
    have hC : 0 < s.pdfCoefLimit * Real.Gamma s.alpha := mul_pos hcl hG
    have ha1 : 0 < s.alpha + 1 := by linarith
    have hbase : 0 ≤ 2e4 * s.pdfCoefLimit * Real.exp s.lgammaExponent := by
      rw [hexp]
      positivity
    have hL0 : 0 ≤ s.pdfXLimit := by
      rw [hlim]
      exact Real.rpow_nonneg hbase _
    have hx : 0 < |xSt| := lt_of_le_of_lt hL0 h
    have hpow : 2e4 * (s.pdfCoefLimit * Real.Gamma s.alpha) < |xSt| ^ (s.alpha + 1) := by
      have h1 : s.pdfXLimit ^ (s.alpha + 1) < |xSt| ^ (s.alpha + 1) :=
        Real.rpow_lt_rpow hL0 h ha1
      have h2 : s.pdfXLimit ^ (s.alpha + 1)
          = 2e4 * s.pdfCoefLimit * Real.exp s.lgammaExponent := by
        rw [hlim, ← Real.rpow_mul hbase]
        have : 1.0 / (s.alpha + 1) * (s.alpha + 1) = 1 := by
          norm_num
          field_simp
        rw [this, Real.rpow_one]
      rw [h2, hexp, mul_assoc] at h1
      exact h1
    have hxp : 0 < |xSt| ^ (s.alpha + 1) := Real.rpow_pos_of_pos hx _
    have hc0 : 0 ≤ (if xSt > 0 then 1 + s.beta else 1 - s.beta) := by
      split_ifs <;> linarith
    have hc2 : (if xSt > 0 then 1 + s.beta else 1 - s.beta) ≤ 2 := by
      split_ifs <;> linarith
    have hform : pdfTailForCommonExponent s xSt (Real.log |xSt|)
        = s.pdfCoefLimit * Real.Gamma s.alpha * (if xSt > 0 then 1 + s.beta else 1 - s.beta)
          / |xSt| ^ (s.alpha + 1) := by
      unfold pdfTailForCommonExponent
      simp only
      rw [Real.exp_sub, hexp, Real.rpow_def_of_pos hx, mul_comm (s.alpha + 1) (Real.log |xSt|)]
      ring
    refine ⟨hform, ?_, ?_⟩
    · rw [hform]
      exact div_nonneg (mul_nonneg hC.le hc0) hxp.le
    · rw [hform, div_lt_iff₀ hxp]
      revert hc0 hc2
      generalize (if xSt > 0 then 1 + s.beta else 1 - s.beta) = c
      intro hc0 hc2
      have h3 : s.pdfCoefLimit * Real.Gamma s.alpha * c
          ≤ s.pdfCoefLimit * Real.Gamma s.alpha * 2 :=
        mul_le_mul_of_nonneg_left hc2 hC.le
      have h4 : (1e-4 : ℝ) * (2e4 * (s.pdfCoefLimit * Real.Gamma s.alpha))
          < 1e-4 * |xSt| ^ (s.alpha + 1) :=
        mul_lt_mul_of_pos_left hpow (by norm_num)
      norm_num at h4 ⊢
      linarith
  have unity_tail_bound :
      ∀ (beta xSt : ℝ) (hb1 : -1 ≤ beta) (hb2 : beta ≤ 1)
        (h : |xSt| > Real.sqrt (2e4 / M_PI * M_E)),
      1.0 / (M_PI * xSt * xSt) * (if xSt > 0 then 1 + beta else 1 - beta)
      = (if xSt > 0 then 1 + beta else 1 - beta) / (Real.pi * xSt ^ 2)
      ∧ 0 ≤ (if xSt > 0 then 1 + beta else 1 - beta) / (Real.pi * xSt ^ 2)
      ∧ (if xSt > 0 then 1 + beta else 1 - beta) / (Real.pi * xSt ^ 2) < 1e-4 := by
    intro beta xSt hb1 hb2 h
    have hpi : 0 < Real.pi := Real.pi_pos
    have he : (1 : ℝ) < Real.exp 1 := by
      have := Real.add_one_lt_exp (one_ne_zero : (1 : ℝ) ≠ 0)
      linarith
    have hL : 0 ≤ 2e4 / M_PI * M_E := by
      unfold M_PI M_E
      positivity
    have hsq : 2e4 / M_PI * M_E < xSt ^ 2 := by
      have h0 : 0 ≤ Real.sqrt (2e4 / M_PI * M_E) := Real.sqrt_nonneg _
      have h1 : Real.sqrt (2e4 / M_PI * M_E) ^ 2 < |xSt| ^ 2 := by
        apply pow_lt_pow_left₀ h h0 (by norm_num)
      rwa [Real.sq_sqrt hL, sq_abs] at h1
    have hx2 : 0 < xSt ^ 2 := lt_of_le_of_lt hL hsq
    have hbig : 2e4 < Real.pi * xSt ^ 2 := by
      have h2 : Real.pi * (2e4 / M_PI * M_E) < Real.pi * xSt ^ 2 :=
        mul_lt_mul_of_pos_left hsq hpi
      have h3 : Real.pi * (2e4 / M_PI * M_E) = 2e4 * Real.exp 1 := by
        unfold M_PI M_E
        field_simp
      rw [h3] at h2
      nlinarith
    have hc0 : 0 ≤ (if xSt > 0 then 1 + beta else 1 - beta) := by
      split_ifs <;> linarith
    have hc2 : (if xSt > 0 then 1 + beta else 1 - beta) ≤ 2 := by
      split_ifs <;> linarith
    have hden : 0 < Real.pi * xSt ^ 2 := by positivity
    revert hc0 hc2
    generalize (if xSt > 0 then 1 + beta else 1 - beta) = c
    intro hc0 hc2
    refine ⟨?_, div_nonneg hc0 hden.le, ?_⟩
    · unfold M_PI
      have h1 : (1.0 : ℝ) = 1 := by norm_num
      rw [h1, mul_assoc, ← sq, one_div, inv_mul_eq_div]
    · rw [div_lt_iff₀ hden]
      have : (1e-4 : ℝ) * (Real.pi * xSt ^ 2) > 1e-4 * 2e4 := by
        apply mul_lt_mul_of_pos_left hbig (by norm_num)
      norm_num at this ⊢
      linarith
  have hU : pdfForUnityExponent rm su x
      = 1.0 / (M_PI * ((x - su.mu) / su.sigma - M_2_PI * su.beta * su.logSigma)
            * ((x - su.mu) / su.sigma - M_2_PI * su.beta * su.logSigma))
          * (if (x - su.mu) / su.sigma - M_2_PI * su.beta * su.logSigma > 0 then 1 + su.beta
              else 1 - su.beta) := by
    unfold pdfForUnityExponent
    simp only
    rw [if_pos hu]
  rw [hulim] at hu
  obtain ⟨u1, u2, u3⟩ := unity_tail_bound su.beta _ hub1 hub2 hu
  obtain ⟨c1, c2, c3⟩ := common_tail_bound sc _ ha0 ha2 hcb1 hcb2 hcoef hlg hclim hc
  refine ⟨hU.trans u1, ?_, ?_, c1, c2, c3, ?_⟩
  · rw [hU, u1]
    exact u2
  · rw [hU, u1]
    exact u3
  · intro g1 g2 g3 g4
    exact pdfForCommonExponent_tail lgamma rm theta0Init fuel sc x g1 g2 g3 g4 hc

end StableRand

namespace StableRand

open DISTRIBUTION_ID

/-- Witness of C17 at x = 10000: the instance of the UNITY_EXPONENT regime has beta = 1,
sigma = 1 and mu = 0, the instance of the COMMON regime has alpha = 3/2, beta = 0, sigma = 1
and mu = 0, both with the limits that SetParameters stores. -/
theorem C17_tail_value_below_bound_witness :
    pdfForUnityExponent standInRandMath
        { alpha := 1, beta := 1, sigma := 1, mu := 0, logSigma := 0, pdfCoef := 0.5,
          pdfXLimit := Real.sqrt (2e4 / M_PI * M_E), distributionId := UNITY_EXPONENT } 10000
      < 1e-4
    ∧ pdfTailForCommonExponent
        { alpha := 3 / 2, beta := 0, sigma := 1, mu := 0,
          pdfCoefLimit := 3 / 2 * Real.sin (M_PI_2 * (3 / 2)) / M_PI,
          lgammaExponent := lgamma (3 / 2),
          pdfXLimit := (2e4 * (3 / 2 * Real.sin (M_PI_2 * (3 / 2)) / M_PI)
            * Real.exp (lgamma (3 / 2))) ^ (1.0 / ((3 / 2 : ℝ) + 1)),
          distributionId := COMMON }
        ((10000 - 0) / 1) (Real.log |(10000 - 0) / 1|)
      < 1e-4 := by
  have Gamma_three_halves_lt_one :
      Real.Gamma (3 / 2) < 1 := by
    have h : Real.Gamma (1 / 2 + 1) = 1 / 2 * Real.Gamma (1 / 2) :=
      Real.Gamma_add_one (by norm_num)
    have e : (1 / 2 + 1 : ℝ) = 3 / 2 := by norm_num
    rw [e, Real.Gamma_one_half_eq] at h
    have hs : Real.sqrt Real.pi < 2 := by
      rw [Real.sqrt_lt' (by norm_num)]
      have := Real.pi_lt_four
      linarith
    rw [h]
    linarith
  have hpi3 : (3 : ℝ) < Real.pi := Real.pi_gt_three
  have hpi : 0 < Real.pi := Real.pi_pos
  have he : Real.exp 1 < 3 := by
    have := Real.exp_one_lt_d9
    linarith
  have hu : |((10000 : ℝ) - 0) / 1 - M_2_PI * 1 * 0| > Real.sqrt (2e4 / M_PI * M_E) := by
    have h1 : |((10000 : ℝ) - 0) / 1 - M_2_PI * 1 * 0| = 10000 := by norm_num
    rw [h1, gt_iff_lt, Real.sqrt_lt' (by norm_num)]
    unfold M_PI M_E
    have h2 : 2e4 / Real.pi * Real.exp 1 < 2e4 / Real.pi * 3 :=
      mul_lt_mul_of_pos_left he (by positivity)
    have h3 : 2e4 / Real.pi * 3 < 2e4 / 3 * 3 := by
      apply mul_lt_mul_of_pos_right _ (by norm_num)
      apply div_lt_div_of_pos_left (by norm_num) (by norm_num) hpi3
    norm_num at h2 h3 ⊢
    linarith
  have hG : 0 < Real.Gamma (3 / 2) := Real.Gamma_pos_of_pos (by norm_num)
  have hexp : Real.exp (lgamma (3 / 2)) = Real.Gamma (3 / 2) := by
    unfold lgamma
    rw [abs_of_pos hG, Real.exp_log hG]
  have hsin1 : Real.sin (M_PI_2 * (3 / 2)) ≤ 1 := Real.sin_le_one _
  have hsin0 : 0 < Real.sin (M_PI_2 * (3 / 2)) := by
    apply Real.sin_pos_of_pos_of_lt_pi
    · unfold M_PI_2
      positivity
    · unfold M_PI_2
      linarith
  have hcl : 3 / 2 * Real.sin (M_PI_2 * (3 / 2)) / M_PI < 1 / 2 := by
    unfold M_PI
    rw [div_lt_iff₀ hpi]
    nlinarith
  have hcl0 : 0 < 3 / 2 * Real.sin (M_PI_2 * (3 / 2)) / M_PI := by
    unfold M_PI
    positivity
  have hB0 : 0 ≤ 2e4 * (3 / 2 * Real.sin (M_PI_2 * (3 / 2)) / M_PI)
      * Real.exp (lgamma (3 / 2)) := by
    rw [hexp]
    positivity
  have hB : 2e4 * (3 / 2 * Real.sin (M_PI_2 * (3 / 2)) / M_PI) * Real.exp (lgamma (3 / 2))
      < 10000 := by
    rw [hexp]
    have h1 : 3 / 2 * Real.sin (M_PI_2 * (3 / 2)) / M_PI * Real.Gamma (3 / 2) < 1 / 2 * 1 :=
      mul_lt_mul hcl Gamma_three_halves_lt_one.le hG (by norm_num)
    nlinarith
  have hc : |((10000 : ℝ) - 0) / 1|
      > (2e4 * (3 / 2 * Real.sin (M_PI_2 * (3 / 2)) / M_PI) * Real.exp (lgamma (3 / 2)))
        ^ (1.0 / ((3 / 2 : ℝ) + 1)) := by
    have h1 : |((10000 : ℝ) - 0) / 1| = 10000 := by norm_num
    rw [h1, gt_iff_lt]
    have hexpo : (1.0 / ((3 / 2 : ℝ) + 1)) = 2 / 5 := by norm_num
    rw [hexpo]
    calc (2e4 * (3 / 2 * Real.sin (M_PI_2 * (3 / 2)) / M_PI) * Real.exp (lgamma (3 / 2)))
          ^ (2 / 5 : ℝ)
        ≤ (10000 : ℝ) ^ (2 / 5 : ℝ) :=
          Real.rpow_le_rpow hB0 hB.le (by norm_num)
      _ < (10000 : ℝ) ^ (1 : ℝ) :=
          Real.rpow_lt_rpow_of_exponent_lt (by norm_num) (by norm_num)
      _ = 10000 := Real.rpow_one _
  have h := C17_tail_value_below_bound standInRandMath 0 0
    { alpha := 1, beta := 1, sigma := 1, mu := 0, logSigma := 0, pdfCoef := 0.5,
      pdfXLimit := Real.sqrt (2e4 / M_PI * M_E), distributionId := UNITY_EXPONENT }
    { alpha := 3 / 2, beta := 0, sigma := 1, mu := 0,
      pdfCoefLimit := 3 / 2 * Real.sin (M_PI_2 * (3 / 2)) / M_PI,
      lgammaExponent := lgamma (3 / 2),
      pdfXLimit := (2e4 * (3 / 2 * Real.sin (M_PI_2 * (3 / 2)) / M_PI)
        * Real.exp (lgamma (3 / 2))) ^ (1.0 / ((3 / 2 : ℝ) + 1)),
      distributionId := COMMON }
    10000 (by norm_num) (by norm_num) rfl hu (by norm_num) (by norm_num) (by norm_num)
    (by norm_num) rfl rfl rfl hc
  exact ⟨h.2.2.1, h.2.2.2.2.2.1⟩

end StableRand

namespace StableRand

open DISTRIBUTION_ID

/-- Counterexample to C18: on the instance with scale 1 and location 0 after
SetParameters(3/10, -1), whose regime is COMMON, the point x = 5e-5 has a standardized
magnitude below 1e-4 and not below MIN_POSITIVE, yet pdfForCommonExponent returns 0 without
calling itself: the test on the side of the support comes before the interpolation. -/
theorem C18_pdf_returns_zero_before_interpolation :
    (SetParameters lgamma standInRandMath.areClose standInBaseSetParameters
        { sigma := 1, mu := 0 } (3 / 10) (-1)).distributionId = COMMON
    ∧ pdfForCommonExponent lgamma standInRandMath 0 1
        (SetParameters lgamma standInRandMath.areClose standInBaseSetParameters
          { sigma := 1, mu := 0 } (3 / 10) (-1)) 5e-5
      = some 0
    ∧ |((5e-5 : ℝ) - 0) / 1| < 1e-4
    ∧ ¬ |((5e-5 : ℝ) - 0) / 1| < standInRandMath.MIN_POSITIVE := by
  have hregime : regimeRule standInRandMath.areClose (3 / 10) (-1) = COMMON := by
    unfold regimeRule standInRandMath
    norm_num
  have hxst : ((5e-5 : ℝ) - 0) / 1 > 0 := by norm_num
  have hguard : (3 / 10 : ℝ) < 1 ∧ (-1 : ℝ) = -1 := by norm_num
  have hbase := SetParameters_base lgamma standInRandMath.areClose standInBaseSetParameters
    { sigma := 1, mu := 0 } (3 / 10) (-1)
  refine ⟨(SetParameters_tag _ _ _ _ _ _).trans hregime, ?_, ?_, ?_⟩
  · show pdfForCommonExponentStep lgamma standInRandMath 0
      (pdfForCommonExponent lgamma standInRandMath 0 0 _) _ 5e-5 = _
    unfold pdfForCommonExponentStep
    show (if ((5e-5 : ℝ) - (SetParameters lgamma standInRandMath.areClose
          standInBaseSetParameters { sigma := 1, mu := 0 } (3 / 10)
          (-1)).toLimitingDistribution.mu)
        / (SetParameters lgamma standInRandMath.areClose standInBaseSetParameters
          { sigma := 1, mu := 0 } (3 / 10) (-1)).toLimitingDistribution.sigma > 0 then
        if (SetParameters lgamma standInRandMath.areClose standInBaseSetParameters
            { sigma := 1, mu := 0 } (3 / 10) (-1)).toLimitingDistribution.alpha < 1
          ∧ (SetParameters lgamma standInRandMath.areClose standInBaseSetParameters
            { sigma := 1, mu := 0 } (3 / 10) (-1)).toLimitingDistribution.beta = -1
        then some 0.0 else _
      else _) = some 0
    rw [hbase]
    show (if ((5e-5 : ℝ) - 0) / 1 > 0 then
        if (3 / 10 : ℝ) < 1 ∧ (-1 : ℝ) = -1 then some 0.0 else _
      else _) = some 0
    rw [if_pos hxst, if_pos hguard]
    norm_num
  · norm_num [abs_of_pos]
  · norm_num [standInRandMath, abs_of_pos]

/-- C18 as amended: for sigma > 0 and a point whose standardized magnitude is below 1e-4,
cdfForCommonExponent, and pdfForCommonExponent unless its test on the side of the support
returns 0 first (alpha < 1 with beta = -1 right of mu, or with beta = 1 at or left of mu),
return the closed-form value directly when the magnitude is below MIN_POSITIVE, and
otherwise call themselves exactly once, at mu + sigma b with b = 1.1e-4 of the sign of the
standardized point: that call has standardized magnitude 1.1e-4, which is not below 1e-4, it
returns without a further call, and the result is linearInterpolation(0, b, y0, y1, xSt). -/
theorem C18_interpolation_one_self_call (lgamma : ℝ → ℝ) (rm : RandMath) (theta0Init : ℝ)
    (s : StableRand)
    (x : ℝ) (hsigma : 0 < s.sigma) (hnear : |(x - s.mu) / s.sigma| < 1e-4) :
    |(s.mu + s.sigma * (if (x - s.mu) / s.sigma > 0 then 1.1e-4 else -1.1e-4) - s.mu)
        / s.sigma| = 1.1e-4
    ∧ ¬ ((1.1e-4 : ℝ) < 1e-4)
    ∧ (|(x - s.mu) / s.sigma| < rm.MIN_POSITIVE →
        ∀ fuel, cdfForCommonExponent rm (fuel + 1) s x = some (0.5 - M_1_PI * s.xi))
    ∧ (¬ |(x - s.mu) / s.sigma| < rm.MIN_POSITIVE →
        cdfForCommonExponent rm 1 s x = none
        ∧ ∃ y1,
          (∀ fuel, cdfForCommonExponent rm (fuel + 1) s
              (s.mu + s.sigma * (if (x - s.mu) / s.sigma > 0 then 1.1e-4 else -1.1e-4))
            = some y1)
          ∧ ∀ fuel, cdfForCommonExponent rm (fuel + 2) s x
            = some (rm.linearInterpolation 0
                (if (x - s.mu) / s.sigma > 0 then 1.1e-4 else -1.1e-4)
                (0.5 - M_1_PI * s.xi) y1 ((x - s.mu) / s.sigma)))
    ∧ (¬ ((x - s.mu) / s.sigma > 0 ∧ s.alpha < 1 ∧ s.beta = -1) →
        ¬ (¬ (x - s.mu) / s.sigma > 0 ∧ s.alpha < 1 ∧ s.beta = 1) →
        (|(x - s.mu) / s.sigma| < rm.MIN_POSITIVE →
          ∀ fuel, pdfForCommonExponent lgamma rm theta0Init (fuel + 1) s x
            = some (pdfAtZeroForCommonExponent lgamma s))
        ∧ (¬ |(x - s.mu) / s.sigma| < rm.MIN_POSITIVE →
          pdfForCommonExponent lgamma rm theta0Init 1 s x = none
          ∧ ∃ y1,
            (∀ fuel, pdfForCommonExponent lgamma rm theta0Init (fuel + 1) s
                (s.mu + s.sigma * (if (x - s.mu) / s.sigma > 0 then 1.1e-4 else -1.1e-4))
              = some y1)
            ∧ ∀ fuel, pdfForCommonExponent lgamma rm theta0Init (fuel + 2) s x
              = some (rm.linearInterpolation 0
                  (if (x - s.mu) / s.sigma > 0 then 1.1e-4 else -1.1e-4)
                  (pdfAtZeroForCommonExponent lgamma s) y1 ((x - s.mu) / s.sigma)))) := by
  have cdfForCommonExponentStep_far :
      ∀ (rm : RandMath) (self : ℝ → Option ℝ) (s : StableRand)
        (x : ℝ) (hfar : (1e-4 : ℝ) ≤ |(x - s.mu) / s.sigma|),
      cdfForCommonExponentStep rm self s x = cdfForCommonExponentStep rm (fun _ => none) s x
      ∧ (cdfForCommonExponentStep rm self s x).isSome = true := by
    intro rm self s x hfar
    unfold cdfForCommonExponentStep
    simp only [if_neg (not_lt.mpr hfar)]
    split_ifs <;> simp
  have cdfForCommonExponentStep_near :
      ∀ (rm : RandMath) (self : ℝ → Option ℝ) (s : StableRand)
        (x : ℝ) (hnear : |(x - s.mu) / s.sigma| < 1e-4),
      cdfForCommonExponentStep rm self s x
      = if |(x - s.mu) / s.sigma| < rm.MIN_POSITIVE then some (0.5 - M_1_PI * s.xi)
      else (self (s.mu + s.sigma * (if (x - s.mu) / s.sigma > 0 then 1.1e-4 else -1.1e-4))).map
      fun y1 => rm.linearInterpolation 0
      (if (x - s.mu) / s.sigma > 0 then 1.1e-4 else -1.1e-4)
      (0.5 - M_1_PI * s.xi) y1 ((x - s.mu) / s.sigma) := by
    intro rm self s x hnear
    unfold cdfForCommonExponentStep
    simp only
    rw [if_pos hnear]
  have pdfForCommonExponentStep_far :
      ∀ (lgamma : ℝ → ℝ) (rm : RandMath) (theta0Init : ℝ)
        (self : ℝ → Option ℝ) (s : StableRand) (x : ℝ)
        (hfar : (1e-4 : ℝ) ≤ |(x - s.mu) / s.sigma|),
      pdfForCommonExponentStep lgamma rm theta0Init self s x
      = pdfForCommonExponentStep lgamma rm theta0Init (fun _ => none) s x
      ∧ (pdfForCommonExponentStep lgamma rm theta0Init self s x).isSome = true := by
    intro lgamma rm theta0Init self s x hfar
    unfold pdfForCommonExponentStep
    simp only
    by_cases hpos : (x - s.mu) / s.sigma > 0
    · have habs : |(x - s.mu) / s.sigma| = (x - s.mu) / s.sigma := abs_of_pos hpos
      rw [habs] at hfar
      rw [if_pos hpos]
      split_ifs
      · exact ⟨rfl, rfl⟩
      · unfold pdfForCommonExponentRest
        simp only [if_neg (not_lt.mpr hfar)]
        split_ifs <;> simp
    · have hle : (x - s.mu) / s.sigma ≤ 0 := not_lt.mp hpos
      have habs : |(x - s.mu) / s.sigma| = -((x - s.mu) / s.sigma) := abs_of_nonpos hle
      rw [habs] at hfar
      rw [if_neg hpos]
      split_ifs
      · exact ⟨rfl, rfl⟩
      · unfold pdfForCommonExponentRest
        simp only [if_neg (not_lt.mpr hfar)]
        split_ifs <;> simp
  have pdfForCommonExponentStep_near :
      ∀ (lgamma : ℝ → ℝ) (rm : RandMath) (theta0Init : ℝ)
        (self : ℝ → Option ℝ) (s : StableRand) (x : ℝ)
        (hnear : |(x - s.mu) / s.sigma| < 1e-4)
        (hguard1 : ¬ ((x - s.mu) / s.sigma > 0 ∧ s.alpha < 1 ∧ s.beta = -1))
        (hguard2 : ¬ (¬ (x - s.mu) / s.sigma > 0 ∧ s.alpha < 1 ∧ s.beta = 1)),
      pdfForCommonExponentStep lgamma rm theta0Init self s x
      = if |(x - s.mu) / s.sigma| < rm.MIN_POSITIVE then some (pdfAtZeroForCommonExponent lgamma s)
      else (self (s.mu + s.sigma * (if (x - s.mu) / s.sigma > 0 then 1.1e-4 else -1.1e-4))).map
      fun y1 => rm.linearInterpolation 0
      (if (x - s.mu) / s.sigma > 0 then 1.1e-4 else -1.1e-4)
      (pdfAtZeroForCommonExponent lgamma s) y1 ((x - s.mu) / s.sigma) := by
    intro lgamma rm theta0Init self s x hnear hguard1 hguard2
    unfold pdfForCommonExponentStep
    simp only
    by_cases hpos : (x - s.mu) / s.sigma > 0
    · have habs : |(x - s.mu) / s.sigma| = (x - s.mu) / s.sigma := abs_of_pos hpos
      rw [if_pos hpos, if_neg (fun hc => hguard1 ⟨hpos, hc⟩)]
      unfold pdfForCommonExponentRest
      simp only
      rw [habs] at hnear
      rw [if_pos hnear]
    · have hle : (x - s.mu) / s.sigma ≤ 0 := not_lt.mp hpos
      have habs : |(x - s.mu) / s.sigma| = -((x - s.mu) / s.sigma) := abs_of_nonpos hle
      rw [if_neg hpos, if_neg (fun hc => hguard2 ⟨hpos, hc⟩)]
      unfold pdfForCommonExponentRest
      simp only
      rw [habs] at hnear
      rw [if_pos hnear]
  have offset_abs :
      ∀ (xSt : ℝ),
      |(if xSt > 0 then (1.1e-4 : ℝ) else -1.1e-4)| = 1.1e-4
      ∧ ((if xSt > 0 then (1.1e-4 : ℝ) else -1.1e-4) > 0 ↔ xSt > 0) := by
    intro xSt
    by_cases h : xSt > 0
    · rw [if_pos h]
      exact ⟨abs_of_pos (by norm_num), by simp [h]; norm_num⟩
    · rw [if_neg h]
      refine ⟨by rw [abs_neg]; exact abs_of_pos (by norm_num), ?_⟩
      constructor
      · intro h2
        norm_num at h2
      · intro h2
        exact absurd h2 h
  have standardized_offset :
      ∀ (s : StableRand) (b : ℝ) (hsigma : 0 < s.sigma),
      (s.mu + s.sigma * b - s.mu) / s.sigma = b := by
    intro s b hsigma
    have hs : s.sigma ≠ 0 := hsigma.ne.symm
    field_simp
  have hb : |(s.mu + s.sigma * (if (x - s.mu) / s.sigma > 0 then 1.1e-4 else -1.1e-4) - s.mu)
      / s.sigma| = 1.1e-4 := by
    rw [standardized_offset s _ hsigma]
    exact (offset_abs _).1
  have hfar : (1e-4 : ℝ)
      ≤ |(s.mu + s.sigma * (if (x - s.mu) / s.sigma > 0 then 1.1e-4 else -1.1e-4) - s.mu)
        / s.sigma| := by
    rw [hb]
    norm_num
  have hcdfS : ∀ fuel y, cdfForCommonExponent rm (fuel + 1) s y
      = cdfForCommonExponentStep rm (cdfForCommonExponent rm fuel s) s y := fun _ _ => rfl
  have hpdfS : ∀ fuel y, pdfForCommonExponent lgamma rm theta0Init (fuel + 1) s y
      = pdfForCommonExponentStep lgamma rm theta0Init (pdfForCommonExponent lgamma rm theta0Init fuel s) s y :=
    fun _ _ => rfl
  refine ⟨hb, by norm_num, ?_, ?_, ?_⟩
  · intro hmin fuel
    rw [hcdfS, cdfForCommonExponentStep_near rm _ s x hnear, if_pos hmin]
  · intro hmin
    constructor
    · rw [hcdfS, cdfForCommonExponentStep_near rm _ s x hnear, if_neg hmin]
      rfl
    · obtain ⟨y1, hy1⟩ := Option.isSome_iff_exists.mp
        (cdfForCommonExponentStep_far rm (fun _ => none) s _ hfar).2
      have hin : ∀ fuel, cdfForCommonExponent rm (fuel + 1) s
          (s.mu + s.sigma * (if (x - s.mu) / s.sigma > 0 then 1.1e-4 else -1.1e-4))
          = some y1 := by
        intro fuel
        rw [hcdfS, (cdfForCommonExponentStep_far rm _ s _ hfar).1, hy1]
      refine ⟨y1, hin, ?_⟩
      intro fuel
      rw [hcdfS, cdfForCommonExponentStep_near rm _ s x hnear, if_neg hmin, hin fuel]
      rfl
  · intro hg1 hg2
    constructor
    · intro hmin fuel
      rw [hpdfS, pdfForCommonExponentStep_near lgamma rm _ _ s x hnear hg1 hg2, if_pos hmin]
    · intro hmin
      constructor
      · rw [hpdfS, pdfForCommonExponentStep_near lgamma rm _ _ s x hnear hg1 hg2, if_neg hmin]
        rfl
      · obtain ⟨y1, hy1⟩ := Option.isSome_iff_exists.mp
          (pdfForCommonExponentStep_far lgamma rm theta0Init (fun _ => none) s _ hfar).2
        have hin : ∀ fuel, pdfForCommonExponent lgamma rm theta0Init (fuel + 1) s
            (s.mu + s.sigma * (if (x - s.mu) / s.sigma > 0 then 1.1e-4 else -1.1e-4))
            = some y1 := by
          intro fuel
          rw [hpdfS, (pdfForCommonExponentStep_far lgamma rm theta0Init _ s _ hfar).1, hy1]
        refine ⟨y1, hin, ?_⟩
        intro fuel
        rw [hpdfS, pdfForCommonExponentStep_near lgamma rm _ _ s x hnear hg1 hg2, if_neg hmin,
          hin fuel]
        rfl

end StableRand

namespace StableRand

open DISTRIBUTION_ID

/-- Witness of the amended C18 with the stand-in helpers, alpha = 3/2, beta = 0, sigma = 1,
mu = 0 and x = 5e-5: without room for a self-call neither function returns, so both make
one. -/
theorem C18_interpolation_one_self_call_witness :
    cdfForCommonExponent standInRandMath 1
        { alpha := 3 / 2, beta := 0, sigma := 1, mu := 0, distributionId := COMMON } 5e-5
      = none
    ∧ pdfForCommonExponent lgamma standInRandMath 0 1
        { alpha := 3 / 2, beta := 0, sigma := 1, mu := 0, distributionId := COMMON } 5e-5
      = none := by
  have h := C18_interpolation_one_self_call lgamma standInRandMath 0
    { alpha := 3 / 2, beta := 0, sigma := 1, mu := 0, distributionId := COMMON } 5e-5
    (by norm_num) (by norm_num [abs_of_pos])
  have hmin : ¬ |((5e-5 : ℝ) - 0) / 1| < standInRandMath.MIN_POSITIVE := by
    norm_num [standInRandMath, abs_of_pos]
  exact ⟨(h.2.2.2.1 hmin).1, ((h.2.2.2.2 (by norm_num) (by norm_num)).2 hmin).1⟩

/-- Counterexample to C19.  Take a closeness test of absolute tolerance 1e-6 and the
instance with scale 1 and location 0 after SetParameters(3/10, beta), where beta, strictly
between 0 and 1, is such that B = atan(beta tan(pi alpha / 2)) is (3/10)(pi/2 - 1e-7): its
regime is COMMON and its xi = alphaInv * B is pi/2 - 1e-7.  At x = -1 pdfForCommonExponent
has xSt = -1, so xiAdj = -xi, and none of its tests before findRoot holds (xSt > 0; alpha < 1
with beta = 1; |xSt| < 1e-4; -xiAdj >= pi/2; |xSt| > pdfXLimit), so the root is sought
between -xiAdj = pi/2 - 1e-7 and pi/2.  At both ends of that bracket, the lower one being
strictly below pi/2, integrandAuxForCommonExponent returns +BIG_NUMBER: the test for the
upper end comes first and takes the lower end for the upper one. -/
theorem C19_lower_end_gets_upper_sentinel :
    nearOneInstance.distributionId = COMMON
    ∧ nearOneInstance.alpha = 3 / 10
    ∧ (0 < nearOneInstance.beta ∧ nearOneInstance.beta < 1)
    ∧ nearOneInstance.xi = M_PI_2 - 1e-7
    ∧ ¬ ((-1 - nearOneInstance.mu) / nearOneInstance.sigma > 0)
    ∧ ¬ (nearOneInstance.alpha < 1 ∧ nearOneInstance.beta = 1)
    ∧ ¬ (-((-1 - nearOneInstance.mu) / nearOneInstance.sigma) < 1e-4)
    ∧ ¬ (-(-nearOneInstance.xi) ≥ M_PI_2)
    ∧ ¬ (-((-1 - nearOneInstance.mu) / nearOneInstance.sigma) > nearOneInstance.pdfXLimit)
    ∧ integrandAuxForCommonExponent
        { standInRandMath with areClose := fun a b => decide (|a - b| < 1e-6) }
        nearOneInstance (-(-nearOneInstance.xi))
        (nearOneInstance.alpha_alpham1
          * Real.log (-((-1 - nearOneInstance.mu) / nearOneInstance.sigma)))
        (-nearOneInstance.xi) = standInRandMath.BIG_NUMBER
    ∧ integrandAuxForCommonExponent
        { standInRandMath with areClose := fun a b => decide (|a - b| < 1e-6) }
        nearOneInstance M_PI_2
        (nearOneInstance.alpha_alpham1
          * Real.log (-((-1 - nearOneInstance.mu) / nearOneInstance.sigma)))
        (-nearOneInstance.xi) = standInRandMath.BIG_NUMBER
    ∧ -(-nearOneInstance.xi) < M_PI_2
    ∧ 0 < standInRandMath.BIG_NUMBER := by
  have hcommon : ∀ (lg : ℝ → ℝ) (ac : ℝ → ℝ → Bool)
      (base : LimitingDistribution → ℝ → ℝ → LimitingDistribution) (s : StableRand)
      (e k : ℝ), (SetParameters lg ac base s e k).distributionId = COMMON →
      (SetParameters lg ac base s e k).xi
        = (SetParameters lg ac base s e k).alphaInv * (SetParameters lg ac base s e k).B := by
    intro lg ac base s e k
    unfold SetParameters
    simp only
    split_ifs <;> simp_all
  have hpi := Real.pi_gt_three
  have hpi4 := Real.pi_le_four
  have hM : M_PI_2 = Real.pi / 2 := rfl
  -- numeric facts
  have hb0 : 0 < 3 / 10 * (M_PI_2 - 1e-7) := by rw [hM]; norm_num; linarith
  have hb1 : 3 / 10 * (M_PI_2 - 1e-7) < M_PI_2 * (3 / 10) := by rw [hM]; norm_num; linarith
  have hb2 : M_PI_2 * (3 / 10) < Real.pi / 2 := by rw [hM]; linarith
  have hb3 : (0 : ℝ) < M_PI_2 * (3 / 10) := by rw [hM]; linarith
  have htan1 : 0 < Real.tan (3 / 10 * (M_PI_2 - 1e-7)) :=
    Real.tan_pos_of_pos_of_lt_pi_div_two hb0 (lt_trans hb1 hb2)
  have htan2 : 0 < Real.tan (M_PI_2 * (3 / 10)) := Real.tan_pos_of_pos_of_lt_pi_div_two hb3 hb2
  have htanlt : Real.tan (3 / 10 * (M_PI_2 - 1e-7)) < Real.tan (M_PI_2 * (3 / 10)) :=
    Real.tan_lt_tan_of_lt_of_lt_pi_div_two (by linarith) hb2 hb1
  have harctan : Real.arctan (Real.tan (3 / 10 * (M_PI_2 - 1e-7)) / Real.tan (M_PI_2 * (3 / 10))
      * Real.tan (M_PI_2 * (3 / 10))) = 3 / 10 * (M_PI_2 - 1e-7) := by
    rw [div_mul_cancel₀ _ (ne_of_gt htan2)]
    exact Real.arctan_tan (by linarith) (lt_trans hb1 hb2)
  have hG : 1 ≤ Real.Gamma (3 / 10) := by
    have hconv := Real.convexOn_log_Gamma.2
      (show (3 / 10 : ℝ) ∈ Set.Ioi 0 by norm_num [Set.mem_Ioi])
      (show (2 : ℝ) ∈ Set.Ioi 0 by norm_num [Set.mem_Ioi])
      (show (0 : ℝ) ≤ 10 / 17 by norm_num) (show (0 : ℝ) ≤ 7 / 17 by norm_num) (by norm_num)
    have e1 : (10 / 17 : ℝ) • (3 / 10 : ℝ) + (7 / 17 : ℝ) • (2 : ℝ) = 1 := by
      simp only [smul_eq_mul]
      norm_num
    rw [e1] at hconv
    simp only [Function.comp, Real.Gamma_one, Real.Gamma_two, Real.log_one, smul_eq_mul,
      mul_zero, add_zero] at hconv
    have hlog : 0 ≤ Real.log (Real.Gamma (3 / 10)) := by
      by_contra h
      exact absurd hconv (not_le.mpr
        (mul_neg_of_pos_of_neg (show (0 : ℝ) < 10 / 17 by norm_num) (not_le.mp h)))
    by_contra hlt
    exact absurd (Real.log_neg (Real.Gamma_pos_of_pos (by norm_num)) (not_le.mp hlt))
      (not_lt.mpr hlog)
  have hexp : Real.exp (lgamma (3 / 10)) = Real.Gamma (3 / 10) := by
    unfold lgamma
    rw [abs_of_pos (Real.Gamma_pos_of_pos (by norm_num)),
      Real.exp_log (Real.Gamma_pos_of_pos (by norm_num))]
  have hsin : 3 / 10 ≤ Real.sin (M_PI_2 * (3 / 10)) := by
    have h := Real.mul_le_sin hb3.le hb2.le
    have e : 2 / Real.pi * (M_PI_2 * (3 / 10)) = 3 / 10 := by
      rw [hM]
      field_simp
      ring
    rw [e] at h
    exact h
  have hbound : (1 : ℝ) ≤ (2e4 * (3 / 10 * Real.sin (M_PI_2 * (3 / 10)) / M_PI)
      * Real.exp (lgamma (3 / 10))) ^ ((1.0 : ℝ) / (3 / 10 + 1)) := by
    rw [hexp]
    apply Real.one_le_rpow
    · have hq : 9 / 400 ≤ 3 / 10 * Real.sin (M_PI_2 * (3 / 10)) / M_PI := by
        show 9 / 400 ≤ 3 / 10 * Real.sin (M_PI_2 * (3 / 10)) / Real.pi
        rw [le_div_iff₀ (by linarith)]
        nlinarith
      have hq1 : (1 : ℝ) ≤ 2e4 * (3 / 10 * Real.sin (M_PI_2 * (3 / 10)) / M_PI) := by
        norm_num at hq ⊢
        linarith
      nlinarith
    · norm_num
  have hclose : |M_PI_2 - 1e-7 - M_PI_2| < 1e-6 := by
    rw [abs_of_neg (by norm_num)]
    norm_num
  have hxilt : ¬ (M_PI_2 - 1e-7 ≥ M_PI_2) := by norm_num
  have hregime : regimeRule (fun a b => decide (|a - b| < 1e-6)) (3 / 10)
      (Real.tan (3 / 10 * (M_PI_2 - 1e-7)) / Real.tan (M_PI_2 * (3 / 10))) = COMMON := by
    unfold regimeRule
    have h2 : ¬ |(3 / 10 : ℝ) - 2| < 1e-6 := by
      rw [abs_of_neg (by norm_num)]
      norm_num
    have h1 : ¬ |(3 / 10 : ℝ) - 1| < 1e-6 := by
      rw [abs_of_neg (by norm_num)]
      norm_num
    have h12 : ¬ |(3 / 10 : ℝ) - 1 / 2| < 1e-6 := by
      rw [abs_of_neg (by norm_num)]
      norm_num
    simp only [decide_eq_true_eq, h2, h1, h12, false_and, if_false]
  have hbig : (0 : ℝ) < standInRandMath.BIG_NUMBER := by norm_num [standInRandMath]
  have hxst : ((-1 : ℝ) - 0) / 1 = -1 := by norm_num
  clear hpi hpi4 hb0 hb1 hb2 hb3
  -- the fields of the instance
  have hbase : nearOneInstance.toLimitingDistribution
      = standInBaseSetParameters { sigma := 1, mu := 0 } (3 / 10)
          (Real.tan (3 / 10 * (M_PI_2 - 1e-7)) / Real.tan (M_PI_2 * (3 / 10))) :=
    SetParameters_base _ _ _ _ _ _
  have halpha : nearOneInstance.alpha = 3 / 10 := by
    show nearOneInstance.toLimitingDistribution.alpha = _
    rw [hbase]
    rfl
  have hbeta : nearOneInstance.beta
      = Real.tan (3 / 10 * (M_PI_2 - 1e-7)) / Real.tan (M_PI_2 * (3 / 10)) := by
    show nearOneInstance.toLimitingDistribution.beta = _
    rw [hbase]
    rfl
  have hmu : nearOneInstance.mu = 0 := by
    show nearOneInstance.toLimitingDistribution.mu = _
    rw [hbase]
    rfl
  have hsigma : nearOneInstance.sigma = 1 := by
    show nearOneInstance.toLimitingDistribution.sigma = _
    rw [hbase]
    rfl
  have hainv : nearOneInstance.alphaInv = 1 / (3 / 10) := by
    show nearOneInstance.toLimitingDistribution.alphaInv = _
    rw [hbase]
    rfl
  have hB : nearOneInstance.B = 3 / 10 * (M_PI_2 - 1e-7) := by
    show nearOneInstance.toLimitingDistribution.B = _
    rw [hbase]
    exact harctan
  have hbpos : 0 < nearOneInstance.beta := by
    rw [hbeta]
    exact div_pos htan1 htan2
  have hblt : nearOneInstance.beta < 1 := by
    rw [hbeta, div_lt_one htan2]
    exact htanlt
  have htag : nearOneInstance.distributionId = COMMON :=
    (SetParameters_tag lgamma (fun a b => decide (|a - b| < 1e-6))
      standInBaseSetParameters { sigma := 1, mu := 0 } (3 / 10)
      (Real.tan (3 / 10 * (M_PI_2 - 1e-7)) / Real.tan (M_PI_2 * (3 / 10)))).trans hregime
  have hxi : nearOneInstance.xi = M_PI_2 - 1e-7 := by
    have h : nearOneInstance.xi = nearOneInstance.alphaInv * nearOneInstance.B :=
      hcommon _ _ _ _ _ _ htag
    rw [h, hainv, hB]
    ring
  have hlimit : 1 ≤ nearOneInstance.pdfXLimit := by
    obtain ⟨h1, h2, h3⟩ := (SetParameters_limits lgamma (fun a b => decide (|a - b| < 1e-6))
      standInBaseSetParameters { sigma := 1, mu := 0 } (3 / 10)
      (Real.tan (3 / 10 * (M_PI_2 - 1e-7)) / Real.tan (M_PI_2 * (3 / 10)))).2 htag
    have h1 : nearOneInstance.pdfCoefLimit
        = nearOneInstance.alpha * Real.sin (M_PI_2 * nearOneInstance.alpha) / M_PI := h1
    have h2 : nearOneInstance.lgammaExponent = lgamma nearOneInstance.alpha := h2
    have h3 : nearOneInstance.pdfXLimit
        = (2e4 * nearOneInstance.pdfCoefLimit * Real.exp nearOneInstance.lgammaExponent)
          ^ (1.0 / (nearOneInstance.alpha + 1)) := h3
    rw [h3, h2, h1, halpha]
    exact hbound
  refine ⟨htag, halpha, ⟨hbpos, hblt⟩, hxi, ?_, ?_, ?_, ?_, ?_, ?_, ?_, ?_, hbig⟩
  · rw [hmu, hsigma, hxst]
    norm_num
  · exact fun h => absurd h.2 hblt.ne
  · rw [hmu, hsigma, hxst]
    norm_num
  · rw [hxi, neg_neg]
    exact hxilt
  · rw [hmu, hsigma, hxst, neg_neg]
    exact not_lt.mpr hlimit
  · unfold integrandAuxForCommonExponent
    rw [if_pos (Or.inr (by rw [hxi, neg_neg]; exact decide_eq_true hclose)), halpha]
    norm_num [standInRandMath]
  · unfold integrandAuxForCommonExponent
    rw [if_pos (Or.inr (decide_eq_true (by rw [sub_self, abs_zero]; norm_num))), halpha]
    norm_num [standInRandMath]
  · rw [hxi, neg_neg]
    norm_num

/-- C19 as amended, for a closeness test that holds between equal numbers and fails
between pi/2 and every theta <= -pi/2.  integrandAuxForUnityExponent returns +BIG_NUMBER at
theta >= pi/2 and -BIG_NUMBER at theta <= -pi/2 when beta > 0, with the signs swapped
otherwise, and its fallback for a value that is not finite returns the lower-end sentinel
for theta < 0 and the upper-end one otherwise.  integrandAuxForCommonExponent returns
+BIG_NUMBER at theta >= pi/2 when alpha < 1 and, at every theta <= -xiAdj that is below
pi/2 and not close to it, -BIG_NUMBER, with the signs swapped otherwise; its fallback
returns the lower-end sentinel exactly when theta is below (pi/2 - xiAdj)/2.  For a
positive BIG_NUMBER the two ends of the bracket from -pi/2 to pi/2 have opposite signs, and
so have those of the bracket from -xiAdj to pi/2 when -xiAdj is below pi/2 and not close to
it. -/
theorem C19_sentinels_side_consistent (rm : RandMath) (s : StableRand)
    (theta xAdj xiAdj : ℝ) (hrefl : ∀ x, rm.areClose x x = true)
    (hsep : ∀ t, t ≤ -M_PI_2 → rm.areClose t M_PI_2 = false) :
    (theta ≥ M_PI_2 → integrandAuxForUnityExponent rm s theta xAdj
        = if s.beta > 0 then rm.BIG_NUMBER else -rm.BIG_NUMBER)
    ∧ (theta ≤ -M_PI_2 → integrandAuxForUnityExponent rm s theta xAdj
        = if s.beta > 0 then -rm.BIG_NUMBER else rm.BIG_NUMBER)
    ∧ (¬ (theta > M_PI_2 ∨ rm.areClose theta M_PI_2 = true) →
        ¬ (theta < -M_PI_2 ∨ rm.areClose theta (-M_PI_2) = true) →
        theta ≠ 0 → uForUnityExponent s theta = none →
        integrandAuxForUnityExponent rm s theta xAdj
          = if theta < 0 then (if s.beta > 0 then -rm.BIG_NUMBER else rm.BIG_NUMBER)
            else (if s.beta > 0 then rm.BIG_NUMBER else -rm.BIG_NUMBER))
    ∧ (theta ≥ M_PI_2 → integrandAuxForCommonExponent rm s theta xAdj xiAdj
        = if s.alpha < 1 then rm.BIG_NUMBER else -rm.BIG_NUMBER)
    ∧ (theta ≤ -xiAdj → theta < M_PI_2 → rm.areClose theta M_PI_2 = false →
        integrandAuxForCommonExponent rm s theta xAdj xiAdj
          = if s.alpha < 1 then -rm.BIG_NUMBER else rm.BIG_NUMBER)
    ∧ (¬ (theta > M_PI_2 ∨ rm.areClose theta M_PI_2 = true) →
        ¬ (theta < -M_PI_2 ∨ rm.areClose theta (-M_PI_2) = true ∨ theta < -xiAdj
          ∨ rm.areClose theta (-xiAdj) = true) →
        yForCommonExponent s theta xiAdj = none →
        integrandAuxForCommonExponent rm s theta xAdj xiAdj
          = if theta < (M_PI_2 - xiAdj) / 2
            then (if s.alpha < 1 then -rm.BIG_NUMBER else rm.BIG_NUMBER)
            else (if s.alpha < 1 then rm.BIG_NUMBER else -rm.BIG_NUMBER))
    ∧ (0 < rm.BIG_NUMBER →
        integrandAuxForUnityExponent rm s (-M_PI_2) xAdj
          * integrandAuxForUnityExponent rm s M_PI_2 xAdj < 0)
    ∧ (0 < rm.BIG_NUMBER → -xiAdj < M_PI_2 → rm.areClose (-xiAdj) M_PI_2 = false →
        integrandAuxForCommonExponent rm s (-xiAdj) xAdj xiAdj
          * integrandAuxForCommonExponent rm s M_PI_2 xAdj xiAdj < 0) := by
  have integrandAuxForCommonExponent_lower :
      ∀ (rm : RandMath) (s : StableRand)
        (theta xAdj xiAdj : ℝ) (hrefl : ∀ x, rm.areClose x x = true)
        (h : theta ≤ -xiAdj) (hlt : theta < M_PI_2) (hfar : rm.areClose theta M_PI_2 = false),
      integrandAuxForCommonExponent rm s theta xAdj xiAdj
      = if s.alpha < 1 then -rm.BIG_NUMBER else rm.BIG_NUMBER := by
    intro rm s theta xAdj xiAdj hrefl h hlt hfar
    unfold integrandAuxForCommonExponent
    have hg1 : ¬ (theta > M_PI_2 ∨ rm.areClose theta M_PI_2 = true) := by
      rintro (h1 | h1)
      · linarith
      · rw [hfar] at h1
        exact Bool.false_ne_true h1
    have hg2 : theta < -M_PI_2 ∨ rm.areClose theta (-M_PI_2) = true ∨ theta < -xiAdj
        ∨ rm.areClose theta (-xiAdj) = true := by
      rcases lt_or_eq_of_le h with h1 | h1
      · exact Or.inr (Or.inr (Or.inl h1))
      · right
        right
        right
        rw [h1]
        exact hrefl _
    rw [if_neg hg1, if_pos hg2]
  have integrandAuxForCommonExponent_upper :
      ∀ (rm : RandMath) (s : StableRand)
        (theta xAdj xiAdj : ℝ) (hrefl : ∀ x, rm.areClose x x = true) (h : theta ≥ M_PI_2),
      integrandAuxForCommonExponent rm s theta xAdj xiAdj
      = if s.alpha < 1 then rm.BIG_NUMBER else -rm.BIG_NUMBER := by
    intro rm s theta xAdj xiAdj hrefl h
    unfold integrandAuxForCommonExponent
    have hg : theta > M_PI_2 ∨ rm.areClose theta M_PI_2 = true := by
      rcases lt_or_eq_of_le h with h1 | h1
      · exact Or.inl h1
      · right
        rw [← h1]
        exact hrefl _
    rw [if_pos hg]
  have integrandAuxForUnityExponent_lower :
      ∀ (rm : RandMath) (s : StableRand) (theta xAdj : ℝ)
        (hrefl : ∀ x, rm.areClose x x = true)
        (hsep : ∀ t, t ≤ -M_PI_2 → rm.areClose t M_PI_2 = false) (h : theta ≤ -M_PI_2),
      integrandAuxForUnityExponent rm s theta xAdj
      = if s.beta > 0 then -rm.BIG_NUMBER else rm.BIG_NUMBER := by
    intro rm s theta xAdj hrefl hsep h
    unfold integrandAuxForUnityExponent
    have hpi : 0 < M_PI_2 := by
      unfold M_PI_2
      positivity
    have hg1 : ¬ (theta > M_PI_2 ∨ rm.areClose theta M_PI_2 = true) := by
      rintro (h1 | h1)
      · linarith
      · rw [hsep theta h] at h1
        exact Bool.false_ne_true h1
    have hg2 : theta < -M_PI_2 ∨ rm.areClose theta (-M_PI_2) = true := by
      rcases lt_or_eq_of_le h with h1 | h1
      · exact Or.inl h1
      · right
        rw [h1]
        exact hrefl _
    rw [if_neg hg1, if_pos hg2]
  have integrandAuxForUnityExponent_upper :
      ∀ (rm : RandMath) (s : StableRand) (theta xAdj : ℝ)
        (hrefl : ∀ x, rm.areClose x x = true) (h : theta ≥ M_PI_2),
      integrandAuxForUnityExponent rm s theta xAdj
      = if s.beta > 0 then rm.BIG_NUMBER else -rm.BIG_NUMBER := by
    intro rm s theta xAdj hrefl h
    unfold integrandAuxForUnityExponent
    have hg : theta > M_PI_2 ∨ rm.areClose theta M_PI_2 = true := by
      rcases lt_or_eq_of_le h with h1 | h1
      · exact Or.inl h1
      · right
        rw [← h1]
        exact hrefl _
    rw [if_pos hg]
  refine ⟨integrandAuxForUnityExponent_upper rm s theta xAdj hrefl,
    integrandAuxForUnityExponent_lower rm s theta xAdj hrefl hsep, ?_,
    integrandAuxForCommonExponent_upper rm s theta xAdj xiAdj hrefl,
    integrandAuxForCommonExponent_lower rm s theta xAdj xiAdj hrefl, ?_, ?_, ?_⟩
  · intro g1 g2 h0 hu
    unfold integrandAuxForUnityExponent
    have h00 : ¬ theta = 0.0 := by
      norm_num
      exact h0
    rw [if_neg g1, if_neg g2, if_neg h00, hu]
    norm_num
  · intro g1 g2 hy
    unfold integrandAuxForCommonExponent
    rw [if_neg g1, if_neg g2, hy]
    have e : (0.5 : ℝ) * (M_PI_2 - xiAdj) = (M_PI_2 - xiAdj) / 2 := by
      norm_num
      ring
    simp only [e]
  · intro hbig
    rw [integrandAuxForUnityExponent_lower rm s _ xAdj hrefl hsep (le_refl _),
      integrandAuxForUnityExponent_upper rm s _ xAdj hrefl (le_refl _)]
    split_ifs <;> nlinarith
  · intro hbig hlt hfar
    rw [integrandAuxForCommonExponent_lower rm s _ xAdj xiAdj hrefl (le_refl _) hlt hfar,
      integrandAuxForCommonExponent_upper rm s _ xAdj xiAdj hrefl (le_refl _)]
    split_ifs <;> nlinarith

end StableRand

namespace StableRand

open DISTRIBUTION_ID

/-- Witness of the amended C19 with the stand-in helpers, whose closeness test is equality:
for beta = 1 the ends pi/2 and -pi/2 give 1e9 and -1e9, and for beta = -3, where the
logarithm at theta = 1 is not finite, the fallback gives the upper-end sentinel -1e9. -/
theorem C19_sentinels_side_consistent_witness :
    integrandAuxForUnityExponent standInRandMath
        { alpha := 1, beta := 1, sigma := 1, distributionId := UNITY_EXPONENT } M_PI_2 0 = 1e9
    ∧ integrandAuxForUnityExponent standInRandMath
        { alpha := 1, beta := 1, sigma := 1, distributionId := UNITY_EXPONENT } (-M_PI_2) 0
      = -1e9
    ∧ integrandAuxForUnityExponent standInRandMath
        { alpha := 1, beta := -3, sigma := 1, distributionId := UNITY_EXPONENT } 1 0 = -1e9 := by
  have uForUnityExponent_none_example :
      uForUnityExponent { alpha := 1, beta := -3, sigma := 1, distributionId := UNITY_EXPONENT } 1
      = none := by
    have hcos : 0 < Real.cos 1 := Real.cos_one_pos
    have hpi : Real.pi < 4 := Real.pi_lt_four
    have hpi0 : 0 < Real.pi := Real.pi_pos
    unfold uForUnityExponent finiteDiv
    simp only
    rw [if_neg hcos.ne.symm, Option.some_bind]
    have hneg : ¬ 0 < M_2_PI * ((M_PI_2 + -3 * 1) / Real.cos 1) := by
      apply not_lt.mpr
      apply mul_nonpos_of_nonneg_of_nonpos
      · unfold M_2_PI
        positivity
      · apply div_nonpos_of_nonpos_of_nonneg _ hcos.le
        unfold M_PI_2
        linarith
    unfold finiteLog
    rw [if_neg hneg]
    rfl
  have hpi3 : (3 : ℝ) < Real.pi := Real.pi_gt_three
  have hrefl : ∀ x, standInRandMath.areClose x x = true := by
    intro x
    simp [standInRandMath]
  have hsep : ∀ t, t ≤ -M_PI_2 → standInRandMath.areClose t M_PI_2 = false := by
    intro t ht
    have : t ≠ M_PI_2 := by
      unfold M_PI_2 at ht ⊢
      intro h
      linarith
    simp [standInRandMath, this]
  have h1 := C19_sentinels_side_consistent standInRandMath
    { alpha := 1, beta := 1, sigma := 1, distributionId := UNITY_EXPONENT } M_PI_2 0 0
    hrefl hsep
  have h2 := C19_sentinels_side_consistent standInRandMath
    { alpha := 1, beta := 1, sigma := 1, distributionId := UNITY_EXPONENT } (-M_PI_2) 0 0
    hrefl hsep
  have h3 := C19_sentinels_side_consistent standInRandMath
    { alpha := 1, beta := -3, sigma := 1, distributionId := UNITY_EXPONENT } 1 0 0
    hrefl hsep
  refine ⟨?_, ?_, ?_⟩
  · rw [h1.1 (le_refl _)]
    norm_num [standInRandMath]
  · rw [h2.2.1 (le_refl _)]
    norm_num [standInRandMath]
  · have g1 : ¬ ((1 : ℝ) > M_PI_2 ∨ standInRandMath.areClose 1 M_PI_2 = true) := by
      have hne : (1 : ℝ) ≠ M_PI_2 := by
        unfold M_PI_2
        intro h
        linarith
      have hgt : ¬ (1 : ℝ) > M_PI_2 := by
        unfold M_PI_2
        apply not_lt.mpr
        linarith
      simp [standInRandMath, hne, hgt]
    have g2 : ¬ ((1 : ℝ) < -M_PI_2 ∨ standInRandMath.areClose 1 (-M_PI_2) = true) := by
      have hne : (1 : ℝ) ≠ -M_PI_2 := by
        unfold M_PI_2
        intro h
        linarith
      have hlt : ¬ (1 : ℝ) < -M_PI_2 := by
        unfold M_PI_2
        apply not_lt.mpr
        linarith
      simp [standInRandMath, hne, hlt]
    rw [h3.2.2.1 g1 g2 one_ne_zero uForUnityExponent_none_example]
    norm_num [standInRandMath]

end StableRand

namespace UniformDiscreteRand

theorem variateFromRv_mem_support (s0 : UniformDiscreteRand ℝ) (a b : Int) (hab : a ≤ b)
    (rv : ℝ) (h0 : 0 ≤ rv) (h1 : rv ≤ 1) :
    a ≤ variateFromRv (setBoundaries s0 a b) rv
    ∧ variateFromRv (setBoundaries s0 a b) rv ≤ b := by
  have hab2 : (a : ℝ) ≤ (b : ℝ) := by exact_mod_cast hab
  have hy : variateFromRv (setBoundaries s0 a b) rv
      = stdRound (rv * ((b : ℝ) - (a : ℝ)) + (a : ℝ)) := by
    unfold variateFromRv setBoundaries
    simp only [if_neg (not_lt.mpr hab)]
    push_cast
    congr 2
    ring
  have hlo : (a : ℝ) ≤ rv * ((b : ℝ) - (a : ℝ)) + (a : ℝ) := by nlinarith
  have hhi : rv * ((b : ℝ) - (a : ℝ)) + (a : ℝ) ≤ (b : ℝ) := by nlinarith
  rw [hy]
  unfold stdRound
  split_ifs with hs
  · constructor
    · apply Int.le_floor.mpr
      linarith
    · have : ⌊rv * ((b : ℝ) - (a : ℝ)) + (a : ℝ) + 1 / 2⌋ < b + 1 := by
        apply Int.floor_lt.mpr
        push_cast
        linarith
      omega
  · constructor
    · have : a - 1 < ⌈rv * ((b : ℝ) - (a : ℝ)) + (a : ℝ) - 1 / 2⌉ := by
        apply Int.lt_ceil.mpr
        push_cast
        linarith
      omega
    · apply Int.ceil_le.mpr
      linarith

end UniformDiscreteRand

namespace BetaBinomialRand

theorem P_eq_exp_logP_in_range {BR : Type} (m : BetaBinomialComponents BR)
    (s : BetaBinomialRand BR) (k : Int) (h0 : 0 ≤ k) (hn : k ≤ s.n) :
    P m s k = Real.exp (logP m s k) ∧ 0 < P m s k := by
  have h : ¬ (k < 0 ∨ k > s.n) := by omega
  have hP : P m s k = Real.exp (logP m s k) := by
    unfold P
    rw [if_neg h]
  exact ⟨hP, hP ▸ Real.exp_pos _⟩

theorem logP_out_of_range {BR : Type} (m : BetaBinomialComponents BR)
    (s : BetaBinomialRand BR) (k : Int) (h : k < 0 ∨ k > s.n) :
    logP m s k = 0 ∧ P m s k = 0 ∧ Real.exp (logP m s k) = 1 := by
  have hl : logP m s k = 0 := by
    unfold logP
    rw [if_pos h]
    norm_num
  refine ⟨hl, ?_, ?_⟩
  · unfold P
    rw [if_pos h]
    norm_num
  · rw [hl, Real.exp_zero]

/-- C23, evaluation at the failing input: on the instance with n = 1 and both shapes 1 (with
the stand-in components) logP(-1) and logP(2) are 0, not minus infinity, so exp(logP(k)) is
1 there while P(-1) and P(2) are 0. -/
theorem C23_logP_zero_out_of_range :
    logP standInBetaBinomialComponents ⟨1, 0, (1, 1)⟩ (-1) = 0
    ∧ P standInBetaBinomialComponents ⟨1, 0, (1, 1)⟩ (-1) = 0
    ∧ Real.exp (logP standInBetaBinomialComponents ⟨1, 0, (1, 1)⟩ (-1)) = 1
    ∧ P standInBetaBinomialComponents ⟨1, 0, (1, 1)⟩ (-1)
        ≠ Real.exp (logP standInBetaBinomialComponents ⟨1, 0, (1, 1)⟩ (-1))
    ∧ logP standInBetaBinomialComponents ⟨1, 0, (1, 1)⟩ 2 = 0
    ∧ P standInBetaBinomialComponents ⟨1, 0, (1, 1)⟩ 2 = 0 := by
  obtain ⟨a1, a2, a3⟩ := logP_out_of_range standInBetaBinomialComponents ⟨1, 0, (1, 1)⟩ (-1)
    (Or.inl (by norm_num))
  obtain ⟨b1, b2, _⟩ := logP_out_of_range standInBetaBinomialComponents ⟨1, 0, (1, 1)⟩ 2
    (Or.inr (by norm_num))
  refine ⟨a1, a2, a3, ?_, b1, b2⟩
  rw [a2, a3]
  norm_num

end BetaBinomialRand

namespace NegativeBinomialRand

open GENERATOR_ID

theorem geometricSum_succ (p q : ℝ) (i : Nat) :
    geometricSum p q (i + 1) = geometricSum p q i + p * q ^ (i + 1) := by
  unfold geometricSum
  rw [Finset.sum_range_succ]
  ring

theorem geometricSum_closed (q : ℝ) (i : Nat) :
    geometricSum (1 - q) q i = 1 - q ^ (i + 1) := by
  unfold geometricSum
  exact mul_neg_geom_sum q (i + 1)

theorem tableLoop_spec (p q : ℝ) (k : Nat) :
    ∀ (i : Nat) (prod : ℝ) (table : Nat → ℝ), 1 ≤ i → prod = p * q ^ (i - 1) →
      (∀ j, j < i → table j = geometricSum p q j) →
      ∀ j, j < i + k → tableLoop q k i prod table j = geometricSum p q j := by
  induction k with
  | zero =>
    intro i prod table _ _ hinv j hj
    exact hinv j hj
  | succ k ih =>
    intro i prod table hi hprod hinv j hj
    show tableLoop q k (i + 1) (prod * q)
      (Function.update table i (table (i - 1) + prod * q)) j = geometricSum p q j
    apply ih (i + 1) (prod * q) _ (by omega)
    · rw [hprod, Nat.add_sub_cancel]
      have : i = (i - 1) + 1 := by omega
      conv_rhs => rw [this, pow_succ]
      ring
    · intro l hl
      by_cases hli : l = i
      · subst hli
        rw [Function.update_same, hinv (l - 1) (by omega), hprod]
        have h1 : l = (l - 1) + 1 := by omega
        conv_rhs => rw [h1, geometricSum_succ]
        rw [mul_assoc, ← pow_succ]
      · rw [Function.update_noteq hli]
        exact hinv l (by omega)
    · omega

end NegativeBinomialRand

namespace NegativeBinomialRand

open GENERATOR_ID

/-- C24: when NegativeBinomialRand<int>::SetParameters returns and the generator it selects
is TABLE, then q = 1 - p and for every index i below tableSize
table[i] = p (1 + q + ... + q^i) = 1 - q^(i + 1), every such entry lies in [p, 1], and the
table is non-decreasing. -/
theorem C24_table_is_geometric_cdf {G : Type} (m : NegativeBinomialContext Int G)
    (s : NegativeBinomialRand Int G) (number : Int) (probability : ℝ)
    (hint : m.GetIdOfUsedGenerator = GetIdOfUsedGenerator_int)
    (hret : (SetParameters m s number probability).isRaised = false)
    (htable : GetIdOfUsedGenerator_int (SetParameters m s number probability).state.r
      (SetParameters m s number probability).state.p = TABLE) :
    (SetParameters m s number probability).state.q
        = 1 - (SetParameters m s number probability).state.p
    ∧ (∀ i, i < m.tableSize →
        (SetParameters m s number probability).state.table i
            = geometricSum (SetParameters m s number probability).state.p
                (SetParameters m s number probability).state.q i
        ∧ (SetParameters m s number probability).state.table i
            = 1 - (SetParameters m s number probability).state.q ^ (i + 1)
        ∧ (SetParameters m s number probability).state.p
            ≤ (SetParameters m s number probability).state.table i
        ∧ (SetParameters m s number probability).state.table i ≤ 1)
    ∧ (∀ i j, i ≤ j → j < m.tableSize →
        (SetParameters m s number probability).state.table i
          ≤ (SetParameters m s number probability).state.table j) := by
  have SetParameters_table :
      ∀ (m : NegativeBinomialContext Int G)
        (s t : NegativeBinomialRand Int G) (number : Int) (probability : ℝ)
        (hret : SetParameters m s number probability = Outcome.returned t)
        (htable : m.GetIdOfUsedGenerator t.r t.p = TABLE),
      t.p = (if probability > 1.0 ∨ probability < 0.0 then 0.5 else probability)
      ∧ t.q = 1 - t.p
      ∧ t.table = tableLoop t.q (m.tableSize - 1) 1 t.p (Function.update s.table 0 t.p) := by
    intro m s t number probability hret htable
    have hf := SetParameters_fields m s number probability
    rw [hret] at hf
    simp only [Outcome.state] at hf
    obtain ⟨hr, hp, hq, _, _⟩ := hf
    have hp2 : t.p = (if probability > 1.0 ∨ probability < 0.0 then 0.5 else probability) := by
      rw [hp]
      rfl
    refine ⟨hp2, by rw [hq, hp], ?_⟩
    have hr2 : (SetValidParameters s number probability).r = t.r := hr.symm
    have hp3 : (SetValidParameters s number probability).p = t.p := hp.symm
    unfold SetParameters at hret
    simp only at hret
    split at hret
    · exact absurd hret (by simp)
    · rw [hr2, hp3] at hret
      rw [if_pos htable] at hret
      have := Outcome.returned.inj hret
      rw [← this]
      rfl
  obtain ⟨t, ht⟩ := Outcome.eq_returned_of_isRaised_false hret
  rw [ht] at htable ⊢
  simp only [Outcome.state] at htable ⊢
  rw [← hint] at htable
  obtain ⟨hp, hq, htab⟩ := SetParameters_table m s t number probability ht htable
  have hp0 : 0 ≤ t.p := by
    rw [hp]
    split_ifs with h
    · norm_num
    · push_neg at h
      have := h.2
      norm_num at this
      exact this
  have hp1 : t.p ≤ 1 := by
    rw [hp]
    split_ifs with h
    · norm_num
    · push_neg at h
      have := h.1
      norm_num at this
      exact this
  have hq0 : 0 ≤ t.q := by rw [hq]; linarith
  have hq1 : t.q ≤ 1 := by rw [hq]; linarith
  have hpq : t.p = 1 - t.q := by rw [hq]; ring
  have hgeo : ∀ i, i < m.tableSize → t.table i = geometricSum t.p t.q i := by
    intro i hi
    rw [htab]
    apply tableLoop_spec t.p t.q (m.tableSize - 1) 1 t.p _ (le_refl 1)
    · simp
    · intro j hj
      have hj0 : j = 0 := by omega
      subst hj0
      rw [Function.update_same]
      unfold geometricSum
      simp
    · omega
  have hclosed : ∀ i, i < m.tableSize → t.table i = 1 - t.q ^ (i + 1) := by
    intro i hi
    rw [hgeo i hi]
    conv_lhs => rw [hpq]
    exact geometricSum_closed t.q i
  refine ⟨hq, ?_, ?_⟩
  · intro i hi
    refine ⟨hgeo i hi, hclosed i hi, ?_, ?_⟩
    · rw [hclosed i hi]
      have h1 : t.q ^ (i + 1) ≤ t.q := by
        calc t.q ^ (i + 1) = t.q ^ i * t.q := pow_succ _ _
          _ ≤ 1 * t.q := mul_le_mul_of_nonneg_right (pow_le_one₀ hq0 hq1) hq0
          _ = t.q := one_mul _
      linarith
    · rw [hclosed i hi]
      have := pow_nonneg hq0 (i + 1)
      linarith
  · intro i j hij hj
    rw [hclosed i (by omega), hclosed j hj]
    have := pow_le_pow_of_le_one hq0 hq1 (Nat.add_le_add_right hij 1)
    linarith

theorem tableSearch_spec (table : Nat → ℝ) (U : ℝ) (last : Nat) (hU : ¬ U > table last) :
    ∀ (fuel x : Nat), x ≤ last → last - x < fuel →
      ∃ r, tableSearch table U fuel x = some r ∧ x ≤ r ∧ r ≤ last ∧ ¬ U > table r
        ∧ ∀ j, x ≤ j → j < r → U > table j := by
  intro fuel
  induction fuel with
  | zero =>
    intro x _ h
    omega
  | succ fuel ih =>
    intro x hx hf
    show ∃ r, (if U > table x then tableSearch table U fuel (x + 1) else some x) = some r
      ∧ x ≤ r ∧ r ≤ last ∧ ¬ U > table r ∧ ∀ j, x ≤ j → j < r → U > table j
    by_cases h : U > table x
    · have hne : x ≠ last := by
        intro he
        rw [he] at h
        exact hU h
      obtain ⟨r, h1, h2, h3, h4, h5⟩ := ih (x + 1) (by omega) (by omega)
      refine ⟨r, by rw [if_pos h]; exact h1, by omega, h3, h4, ?_⟩
      intro j hj1 hj2
      by_cases hjx : j = x
      · rw [hjx]
        exact h
      · exact h5 j (by omega) hj2
    · refine ⟨x, by rw [if_neg h], le_refl x, hx, h, ?_⟩
      intro j hj1 hj2
      omega

/-- C25: let U be the uniform draw of an activation of variateGeometricByTable, with a table
of tableSize > 0 entries.  If U <= table[tableSize - 1], the loop stops and the function
returns an index x with 0 <= x <= tableSize - 1 that is the smallest one with U <= table[x],
so table[x - 1] < U <= table[x] when x > 0, and the stream is the one after that single
draw.  If U > table[tableSize - 1], and only then, the result is tableSize plus the result
of the function on the stream after the draw. -/
theorem C25_table_lookup_in_bounds {G Ω : Type} (tableSize : Nat)
    (g : NegativeBinomialSamplers Ω G) (s : NegativeBinomialRand Int G) (fuel : Nat) (w : Ω)
    (hsize : 0 < tableSize) (hfuel : tableSize ≤ fuel + 1) :
    ((g.UniformRand_StandardVariate w).1 ≤ s.table (tableSize - 1) →
      ∃ x : Nat,
        variateGeometricByTable tableSize g s (fuel + 1) w
          = some ((x : Int), (g.UniformRand_StandardVariate w).2)
        ∧ tableSearch s.table (g.UniformRand_StandardVariate w).1 (fuel + 1) 0 = some x
        ∧ x ≤ tableSize - 1
        ∧ (g.UniformRand_StandardVariate w).1 ≤ s.table x
        ∧ (∀ j, j < x → s.table j < (g.UniformRand_StandardVariate w).1)
        ∧ (0 < x → s.table (x - 1) < (g.UniformRand_StandardVariate w).1
            ∧ (g.UniformRand_StandardVariate w).1 ≤ s.table x))
    ∧ ((g.UniformRand_StandardVariate w).1 > s.table (tableSize - 1) →
        variateGeometricByTable tableSize g s (fuel + 1) w
          = (variateGeometricByTable tableSize g s fuel (g.UniformRand_StandardVariate w).2).map
              (fun r => ((tableSize : Int) + r.1, r.2))) := by
  have _ := hsize
  have hstep : variateGeometricByTable tableSize g s (fuel + 1) w
      = if (g.UniformRand_StandardVariate w).1 > s.table (tableSize - 1) then
          (variateGeometricByTable tableSize g s fuel (g.UniformRand_StandardVariate w).2).map
            (fun r => ((tableSize : Int) + r.1, r.2))
        else
          (tableSearch s.table (g.UniformRand_StandardVariate w).1 (fuel + 1) 0).map
            (fun x => ((x : Int), (g.UniformRand_StandardVariate w).2)) := rfl
  constructor
  · intro hU
    obtain ⟨x, h1, _, h3, h4, h5⟩ := tableSearch_spec s.table
      (g.UniformRand_StandardVariate w).1 (tableSize - 1) (not_lt.mpr hU) (fuel + 1) 0
      (Nat.zero_le _) (by omega)
    refine ⟨x, ?_, h1, h3, not_lt.mp h4, fun j hj => h5 j (Nat.zero_le _) hj, ?_⟩
    · rw [hstep, if_neg (not_lt.mpr hU), h1]
      rfl
    · intro hx
      exact ⟨h5 (x - 1) (Nat.zero_le _) (by omega), not_lt.mp h4⟩
  · intro hU
    rw [hstep, if_pos hU]

end NegativeBinomialRand

namespace NegativeBinomialRand

open GENERATOR_ID

theorem C24_table_is_geometric_cdf_witness :
    (SetParameters standInNegativeBinomialContext
        ⟨0, 0, 0, 0, 0, 0, 0, (0, 0), fun _ => 0⟩ 3 0.5).isRaised = false
    ∧ GetIdOfUsedGenerator_int
        (SetParameters standInNegativeBinomialContext
          ⟨0, 0, 0, 0, 0, 0, 0, (0, 0), fun _ => 0⟩ 3 0.5).state.r
        (SetParameters standInNegativeBinomialContext
          ⟨0, 0, 0, 0, 0, 0, 0, (0, 0), fun _ => 0⟩ 3 0.5).state.p = TABLE
    ∧ (SetParameters standInNegativeBinomialContext
        ⟨0, 0, 0, 0, 0, 0, 0, (0, 0), fun _ => 0⟩ 3 0.5).state.table 2 = 7 / 8 := by
  have h1 : (SetParameters standInNegativeBinomialContext
      ⟨0, 0, 0, 0, 0, 0, 0, (0, 0), fun _ => 0⟩ 3 0.5).isRaised = false := by
    unfold SetParameters SetValidParameters standInNegativeBinomialContext
    norm_num [Outcome.isRaised]
    split_ifs <;> rfl
  have h2 : GetIdOfUsedGenerator_int
      (SetParameters standInNegativeBinomialContext
        ⟨0, 0, 0, 0, 0, 0, 0, (0, 0), fun _ => 0⟩ 3 0.5).state.r
      (SetParameters standInNegativeBinomialContext
        ⟨0, 0, 0, 0, 0, 0, 0, (0, 0), fun _ => 0⟩ 3 0.5).state.p = TABLE := by
    rw [(SetParameters_fields _ _ _ _).1, (SetParameters_fields _ _ _ _).2.1]
    unfold SetValidParameters GetIdOfUsedGenerator_int
    norm_num
  have h3 := C24_table_is_geometric_cdf standInNegativeBinomialContext
    ⟨0, 0, 0, 0, 0, 0, 0, (0, 0), fun _ => 0⟩ 3 0.5 rfl h1 h2
  refine ⟨h1, h2, ?_⟩
  rw [(h3.2.1 2 (by unfold standInNegativeBinomialContext; norm_num)).2.1, h3.1,
    (SetParameters_fields _ _ _ _).2.1]
  unfold SetValidParameters
  norm_num

theorem C25_table_lookup_in_bounds_witness :
    variateGeometricByTable 16 standInNegativeBinomialSamplers
        ⟨0, 0, 0, 0, 0, 0, 0, (0, 0), fun i => 1 - (1 / 2) ^ (i + 1)⟩ 16 0
      = some (1, 1) := by
  have h := C25_table_lookup_in_bounds 16 standInNegativeBinomialSamplers
    ⟨0, 0, 0, 0, 0, 0, 0, (0, 0), fun i => 1 - (1 / 2) ^ (i + 1)⟩ 15 0 (by decide) (by decide)
  have hU : (standInNegativeBinomialSamplers.UniformRand_StandardVariate 0).1 = 0.6 := rfl
  have hW : (standInNegativeBinomialSamplers.UniformRand_StandardVariate 0).2 = 1 := rfl
  rw [hU, hW] at h
  obtain ⟨x, hx1, _, _, hx4, hx5, _⟩ := h.1 (by norm_num)
  have hx0 : x ≠ 0 := by
    intro h0
    rw [h0] at hx4
    norm_num at hx4
  have hx2 : ¬ 1 < x := by
    intro h1
    have := hx5 1 h1
    norm_num at this
  have hx : x = 1 := by omega
  rw [hx1, hx]
  rfl

end NegativeBinomialRand

namespace StableRand

open DISTRIBUTION_ID

/-- C21, evaluation at the failing inputs: in the tail branch the value for scale 2 at the
point whose standardized value is 10000 is the same number T > 0 as the value for scale 1
at 10000, not T / 2.  This holds for pdfForCommonExponent (exponent 3/2, skewness 0,
x = 20000 against 10000) and for pdfForUnityExponent (exponent 1, skewness 1,
x = 2 (10000 + (2/pi) log 2) against 10000), whatever the helpers of RandMath are. -/
theorem C21_tail_value_not_divided_by_scale (rm : RandMath) (theta0Init : ℝ) (fuel : Nat) :
    (∃ T : ℝ, 0 < T
      ∧ pdfForCommonExponent lgamma rm theta0Init (fuel + 1) (commonInstance 2) 20000 = some T
      ∧ pdfForCommonExponent lgamma rm theta0Init (fuel + 1) (commonInstance 1)
          ((20000 - (commonInstance 2).mu) / (commonInstance 2).sigma) = some T
      ∧ T ≠ 1 / (commonInstance 2).sigma * T)
    ∧ (∃ T : ℝ, 0 < T
      ∧ pdfForUnityExponent rm (unityInstance 2) (2 * (10000 + M_2_PI * 1 * Real.log 2)) = T
      ∧ pdfForUnityExponent rm (unityInstance 1) 10000 = T
      ∧ (2 * (10000 + M_2_PI * 1 * Real.log 2) - (unityInstance 2).mu)
            / (unityInstance 2).sigma
          - M_2_PI * (unityInstance 2).beta * (unityInstance 2).logSigma
          = (10000 - (unityInstance 1).mu) / (unityInstance 1).sigma
            - M_2_PI * (unityInstance 1).beta * (unityInstance 1).logSigma
      ∧ T ≠ 1 / (unityInstance 2).sigma * T) := by
  have unityInstance_tail :
      ∀ (rm : RandMath) (scale : ℝ) (hscale : 0 < scale),
      pdfForUnityExponent rm (unityInstance scale)
      (scale * (10000 + M_2_PI * 1 * Real.log scale))
      = 1.0 / (M_PI * 10000 * 10000) * (1 + 1) := by
    intro rm scale hscale
    have pdfForUnityExponent_tail :
        ∀ (rm : RandMath) (s : StableRand) (x : ℝ)
          (h : |(x - s.mu) / s.sigma - M_2_PI * s.beta * s.logSigma| > s.pdfXLimit),
        pdfForUnityExponent rm s x
        = 1.0 / (M_PI * ((x - s.mu) / s.sigma - M_2_PI * s.beta * s.logSigma)
        * ((x - s.mu) / s.sigma - M_2_PI * s.beta * s.logSigma))
        * (if (x - s.mu) / s.sigma - M_2_PI * s.beta * s.logSigma > 0 then 1 + s.beta
        else 1 - s.beta) := by
      intro rm s x h
      unfold pdfForUnityExponent
      simp only
      rw [if_pos h]
    have unity_limit_lt :
        Real.sqrt (2e4 / M_PI * M_E) < 10000 := by
      have hpi3 : (3 : ℝ) < Real.pi := Real.pi_gt_three
      have hpi : 0 < Real.pi := Real.pi_pos
      have he : Real.exp 1 < 3 := by
        have := Real.exp_one_lt_d9
        linarith
      rw [Real.sqrt_lt' (by norm_num)]
      unfold M_PI M_E
      have h2 : 2e4 / Real.pi * Real.exp 1 < 2e4 / Real.pi * 3 :=
        mul_lt_mul_of_pos_left he (by positivity)
      have h3 : 2e4 / Real.pi * 3 < 2e4 / 3 * 3 := by
        apply mul_lt_mul_of_pos_right _ (by norm_num)
        apply div_lt_div_of_pos_left (by norm_num) (by norm_num) hpi3
      norm_num at h2 h3 ⊢
      linarith
    have hx : (scale * (10000 + M_2_PI * 1 * Real.log scale) - (unityInstance scale).mu)
          / (unityInstance scale).sigma
          - M_2_PI * (unityInstance scale).beta * (unityInstance scale).logSigma = 10000 := by
      show (scale * (10000 + M_2_PI * 1 * Real.log scale) - 0) / scale
        - M_2_PI * 1 * Real.log scale = 10000
      field_simp
    have habs : |(10000 : ℝ)| = 10000 := abs_of_pos (by norm_num)
    rw [pdfForUnityExponent_tail rm (unityInstance scale) _
      (by rw [hx, habs]; exact unity_limit_lt)]
    rw [hx, if_pos (by norm_num)]
    rfl
  have commonInstance_tail :
      ∀ (rm : RandMath) (theta0Init : ℝ) (fuel : Nat)
        (scale : ℝ) (hscale : 0 < scale),
      pdfForCommonExponent lgamma rm theta0Init (fuel + 1) (commonInstance scale) (scale * 10000)
      = some (Real.exp (lgamma (3 / 2) - (3 / 2 + 1) * Real.log 10000)
      * (3 / 2 * Real.sin (M_PI_2 * (3 / 2)) / M_PI)) := by
    intro rm theta0Init fuel scale hscale
    have common_limit_three_halves_lt :
        (2e4 * (3 / 2 * Real.sin (M_PI_2 * (3 / 2)) / M_PI) * Real.exp (lgamma (3 / 2)))
        ^ (1.0 / ((3 / 2 : ℝ) + 1)) < 10000 := by
      have common_coef_three_halves_pos :
          0 < 3 / 2 * Real.sin (M_PI_2 * (3 / 2)) / M_PI := by
        have hpi : 0 < Real.pi := Real.pi_pos
        have hsin0 : 0 < Real.sin (M_PI_2 * (3 / 2)) := by
          apply Real.sin_pos_of_pos_of_lt_pi
          · unfold M_PI_2
            positivity
          · unfold M_PI_2
            linarith
        unfold M_PI
        positivity
      have Gamma_three_halves_lt_one :
          Real.Gamma (3 / 2) < 1 := by
        have h : Real.Gamma (1 / 2 + 1) = 1 / 2 * Real.Gamma (1 / 2) :=
          Real.Gamma_add_one (by norm_num)
        have e : (1 / 2 + 1 : ℝ) = 3 / 2 := by norm_num
        rw [e, Real.Gamma_one_half_eq] at h
        have hs : Real.sqrt Real.pi < 2 := by
          rw [Real.sqrt_lt' (by norm_num)]
          have := Real.pi_lt_four
          linarith
        rw [h]
        linarith
      have hpi3 : (3 : ℝ) < Real.pi := Real.pi_gt_three
      have hpi : 0 < Real.pi := Real.pi_pos
      have hG : 0 < Real.Gamma (3 / 2) := Real.Gamma_pos_of_pos (by norm_num)
      have hexp : Real.exp (lgamma (3 / 2)) = Real.Gamma (3 / 2) := by
        unfold lgamma
        rw [abs_of_pos hG, Real.exp_log hG]
      have hsin1 : Real.sin (M_PI_2 * (3 / 2)) ≤ 1 := Real.sin_le_one _
      have hcl0 := common_coef_three_halves_pos
      have hcl : 3 / 2 * Real.sin (M_PI_2 * (3 / 2)) / M_PI < 1 / 2 := by
        unfold M_PI
        rw [div_lt_iff₀ hpi]
        nlinarith
      have hB0 : 0 ≤ 2e4 * (3 / 2 * Real.sin (M_PI_2 * (3 / 2)) / M_PI)
          * Real.exp (lgamma (3 / 2)) := by
        rw [hexp]
        positivity
      have hB : 2e4 * (3 / 2 * Real.sin (M_PI_2 * (3 / 2)) / M_PI) * Real.exp (lgamma (3 / 2))
          < 10000 := by
        rw [hexp]
        have h1 : 3 / 2 * Real.sin (M_PI_2 * (3 / 2)) / M_PI * Real.Gamma (3 / 2) < 1 / 2 * 1 :=
          mul_lt_mul hcl Gamma_three_halves_lt_one.le hG (by norm_num)
        nlinarith
      have hexpo : (1.0 / ((3 / 2 : ℝ) + 1)) = 2 / 5 := by norm_num
      rw [hexpo]
      calc (2e4 * (3 / 2 * Real.sin (M_PI_2 * (3 / 2)) / M_PI) * Real.exp (lgamma (3 / 2)))
            ^ (2 / 5 : ℝ)
          ≤ (10000 : ℝ) ^ (2 / 5 : ℝ) :=
            Real.rpow_le_rpow hB0 hB.le (by norm_num)
        _ < (10000 : ℝ) ^ (1 : ℝ) :=
            Real.rpow_lt_rpow_of_exponent_lt (by norm_num) (by norm_num)
        _ = 10000 := Real.rpow_one _
    have hx : (scale * 10000 - (commonInstance scale).mu) / (commonInstance scale).sigma
        = 10000 := by
      show (scale * 10000 - 0) / scale = 10000
      field_simp
    have habs : |(10000 : ℝ)| = 10000 := abs_of_pos (by norm_num)
    rw [pdfForCommonExponent_tail lgamma rm theta0Init fuel (commonInstance scale) (scale * 10000)]
    · rw [hx, habs]
      unfold pdfTailForCommonExponent
      simp only
      rw [if_pos (by norm_num)]
      congr 1
      show Real.exp (lgamma (3 / 2) - (3 / 2 + 1) * Real.log 10000)
          * (3 / 2 * Real.sin (M_PI_2 * (3 / 2)) / M_PI) * (1 + 0) = _
      ring
    · rw [hx]
      intro hc
      have : (commonInstance scale).alpha < 1 := hc.2.1
      have h2 : (commonInstance scale).alpha = 3 / 2 := rfl
      rw [h2] at this
      norm_num at this
    · rw [hx]
      intro hc
      exact hc.1 (by norm_num)
    · rw [hx, habs]
      norm_num
    · rw [hx, if_pos (by norm_num)]
      show -(0 : ℝ) < M_PI_2
      unfold M_PI_2
      have := Real.pi_pos
      linarith
    · rw [hx, habs]
      exact common_limit_three_halves_lt
  have common_coef_three_halves_pos :
      0 < 3 / 2 * Real.sin (M_PI_2 * (3 / 2)) / M_PI := by
    have hpi : 0 < Real.pi := Real.pi_pos
    have hsin0 : 0 < Real.sin (M_PI_2 * (3 / 2)) := by
      apply Real.sin_pos_of_pos_of_lt_pi
      · unfold M_PI_2
        positivity
      · unfold M_PI_2
        linarith
    unfold M_PI
    positivity
  constructor
  · refine ⟨Real.exp (lgamma (3 / 2) - (3 / 2 + 1) * Real.log 10000)
        * (3 / 2 * Real.sin (M_PI_2 * (3 / 2)) / M_PI), ?_, ?_, ?_, ?_⟩
    · exact mul_pos (Real.exp_pos _) common_coef_three_halves_pos
    · have h := commonInstance_tail rm theta0Init fuel 2 (by norm_num)
      have h2 : (2 : ℝ) * 10000 = 20000 := by norm_num
      rw [h2] at h
      exact h
    · have h := commonInstance_tail rm theta0Init fuel 1 (by norm_num)
      have h2 : (20000 - (commonInstance 2).mu) / (commonInstance 2).sigma
          = (1 : ℝ) * 10000 := by
        show ((20000 : ℝ) - 0) / 2 = 1 * 10000
        norm_num
      rw [h2]
      exact h
    · have hp : 0 < Real.exp (lgamma (3 / 2) - (3 / 2 + 1) * Real.log 10000)
          * (3 / 2 * Real.sin (M_PI_2 * (3 / 2)) / M_PI) :=
        mul_pos (Real.exp_pos _) common_coef_three_halves_pos
      show _ ≠ 1 / (2 : ℝ) * _
      intro hc
      linarith
  · have hpos : (0 : ℝ) < 1.0 / (M_PI * 10000 * 10000) * (1 + 1) := by
      unfold M_PI
      have := Real.pi_pos
      positivity
    refine ⟨1.0 / (M_PI * 10000 * 10000) * (1 + 1), hpos, ?_, ?_, ?_, ?_⟩
    · exact unityInstance_tail rm 2 (by norm_num)
    · have h := unityInstance_tail rm 1 (by norm_num)
      rw [Real.log_one] at h
      norm_num at h ⊢
      exact h
    · show (2 * (10000 + M_2_PI * 1 * Real.log 2) - 0) / 2 - M_2_PI * 1 * Real.log 2
        = (10000 - 0) / 1 - M_2_PI * 1 * Real.log 1
      rw [Real.log_one]
      ring
    · show _ ≠ 1 / (2 : ℝ) * _
      intro hc
      linarith

/-- C22, evaluation at the failing input StableRand(0.5, -1, 1, 1), the LEVY regime with
beta = -1, mu = 1, sigma = 1: Mode() returns mu + beta sigma / 3 = 2/3, the implemented
density at that point is f(2/3) = pdfLevy(-2/3) = 0, and f(-4/3) = pdfLevy(4/3) is
positive, so f(Mode()) is neither positive nor the maximum of f. -/
theorem C22_levy_mode_outside_support (baseMode : StableRand → ℝ)
    (pdfForUnityExponent pdfForCommonExponent : StableRand → ℝ → ℝ) :
    Mode baseMode levyInstance = 2 / 3
    ∧ f pdfForUnityExponent pdfForCommonExponent levyInstance (Mode baseMode levyInstance)
        = Value.num 0
    ∧ f pdfForUnityExponent pdfForCommonExponent levyInstance (-(4 / 3))
        = Value.num (pdfLevy levyInstance (4 / 3))
    ∧ 0 < pdfLevy levyInstance (4 / 3) := by
  have hmode : Mode baseMode levyInstance = 2 / 3 := by
    unfold Mode
    have hb : levyInstance.beta = -1 := rfl
    have hm : levyInstance.mu = 1 := rfl
    have hs : levyInstance.sigma = 1 := rfl
    have hd : levyInstance.distributionId = LEVY := rfl
    rw [hb, hm, hs, hd, if_neg (by norm_num), if_pos rfl]
    norm_num
  have hf : ∀ x, f pdfForUnityExponent pdfForCommonExponent levyInstance x
      = Value.num (pdfLevy levyInstance (-x)) := by
    intro x
    show Value.num (if levyInstance.beta > 0 then pdfLevy levyInstance x
      else pdfLevy levyInstance (-x)) = _
    have hb : levyInstance.beta = -1 := rfl
    rw [hb, if_neg (by norm_num)]
  refine ⟨hmode, ?_, ?_, ?_⟩
  · rw [hmode, hf]
    unfold pdfLevy
    have hm : levyInstance.mu = 1 := rfl
    rw [hm, if_pos (by norm_num)]
  · rw [hf, neg_neg]
  · unfold pdfLevy
    have hm : levyInstance.mu = 1 := rfl
    have hs : levyInstance.sigma = 1 := rfl
    have hc : levyInstance.pdfCoef = M_1_SQRT2PI * Real.sqrt 1 := rfl
    rw [hm, hs, hc, if_neg (by norm_num)]
    simp only
    have hpi : 0 < Real.pi := Real.pi_pos
    have h3 : (0 : ℝ) < 1.0 / (4 / 3 - 1) := by norm_num
    unfold M_1_SQRT2PI
    rw [Real.sqrt_one]
    have hsq : 0 < Real.sqrt (1.0 / (4 / 3 - 1)) := Real.sqrt_pos.mpr h3
    have hsq2 : 0 < Real.sqrt (2 * Real.pi) := Real.sqrt_pos.mpr (by positivity)
    positivity

end StableRand

end RandLib
